import Mathlib

/-!
# C-teaching: counting semaphores, admission control, echo protocol, bounded buffer

A shallow embedding of the semaphore-coordinated programs of the repository:

* `lab11-echoserver-process-thread/ES-MP-LimitConn/multithread.c` and `multiprocess.c`
  (echo servers that admit at most `MAX_CONCURRENCY` workers through the semaphore
  `connections`),
* `lab11-echoserver-process-thread/ES-MT-Logger/echo_server_mt_logger.c`
  (echo server with a circular log buffer: `my_log` producers, one `logger` consumer),
* `lab05-producer-consumer/many_prod_many_cons.c` (circular buffer of transactions).

System calls are modelled by the value they return (and the `errno` they leave), chosen
by the environment; a blocked `sem_wait` is a step that is not enabled.
-/

namespace CTeaching

/-! ## POSIX counting semaphores -/

/-- The call `sem_wait(&s)` on a semaphore of value `v`: a positive value is decremented;
at value `0` the caller blocks, that is, the step is not enabled (`none`). -/
def sem_wait (v : Nat) : Option Nat :=
  if 0 < v then some (v - 1) else none

/-- The call `sem_post(&s)` on a semaphore of value `v`. -/
def sem_post (v : Nat) : Nat := v + 1

/-- One completed operation on the admission semaphore `connections`: `acquire` is the
dispatcher's `sem_wait(&connections)` in `main`, `release` the `sem_post(&connections)`
at the end of `connection_handler`. -/
inductive SemOp where
  | acquire
  | release
  deriving DecidableEq, Repr

/-- Effect of one operation on the value of the semaphore. -/
def SemOp.apply (v : Nat) : SemOp → Option Nat
  | .acquire => sem_wait v
  | .release => some (sem_post v)

/-- Value of the semaphore after the operations `ops` have completed in this order, starting
from value `v`; `none` when one of the acquires cannot complete (it blocks at value `0`). -/
def semRun (v : Nat) : List SemOp → Option Nat
  | [] => some v
  | op :: ops => (op.apply v).bind fun w => semRun w ops

/-- Number of acquires of `ops` that have no release yet (truncated at zero). -/
def outstanding (ops : List SemOp) : Nat :=
  ops.count .acquire - ops.count .release

/-- Every release is preceded by its matching acquire: in every prefix of the sequence
there are at most as many releases as acquires. -/
def Matched (ops : List SemOp) : Prop :=
  ∀ n ≤ ops.length, (ops.take n).count .release ≤ (ops.take n).count .acquire

instance (ops : List SemOp) : Decidable (Matched ops) := by
  unfold Matched; infer_instance

/-! ## System calls, `errno` and `ERROR_HELPER` -/

/-- Bytes of a string literal. -/
def bytes (s : String) : List Nat := s.toList.map Char.toNat

/-- The `errno` value of a call interrupted by a signal. -/
def EINTR : Nat := 4

/-- Exit status `EXIT_SUCCESS`. -/
def EXIT_SUCCESS : Nat := 0

/-- Exit status `EXIT_FAILURE`. -/
def EXIT_FAILURE : Nat := 1

/-- `#define SERVER_COMMAND "QUIT"` (common.h). -/
def SERVER_COMMAND : List Nat := bytes "QUIT"

/-- `ERROR_HELPER(ret, msg)`, that is `GENERIC_ERROR_HELPER((ret < 0), errno, msg)`: `true`
when the macro prints the message and calls `exit(EXIT_FAILURE)`. -/
def ERROR_HELPER (ret : Int) : Bool := decide (ret < 0)

/-- What the environment answers to one system call of a thread.
* `data bs`: a `recv` stored the bytes `bs` in `buf` and returned their number
  (`data []` is `recv` returning 0: the peer has closed the connection);
* `ret n`: a `send`, `close`, `sem_post`, `accept`, ... returned `n ≥ 0`; `errno` keeps its value;
* `fail e`: the call returned `-1` and set `errno` to `e`. -/
inductive Resp where
  | data (bs : List Nat)
  | ret (n : Nat)
  | fail (e : Nat)
  deriving DecidableEq, Repr

/-- The value returned to the C code. -/
def Resp.val : Resp → Int
  | .data bs => bs.length
  | .ret n => n
  | .fail _ => -1

/-! ## `connection_handler` -/

/-- The three servers that share the body of `connection_handler`: `thread` is
ES-MP-LimitConn/multithread.c, `process` ES-MP-LimitConn/multiprocess.c and `logger`
ES-MT-Logger/echo_server_mt_logger.c. -/
inductive Variant where
  | thread
  | process
  | logger
  deriving DecidableEq, Repr

/-- Static data of one activation of `connection_handler`. -/
structure Handler where
  /-- which server the handler belongs to -/
  variant : Variant
  /-- the welcome message that `sprintf` composes in `buf` (it names the client's address
  and port and the quit command) -/
  welcome : List Nat
  /-- number of bytes asked from `recv`: `sizeof(buf)` (1024), or `DEFAULT_BUFFER_SIZE` -/
  buf_len : Nat
  /-- `quit_command`, initialised with `SERVER_COMMAND` -/
  quit_command : List Nat
  /-- logger variant: the text "Message received from client ip:port: " before the message -/
  log_prefix : List Nat
  /-- logger variant: the text "Thread created to handle the client ip:port has completed" -/
  log_done : List Nat
  deriving DecidableEq, Repr

/-- The system call at which a worker is waiting, or how it has ended. -/
inductive Pc where
  /-- process variant, child branch of `main`: at `close(socket_desc)` of the listening socket -/
  | childInit
  /-- at the `send` of the welcome loop -/
  | welcome
  /-- at the `recv` of the echo loop -/
  | receive
  /-- at the `send` of the echo loop -/
  | echo
  /-- at `close(socket_desc)` after the echo loop -/
  | closing
  /-- at `sem_post(&connections)` -/
  | posting
  /-- the handler has run to its end (`pthread_exit(NULL)`, or return to the child's
  `exit(EXIT_SUCCESS)`) -/
  | returned
  /-- the handler has called `exit(status)` -/
  | exited (status : Nat)
  deriving DecidableEq, Repr

/-- What a handler has done so far, in order. -/
inductive Action where
  /-- a `send` has transmitted these bytes -/
  | sent (bs : List Nat)
  /-- a `recv` has delivered these bytes -/
  | received (bs : List Nat)
  /-- `my_log(msg)` has been called -/
  | logged (msg : List Nat)
  /-- `close(socket_desc)` has returned 0 -/
  | closed
  /-- `sem_post(&connections)` has returned 0 -/
  | posted
  /-- `exit(status)` has been called -/
  | exit (status : Nat)
  deriving DecidableEq, Repr

/-- Local state of `connection_handler`. -/
structure HState where
  pc : Pc
  /-- content of `buf` as far as it has been written -/
  buf : List Nat
  msg_len : Nat
  recv_bytes : Nat
  bytes_sent : Nat
  /-- the thread's `errno` -/
  errno : Nat
  trace : List Action
  deriving DecidableEq, Repr

/-- `strlen` of a buffer content. -/
def strlen (l : List Nat) : Nat := (l.takeWhile (· ≠ 0)).length

/-- `memcmp(a, b, n) == 0`. -/
def memcmp_eq (a b : List Nat) (n : Nat) : Bool := a.take n == b.take n

/-- The test `recv_bytes == quit_command_len && !memcmp(buf, quit_command, quit_command_len)`
with `quit_command_len = strlen(quit_command)`. -/
def is_quit (buf : List Nat) (recv_bytes : Nat) (quit_command : List Nat) : Bool :=
  decide (recv_bytes = strlen quit_command) && memcmp_eq buf quit_command (strlen quit_command)

/-- Appends an action to the trace. -/
def HState.emit (s : HState) (a : Action) : HState :=
  { s with trace := s.trace ++ [a] }

/-- The effect of `exit(EXIT_FAILURE)`, as called by `ERROR_HELPER`. -/
def HState.die (s : HState) : HState :=
  { s with pc := .exited EXIT_FAILURE, trace := s.trace ++ [.exit EXIT_FAILURE] }

/-- Loop test `while (bytes_sent < msg_len)` of the welcome loop; after the loop comes the
`recv` of the echo loop. -/
def welcomeTest (s : HState) : HState :=
  if s.bytes_sent < s.msg_len then { s with pc := .welcome } else { s with pc := .receive }

/-- Loop test `while (bytes_sent < recv_bytes)` of the echo loop; after the loop the handler
is back at `recv`. -/
def echoTest (s : HState) : HState :=
  if s.bytes_sent < s.recv_bytes then { s with pc := .echo } else { s with pc := .receive }

/-- Body of both send loops, for the answer `r` to
`ret = send(socket_desc, buf+bytes_sent, len-bytes_sent, 0)`:
```
if (ret == 1 && errno == EINTR) continue;
ERROR_HELPER(ret, "Cannot write to socket");
bytes_sent += ret;
```
followed by the loop test `test`. An answer larger than the length asked for, or of the
wrong kind, is no answer to this call (`none`). -/
def sendBody (s : HState) (len : Nat) (test : HState → HState) (r : Resp) : Option HState :=
  match r with
  | .ret n =>
    if len - s.bytes_sent < n then none
    else
      -- the first `n` bytes at `buf+bytes_sent` are on the wire
      let s1 := s.emit (.sent ((s.buf.drop s.bytes_sent).take n))
      if r.val = 1 ∧ s1.errno = EINTR then some (test s1)
      else if ERROR_HELPER r.val then some s1.die
      else some (test { s1 with bytes_sent := s1.bytes_sent + n })
  | .fail e =>
    let s1 := { s with errno := e }
    if r.val = 1 ∧ s1.errno = EINTR then some (test s1)
    else if ERROR_HELPER r.val then some s1.die
    else some (test s1)
  | .data _ => none

/-- Initial state of `connection_handler` in a thread (or child process) whose `errno` is
`errno0`: `buf` holds the welcome message, `msg_len = strlen(buf)`, `bytes_sent = 0`, and the
handler is at the test of the welcome loop. The child process of the process variant first
closes the listening socket. -/
def connection_handler (h : Handler) (errno0 : Nat) : HState :=
  let s : HState :=
    { pc := .welcome, buf := h.welcome, msg_len := strlen h.welcome, recv_bytes := 0,
      bytes_sent := 0, errno := errno0, trace := [] }
  if h.variant = .process then { s with pc := .childInit } else welcomeTest s

/-- Text that `snprintf(log_msg, sizeof(log_msg), "Message received from client %s:%hu: %s",
client_ip, client_port, buf)` leaves in `log_msg` (an array of `buf_len` characters), once
`buf[recv_bytes] = 0` has been set. -/
def received_log_msg (h : Handler) (s : HState) : List Nat :=
  let text := (s.buf.take s.recv_bytes).takeWhile (· ≠ 0)
  (h.log_prefix ++ text).take (h.buf_len - 1)

/-- Logger variant only: `buf[recv_bytes] = 0; snprintf(log_msg, ...); my_log(log_msg);`
after a message has been received. -/
def logReceived (h : Handler) (s : HState) : HState :=
  if h.variant = .logger then
    let s1 := { s with buf := s.buf.set s.recv_bytes 0 }
    s1.emit (.logged (received_log_msg h s1))
  else s

/-- After a message has been received: `if (recv_bytes == quit_command_len &&
!memcmp(buf, quit_command, quit_command_len)) break;`, else `bytes_sent = 0` and the echo
send loop. -/
def afterRecv (h : Handler) (s : HState) : HState :=
  if is_quit s.buf s.recv_bytes h.quit_command then { s with pc := .closing }
  else echoTest { s with bytes_sent := 0 }

/-- Body of the receive loop, for the answer `r` to
`recv_bytes = recv(socket_desc, buf, buf_len, 0)`:
```
while ( (recv_bytes = recv(...)) <= 0 ) {
    if (recv_bytes == 0) ERROR_HELPER(-1, "Connection closed unexpectedly!");
    if (errno == EINTR) continue;
    ERROR_HELPER(-1, "Cannot read from socket");
}
```
More bytes than asked for, or an answer of the wrong kind, is no answer to this call. -/
def recvBody (h : Handler) (s : HState) (r : Resp) : Option HState :=
  match r with
  | .data bs =>
    if h.buf_len < bs.length then none
    else if bs.length = 0 then
      if ERROR_HELPER (-1) then some s.die else some s
    else
      let s1 := { s with recv_bytes := bs.length, buf := bs ++ s.buf.drop bs.length }
      some (afterRecv h (logReceived h (s1.emit (.received bs))))
  | .fail e =>
    let s1 := { s with errno := e }
    if s1.errno = EINTR then some s1
    else if ERROR_HELPER (-1) then some s1.die else some s1
  | .ret _ => none

/-- `ret = close(socket_desc); ERROR_HELPER(ret, "Cannot close socket for incoming
connection");` and what follows up to the next call: the LimitConn servers go on to
`sem_post(&connections)`, the logger variant logs the completion and ends the thread. -/
def closeBody (h : Handler) (s : HState) (r : Resp) : Option HState :=
  match r with
  | .ret 0 =>
    if h.variant = .logger then some { (s.emit .closed).emit (.logged h.log_done) with pc := .returned }
    else some { s.emit .closed with pc := .posting }
  | .fail e => if ERROR_HELPER (-1) then some { s with errno := e }.die else some s
  | _ => none

/-- `ret = sem_post(&connections); ERROR_HELPER(ret, "Post on semaphore failed");` and the
end of the handler. -/
def postBody (s : HState) (r : Resp) : Option HState :=
  match r with
  | .ret 0 => some { s.emit .posted with pc := .returned }
  | .fail e => if ERROR_HELPER (-1) then some { s with errno := e }.die else some s
  | _ => none

/-- Child branch of `main` in the process variant:
`ret = close(socket_desc); if (ret == -1) { ...; exit(EXIT_FAILURE); }`, then
`connection_handler(client_desc, client_addr)`. -/
def childInitBody (s : HState) (r : Resp) : Option HState :=
  match r with
  | .ret 0 => some (welcomeTest s)
  | .fail e => some { s with errno := e }.die
  | _ => none

/-- One step of a worker: the code executed from the answer `r` to the pending system call
up to the next system call. `none`: the worker has ended, or `r` is no answer to the pending
call. Diagnostics printed on `stderr` are not part of the state. -/
def hstep (h : Handler) (s : HState) (r : Resp) : Option HState :=
  match s.pc with
  | .childInit => childInitBody s r
  | .welcome => sendBody s s.msg_len welcomeTest r
  | .receive => recvBody h s r
  | .echo => sendBody s s.recv_bytes echoTest r
  | .closing => closeBody h s r
  | .posting => postBody s r
  | .returned => none
  | .exited _ => none

/-- Runs a worker on the answers `rs` to its successive system calls. -/
def hrun (h : Handler) (s : HState) : List Resp → Option HState
  | [] => some s
  | r :: rs => (hstep h s r).bind fun s' => hrun h s' rs

/-- All bytes transmitted by the `send` calls of a trace, in order. -/
def output : List Action → List Nat
  | [] => []
  | .sent bs :: as => bs ++ output as
  | _ :: as => output as

/-- Number of completed `sem_post(&connections)` in a trace. -/
def posts (tr : List Action) : Nat := tr.count .posted

/-- Number of completed `close(socket_desc)` in a trace. -/
def closes (tr : List Action) : Nat := tr.count .closed

/-! ## The admission-limited servers: dispatcher loop of `main` and its workers -/

/-- The call at which the dispatcher loop of `main` is waiting. -/
inductive DPc where
  /-- at `accept(socket_desc, ...)` -/
  | accepting
  /-- at `sem_wait(&connections)` (LimitConn servers only) -/
  | waiting
  /-- at `pthread_create(&thread, NULL, connection_handler, thread_args)`, or at `fork()` -/
  | spawning
  /-- at `pthread_detach(thread)`, or in the parent at `close(client_desc)` -/
  | detaching
  deriving DecidableEq, Repr

/-- State of a server process together with the workers it has spawned. -/
structure Server where
  /-- value of the semaphore `connections` -/
  connections : Nat
  dispatcher : DPc
  /-- `errno` of the dispatcher (the main thread) -/
  errno : Nat
  /-- the workers spawned so far, in the order of their creation -/
  workers : List HState
  /-- `some status` once the server process has called `exit(status)`: none of its threads
  (dispatcher, handlers, logger thread) runs any more -/
  halted : Option Nat
  deriving DecidableEq, Repr

/-- A step of the server: the dispatcher receives the answer to its pending call, the
dispatcher's `sem_wait(&connections)` completes, or worker `i` receives the answer to its
pending call. -/
inductive SStep where
  | main (r : Resp)
  | semWait
  | worker (i : Nat) (r : Resp)
  deriving DecidableEq, Repr

/-- `sem_init(&connections, 0, MAX_CONCURRENCY)` (or `sem_open` with that value), then the
dispatcher loop starts. -/
def Server.init (MAX_CONCURRENCY : Nat) : Server :=
  { connections := MAX_CONCURRENCY, dispatcher := .accepting, errno := 0, workers := [],
    halted := none }

/-- `exit(status)` of the server process. -/
def Server.halt (s : Server) (status : Nat) : Server :=
  { s with halted := some status }

/-- The worker that `pthread_create` or `fork` starts: a new thread begins with `errno0` in
its own `errno`, a child process with a copy of its parent's `errno`. -/
def Server.spawn (h : Handler) (errno0 : Nat) (s : Server) : Server :=
  { s with
    workers := s.workers ++
      [connection_handler h (if h.variant = .process then s.errno else errno0)],
    dispatcher := .detaching }

/-- One step of the server. `none`: the step is not enabled. -/
def sstep (h : Handler) (errno0 : Nat) (s : Server) (st : SStep) : Option Server :=
  if s.halted.isSome then none
  else
    match st with
    | .main r =>
      match s.dispatcher with
      | .accepting =>
        -- `if (client_desc == -1 && errno == EINTR) continue; ERROR_HELPER(client_desc, ...);`
        match r with
        | .ret _ =>
          some { s with dispatcher := if h.variant = .logger then .spawning else .waiting }
        | .fail e =>
          if e = EINTR then some { s with errno := e }
          else some ({ s with errno := e }.halt EXIT_FAILURE)
        | .data _ => none
      | .waiting =>
        -- `ret = sem_wait(&connections); ERROR_HELPER(ret, "Wait on semaphore failed");`
        match r with
        | .fail _ => some (s.halt EXIT_FAILURE)
        | _ => none
      | .spawning =>
        -- `pthread_create` returns 0 or an error number; `fork` returns -1 on error
        match r with
        | .ret 0 => some (s.spawn h errno0)
        | .ret _ => if h.variant = .process then some (s.spawn h errno0)
            else some (s.halt EXIT_FAILURE)
        | .fail _ => some (s.halt EXIT_FAILURE)
        | .data _ => none
      | .detaching =>
        match r with
        | .ret 0 => some { s with dispatcher := .accepting }
        | .ret _ => if h.variant = .process then none else some (s.halt EXIT_FAILURE)
        | .fail _ => some (s.halt EXIT_FAILURE)
        | .data _ => none
    | .semWait =>
      -- the dispatcher's `sem_wait(&connections)` returns 0
      match s.dispatcher with
      | .waiting =>
        (sem_wait s.connections).map fun v => { s with connections := v, dispatcher := .spawning }
      | _ => none
    | .worker i r =>
      match s.workers[i]? with
      | none => none
      | some w =>
        (hstep h w r).map fun w' =>
          let s1 := { s with workers := s.workers.set i w' }
          -- a completed `sem_post(&connections)` raises the semaphore
          let s2 := if w.pc = .posting ∧ w'.pc = .returned then
              { s1 with connections := sem_post s1.connections } else s1
          -- `exit` in a thread ends the whole process; in a child process only the child
          match w'.pc with
          | .exited status => if h.variant = .process then s2 else s2.halt status
          | _ => s2

/-- Runs the server on a sequence of steps. -/
def srun (h : Handler) (errno0 : Nat) (s : Server) : List SStep → Option Server
  | [] => some s
  | st :: sts => (sstep h errno0 s st).bind fun s' => srun h errno0 s' sts

/-- A worker that has been spawned and whose handler is still unfinished: it has neither
completed its `sem_post(&connections)` nor called `exit`. -/
def Pc.running : Pc → Bool
  | .returned => false
  | .exited _ => false
  | _ => true

/-- Number of workers that are still running. -/
def Server.running (s : Server) : Nat := s.workers.countP fun w => w.pc.running

/-- A worker that has called `exit` inside its handler: it has ended without a
`sem_post(&connections)`. -/
def Pc.crashed : Pc → Bool
  | .exited _ => true
  | _ => false

/-- Number of workers that have ended through `exit` inside their handler. -/
def Server.crashed (s : Server) : Nat := s.workers.countP fun w => w.pc.crashed

/-- The slot that the dispatcher has acquired for the worker it is about to spawn. -/
def Server.holding (s : Server) : Nat := if s.dispatcher = .spawning then 1 else 0

/-! ## The circular buffer guarded by `empty_count` and `fill_count`

`my_log` and `logger` of echo_server_mt_logger.c, `performTransactions` and
`processTransactions` of many_prod_many_cons.c. Every `sem_wait`, every `sem_post`, the
access to the slot and the update of an index is one step of the thread that executes it. -/

/-- Which program runs on the buffer. -/
structure BufCfg where
  /-- `BUFFER_SIZE`, or `LOG_BUFFER_SIZE` -/
  SIZE : Nat
  /-- producers enclose the write in `sem_wait(&write_mutex)` ... `sem_post(&write_mutex)` -/
  write_mutexed : Bool
  /-- consumers enclose the read in `sem_wait(&read_mutex)` ... `sem_post(&read_mutex)` -/
  read_mutexed : Bool
  deriving DecidableEq, Repr

/-- `many_prod_many_cons.c`: `BUFFER_SIZE` is 128, both indexes have a mutex. -/
def many_prod_many_cons : BufCfg := { SIZE := 128, write_mutexed := true, read_mutexed := true }

/-- `echo_server_mt_logger.c`: `LOG_BUFFER_SIZE` is 128; `my_log` takes `write_mutex`, the
single `logger` thread reads without a mutex. -/
def echo_server_mt_logger : BufCfg := { SIZE := 128, write_mutexed := true, read_mutexed := false }

/-- Next statement of a producer (one call of `my_log`, or one round of the loop of
`performTransactions`). -/
inductive PPc (α : Type) where
  /-- composing its next item (`performRandomTransaction()`, or the `malloc` and `sprintf`
  of `my_log`); also a thread that is not inside `my_log` -/
  | producing
  /-- at `sem_wait(&empty_count)`, holding item `x` -/
  | waitEmpty (x : α)
  /-- at `sem_wait(&write_mutex)` -/
  | waitMutex (x : α)
  /-- at `buffer[write_index] = x` -/
  | store (x : α)
  /-- at `write_index = (write_index + 1) % SIZE` -/
  | advance
  /-- at `sem_post(&write_mutex)` -/
  | postMutex
  /-- at `sem_post(&fill_count)` -/
  | postFill
  deriving DecidableEq, Repr

/-- Next statement of a consumer (`logger`, or `processTransactions`). -/
inductive CPc where
  /-- at `sem_wait(&fill_count)` -/
  | waitFill
  /-- at `sem_wait(&read_mutex)` -/
  | waitMutex
  /-- at the read of `buffer[read_index]` -/
  | load
  /-- at `read_index = (read_index + 1) % SIZE` -/
  | advance
  /-- at `sem_post(&read_mutex)` -/
  | postMutex
  /-- at `sem_post(&empty_count)`; the logger first writes the record to the log file and
  frees it -/
  | postEmpty
  deriving DecidableEq, Repr

/-- The shared variables, the threads, and the history of the items stored and read. -/
structure BState (α : Type) where
  /-- `transactions[]` or `log_buffer[]`; `none` is a slot never written -/
  slots : List (Option α)
  fill_count : Nat
  empty_count : Nat
  write_mutex : Nat
  read_mutex : Nat
  read_index : Nat
  write_index : Nat
  producers : List (PPc α)
  consumers : List CPc
  /-- history: the items stored in the buffer, in the order of the stores -/
  puts : List α
  /-- history: the slot contents read by the consumers, in the order of the reads -/
  takes : List (Option α)
  deriving DecidableEq, Repr

/-- State after the initialisation in `main`: both indexes 0, `fill_count` 0, `empty_count`
the capacity, the mutexes 1; `np` producer and `nc` consumer threads at their first
statement. -/
def BState.init {α : Type} (c : BufCfg) (np nc : Nat) : BState α :=
  { slots := List.replicate c.SIZE none, fill_count := 0, empty_count := c.SIZE,
    write_mutex := 1, read_mutex := 1, read_index := 0, write_index := 0,
    producers := List.replicate np .producing, consumers := List.replicate nc .waitFill,
    puts := [], takes := [] }

/-- A step of the program on the buffer. -/
inductive BStep (α : Type) where
  /-- a further thread is created that will call `my_log` -/
  | newProducer
  /-- producer `i` has composed item `x` and reaches `sem_wait(&empty_count)` -/
  | produce (i : Nat) (x : α)
  /-- producer `i` executes its next statement -/
  | producer (i : Nat)
  /-- consumer `j` executes its next statement -/
  | consumer (j : Nat)
  deriving DecidableEq, Repr

/-- The statement that producer `i` executes next in state `s`: the body of `my_log` from
`sem_wait(&empty_count)` to `sem_post(&fill_count)`, which is also the body of the loop of
`performTransactions`. -/
def my_log {α : Type} (c : BufCfg) (s : BState α) (i : Nat) : Option (BState α) :=
  match s.producers[i]? with
  | some (.waitEmpty x) =>
    (sem_wait s.empty_count).map fun v =>
      { s with empty_count := v,
               producers := s.producers.set i (if c.write_mutexed then .waitMutex x else .store x) }
  | some (.waitMutex x) =>
    (sem_wait s.write_mutex).map fun v =>
      { s with write_mutex := v, producers := s.producers.set i (.store x) }
  | some (.store x) =>
    some { s with slots := s.slots.set s.write_index (some x), puts := s.puts ++ [x],
                  producers := s.producers.set i .advance }
  | some .advance =>
    some { s with write_index := (s.write_index + 1) % c.SIZE,
                  producers := s.producers.set i (if c.write_mutexed then .postMutex else .postFill) }
  | some .postMutex =>
    some { s with write_mutex := sem_post s.write_mutex, producers := s.producers.set i .postFill }
  | some .postFill =>
    some { s with fill_count := sem_post s.fill_count, producers := s.producers.set i .producing }
  | _ => none

/-- The statement that consumer `j` executes next in state `s`: the body of the loop of
`logger` from `sem_wait(&fill_count)` to `sem_post(&empty_count)`; with `read_mutexed` it is
the body of the loop of `processTransactions`. -/
def logger {α : Type} (c : BufCfg) (s : BState α) (j : Nat) : Option (BState α) :=
  match s.consumers[j]? with
  | some .waitFill =>
    (sem_wait s.fill_count).map fun v =>
      { s with fill_count := v,
               consumers := s.consumers.set j (if c.read_mutexed then .waitMutex else .load) }
  | some .waitMutex =>
    (sem_wait s.read_mutex).map fun v =>
      { s with read_mutex := v, consumers := s.consumers.set j .load }
  | some .load =>
    some { s with takes := s.takes ++ [s.slots.getD s.read_index none],
                  consumers := s.consumers.set j .advance }
  | some .advance =>
    some { s with read_index := (s.read_index + 1) % c.SIZE,
                  consumers := s.consumers.set j (if c.read_mutexed then .postMutex else .postEmpty) }
  | some .postMutex =>
    some { s with read_mutex := sem_post s.read_mutex, consumers := s.consumers.set j .postEmpty }
  | some .postEmpty =>
    some { s with empty_count := sem_post s.empty_count, consumers := s.consumers.set j .waitFill }
  | none => none

/-- One step of the program. `none`: the step is not enabled (the thread does not exist, it
is not at that statement, or its `sem_wait` blocks). -/
def bstep {α : Type} (c : BufCfg) (s : BState α) : BStep α → Option (BState α)
  | .newProducer => some { s with producers := s.producers ++ [.producing] }
  | .produce i x =>
    match s.producers[i]? with
    | some .producing => some { s with producers := s.producers.set i (.waitEmpty x) }
    | _ => none
  | .producer i => my_log c s i
  | .consumer j => logger c s j

/-- Runs the program on a sequence of steps (an interleaving of its threads). -/
def brun {α : Type} (c : BufCfg) (s : BState α) : List (BStep α) → Option (BState α)
  | [] => some s
  | st :: sts => (bstep c s st).bind fun s' => brun c s' sts

/-- Producers that have passed `sem_wait(&empty_count)` and have not yet written their slot. -/
def PPc.reserved {α : Type} : PPc α → Nat
  | .waitMutex _ => 1
  | .store _ => 1
  | _ => 0

/-- Producers that have written their slot and have not yet passed `sem_post(&fill_count)`. -/
def PPc.stored {α : Type} : PPc α → Nat
  | .advance => 1
  | .postMutex => 1
  | .postFill => 1
  | _ => 0

/-- Producers between their wait and their post on `write_mutex`. -/
def PPc.locked {α : Type} : PPc α → Nat
  | .store _ => 1
  | .advance => 1
  | .postMutex => 1
  | _ => 0

/-- Producers that have written their slot and not yet advanced `write_index`. -/
def PPc.pending {α : Type} : PPc α → Nat
  | .advance => 1
  | _ => 0

/-- Consumers that have passed `sem_wait(&fill_count)` and have not yet read their slot. -/
def CPc.claimed : CPc → Nat
  | .waitMutex => 1
  | .load => 1
  | _ => 0

/-- Consumers that have read their slot and have not yet passed `sem_post(&empty_count)`. -/
def CPc.taken : CPc → Nat
  | .advance => 1
  | .postMutex => 1
  | .postEmpty => 1
  | _ => 0

/-- Consumers between their wait and their post on `read_mutex`. -/
def CPc.locked : CPc → Nat
  | .load => 1
  | .advance => 1
  | .postMutex => 1
  | _ => 0

/-- Consumers that have read their slot and not yet advanced `read_index`. -/
def CPc.pending : CPc → Nat
  | .advance => 1
  | _ => 0

/-- Consumers at the read of the slot or at the update of `read_index`. -/
def CPc.atIndex : CPc → Nat
  | .load => 1
  | .advance => 1
  | _ => 0

/-- Number of threads of `l`, counted with the weight `f`. -/
def weight {β : Type} (f : β → Nat) (l : List β) : Nat := (l.map f).sum

/-- Producers inside a put: between `sem_wait(&empty_count)` and `sem_post(&fill_count)`. -/
def BState.putsInProgress {α : Type} (s : BState α) : Nat :=
  weight PPc.reserved s.producers + weight PPc.stored s.producers

/-- Consumers inside a take: between `sem_wait(&fill_count)` and `sem_post(&empty_count)`. -/
def BState.takesInProgress {α : Type} (s : BState α) : Nat :=
  weight CPc.claimed s.consumers + weight CPc.taken s.consumers

/-- No put and no take is in progress. -/
def BState.quiescent {α : Type} (s : BState α) : Prop :=
  s.putsInProgress = 0 ∧ s.takesInProgress = 0

/-- A put can begin: the `sem_wait(&empty_count)` of `my_log` does not block. -/
def BState.putEnabled {α : Type} (s : BState α) : Prop := (sem_wait s.empty_count).isSome

/-- A take can begin: the `sem_wait(&fill_count)` of `logger` does not block. -/
def BState.takeEnabled {α : Type} (s : BState α) : Prop := (sem_wait s.fill_count).isSome

/-- Number of filled slots: records stored in the buffer and not yet read. -/
def BState.filled {α : Type} (s : BState α) : Nat := s.puts.length - s.takes.length

/-- The invariant of the buffer program. -/
structure BInv {α : Type} (c : BufCfg) (s : BState α) : Prop where
  size : s.slots.length = c.SIZE
  fill : s.fill_count + s.takes.length + weight CPc.claimed s.consumers
      + weight PPc.stored s.producers = s.puts.length
  empty : s.empty_count + s.puts.length + weight PPc.reserved s.producers
      + weight CPc.taken s.consumers = c.SIZE + s.takes.length
  wmutex : s.write_mutex + weight PPc.locked s.producers = 1
  rmutex : c.read_mutexed = true → s.read_mutex + weight CPc.locked s.consumers = 1
  single : c.read_mutexed = false → s.consumers.length ≤ 1
  widx : s.write_index < c.SIZE ∧
      (s.write_index + weight PPc.pending s.producers) % c.SIZE = s.puts.length % c.SIZE
  ridx : s.read_index < c.SIZE ∧
      (s.read_index + weight CPc.pending s.consumers) % c.SIZE = s.takes.length % c.SIZE
  content : ∀ k, s.takes.length ≤ k → ∀ hk : k < s.puts.length,
      s.slots.getD (k % c.SIZE) none = some (s.puts.get ⟨k, hk⟩)
  fifo : s.takes = (s.puts.take s.takes.length).map some

/-- Slot accounting of the admission-limited servers: every slot is free, or held by a
running worker, or was held by a worker that has called `exit`, or is held by the
dispatcher for the worker it is about to spawn. -/
def SInv (N : Nat) (s : Server) : Prop :=
  s.connections + s.running + s.crashed + s.holding = N

/-- The text that `sprintf(buf, "Hi! I'm an echo server. You are %s talking on port %hu.\nI will
send you back whatever you send me. I will stop if you send me %s :-)\n", client_ip,
client_port, quit_command)` composes, for the printed address `ip` and port `port`. -/
def welcome_message (ip port quit_command : List Nat) : List Nat :=
  bytes "Hi! I" ++ [39] ++ bytes "m an echo server. You are " ++ ip ++ bytes " talking on port "
    ++ port ++ bytes ".\nI will send you back whatever you send me. I will stop if you send me "
    ++ quit_command ++ bytes " :-)\n"

/-- The handler of server `v` for the client at address `ip` (as printed by `inet_ntop`) and
port `port` (as printed by `%hu`), with a buffer of `buf_len` bytes. -/
def handlerFor (v : Variant) (ip port : List Nat) (buf_len : Nat) : Handler :=
  { variant := v
    welcome := welcome_message ip port SERVER_COMMAND
    buf_len := buf_len
    quit_command := SERVER_COMMAND
    log_prefix := bytes "Message received from client " ++ ip ++ bytes ":" ++ port ++ bytes ": "
    log_done := bytes "Thread created to handle the client " ++ ip ++ bytes ":" ++ port
      ++ bytes " has completed" }

/-- A handler of the thread-based server of ES-MP-LimitConn for a local client. -/
def localHandler (v : Variant) : Handler := handlerFor v (bytes "127.0.0.1") (bytes "50000") 1024

/-- The steps in which the dispatcher accepts a connection, acquires a slot, spawns the
worker and detaches it. -/
def dispatchOne : List SStep := [.main (.ret 5), .semWait, .main (.ret 0), .main (.ret 0)]

/-- The sizes `ns` are a pattern of partial `send` results for a message of `len` bytes:
every `send` transmits at least one byte and together they transmit `len` bytes (so every
result is between 1 and the number of bytes still to send). -/
def Chunking (ns : List Nat) (len : Nat) : Prop := (∀ n ∈ ns, 0 < n) ∧ ns.sum = len

instance (ns : List Nat) (len : Nat) : Decidable (Chunking ns len) := by
  unfold Chunking; infer_instance

/-- The answers of successive `send` calls that return the sizes `ns`. -/
def sends (ns : List Nat) : List Resp := ns.map .ret

/-- Cuts `l` into consecutive pieces of the sizes `ns`. -/
def chunks (l : List Nat) : List Nat → List (List Nat)
  | [] => []
  | n :: ns => l.take n :: chunks (l.drop n) ns

/-- The answers to the calls of a handler in a session without failing call: the welcome
message goes out in pieces of sizes `ws`; for every pair `(m, cs)` of `ms` a `recv` delivers
the client's message `m`, which is sent back in pieces of sizes `cs`; then a `recv` delivers
`SERVER_COMMAND`, and `close` and `sem_post` return 0. -/
def sessionScript (ws : List Nat) (ms : List (List Nat × List Nat)) : List Resp :=
  sends ws ++ (ms.map fun p => Resp.data p.1 :: sends p.2).flatten
    ++ [.data SERVER_COMMAND, .ret 0, .ret 0]

/-- The trace of that session. -/
def sessionTrace (welcome : List Nat) (ws : List Nat) (ms : List (List Nat × List Nat)) :
    List Action :=
  (chunks welcome ws).map .sent
    ++ (ms.map fun p => Action.received p.1 :: (chunks p.1 p.2).map .sent).flatten
    ++ [.received SERVER_COMMAND, .closed, .posted]

/-- State of a handler that has sent its welcome message in one piece and waits at the
`recv` of the echo loop, with `errno` equal to `e`. -/
def atRecv (h : Handler) (e : Nat) : HState :=
  { pc := .receive, buf := h.welcome, msg_len := strlen h.welcome, recv_bytes := 0,
    bytes_sent := strlen h.welcome, errno := e, trace := [.sent h.welcome] }

/-- A handler that is neither at nor past its `sem_post`: it is at a call of the protocol, or
it has called `exit(EXIT_FAILURE)`. -/
def Pc.beforePost (p : Pc) : Prop :=
  p ≠ .returned ∧ p ≠ .posting ∧ ∀ st, p = .exited st → st = EXIT_FAILURE

instance {α : Type} (s : BState α) : Decidable s.quiescent := by
  unfold BState.quiescent; infer_instance

instance {α : Type} (s : BState α) : Decidable s.putEnabled := by
  unfold BState.putEnabled; infer_instance

instance {α : Type} (s : BState α) : Decidable s.takeEnabled := by
  unfold BState.takeEnabled; infer_instance

/-- The log buffer of echo_server_mt_logger.c with capacity `C` in place of
`LOG_BUFFER_SIZE`. -/
def logBuffer (C : Nat) : BufCfg := { SIZE := C, write_mutexed := true, read_mutexed := false }

/-- The six statements of one put by producer `i`, without interruption. -/
def putSteps {α : Type} (i : Nat) : List (BStep α) :=
  [.producer i, .producer i, .producer i, .producer i, .producer i, .producer i]

/-- The four statements of one take by the logger thread, without interruption. -/
def takeSteps {α : Type} : List (BStep α) :=
  [.consumer 0, .consumer 0, .consumer 0, .consumer 0]

/-- An interleaving of two producers and two consumers of many_prod_many_cons.c: producer 0
composes 7 and producer 1 composes -3; producer 1 gets `write_mutex` first and stores -3,
then producer 0 stores 7; consumer 1 reads the first slot, consumer 0 the second. -/
def sampleInterleaving : List (BStep Int) :=
  [.produce 0 7, .produce 1 (-3), .producer 0, .producer 1, .producer 1, .producer 1,
   .producer 1, .producer 1, .producer 0, .producer 1, .consumer 1, .producer 0,
   .consumer 1, .consumer 1, .producer 0, .producer 0, .producer 0, .consumer 0,
   .consumer 1, .consumer 1, .consumer 0, .consumer 0, .consumer 1, .consumer 0,
   .consumer 0, .consumer 0]

/-- Five producers compose the records 1..5, then the first four complete their put. -/
def fourPuts : List (BStep Nat) :=
  [.produce 0 1, .produce 1 2, .produce 2 3, .produce 3 4, .produce 4 5]
    ++ putSteps 0 ++ putSteps 1 ++ putSteps 2 ++ putSteps 3

/-! ## Writing to the log file

The loop that `logger` (echo_server_mt_logger.c) runs on a record taken from the log buffer,
and `startLogger` (lab9-fifo-logger/Logger/server.c) on the bytes read from the pipe. -/

/-- State of the write loop. -/
structure WState where
  written_bytes : Nat
  bytes_left : Nat
  /-- `errno` of the thread or process -/
  errno : Nat
  /-- content of the file behind `logfile_desc`, which `main` opens with
  `open(LOGFILE, O_WRONLY | O_CREAT | O_APPEND, 0644)`: every `write` appends to it -/
  logfile : List Nat
  /-- `some status` once `exit(status)` has been called -/
  exited : Option Nat
  deriving DecidableEq, Repr

/-- `exit(status)`. -/
def WState.exit (w : WState) (status : Nat) : WState := { w with exited := some status }

/-- Body of the loop `while (bytes_left > 0)`, for the answer `r` to
`ret = write(logfile_desc, buf + written_bytes, bytes_left)`:
```
if (ret == -1 && errno == EINTR) continue;
ERROR_HELPER(ret, "Cannot write to log file");
bytes_left -= ret;
written_bytes += ret;
```
`none`: the loop is not at its `write` (it has ended, or the process has exited), or `r` is
no answer to this call (more bytes than asked for, or an answer of the wrong kind). -/
def writeBody (buf : List Nat) (w : WState) (r : Resp) : Option WState :=
  if w.exited.isSome ∨ w.bytes_left = 0 then none
  else
    match r with
    | .ret n =>
      if w.bytes_left < n then none
      else
        -- the first `n` bytes at `buf + written_bytes` are appended to the file
        let w1 := { w with logfile := w.logfile ++ (buf.drop w.written_bytes).take n }
        if r.val = -1 ∧ w1.errno = EINTR then some w1
        else if ERROR_HELPER r.val then some (w1.exit EXIT_FAILURE)
        else some { w1 with bytes_left := w1.bytes_left - n, written_bytes := w1.written_bytes + n }
    | .fail e =>
      let w1 := { w with errno := e }
      if r.val = -1 ∧ w1.errno = EINTR then some w1
      else if ERROR_HELPER r.val then some (w1.exit EXIT_FAILURE)
      else some w1
    | .data _ => none

/-- Runs the write loop on the answers `rs` to its successive `write` calls. -/
def writeRun (buf : List Nat) (w : WState) : List Resp → Option WState
  | [] => some w
  | r :: rs => (writeBody buf w r).bind fun w' => writeRun buf w' rs

/-- `logger` of echo_server_mt_logger.c with the record `log_msg` taken from the log buffer:
`int written_bytes = 0; int bytes_left = strlen(log_msg);` before the write loop. -/
def logger_write (log_msg : List Nat) (w : WState) : WState :=
  { w with written_bytes := 0, bytes_left := strlen log_msg }

/-- Answers to the `write` calls of one record: for every pair `(k, n)`, `k` calls
interrupted by a signal (`-1` with `EINTR`), then a call that writes `n` bytes. -/
def writes : List (Nat × Nat) → List Resp
  | [] => []
  | (k, n) :: ws => List.replicate k (.fail EINTR) ++ .ret n :: writes ws

/-! ## The Logger process (`startLogger` of lab9-fifo-logger/Logger/server.c) -/

/-- The call at which the Logger is. -/
inductive LPc where
  /-- at `read(logging_pipe[0], buf, sizeof(buf))` -/
  | reading
  /-- at `write(logfile_desc, buf + written_bytes, bytes_left)` -/
  | writing
  /-- after the main loop, at `close(logfile_desc)` -/
  | closing
  /-- `exit` has been called -/
  | ended
  deriving DecidableEq, Repr

/-- The Logger process and the pipe that the Server writes its `stderr` to. -/
structure Logger where
  pc : LPc
  /-- bytes written to the pipe and not yet read, oldest first -/
  pipe : List Nat
  /-- the Server still has the write end of the pipe open -/
  writer_open : Bool
  logger_shouldStop : Bool
  /-- `buf`, as far as the last `read` has filled it -/
  buf : List Nat
  /-- `written_bytes`, `bytes_left`, `errno`, the log file, and the exit status -/
  w : WState
  /-- number of `read` calls issued on the pipe so far -/
  reads : Nat
  deriving DecidableEq, Repr

/-- `sizeof(buf)` of `char buf[512]`. -/
def LOGGER_BUF : Nat := 512

/-- State of `startLogger` when it enters its main loop, after `logger_shouldStop = 0`: it is
at its first `read`. -/
def startLogger (pipe logfile : List Nat) (errno : Nat) : Logger :=
  { pc := .reading, pipe := pipe, writer_open := true, logger_shouldStop := false, buf := [],
    w := { written_bytes := 0, bytes_left := 0, errno := errno, logfile := logfile,
           exited := none },
    reads := 1 }

/-- What happens next to the Logger and its pipe. -/
inductive LStep where
  /-- the Server writes `bs` on its `stderr`, which is the write end of the pipe -/
  | serverWrite (bs : List Nat)
  /-- the Server process ends: the write end of the pipe is closed -/
  | serverClose
  /-- a SIGTERM or SIGINT is delivered to the Logger: `signalHandlerForLoggerProcess` runs -/
  | signal
  /-- the pending `read` returns what the pipe holds -/
  | read
  /-- the pending `read` returns `-1` with `errno` set to `e` -/
  | readFails (e : Nat)
  /-- the pending `write` is answered by `r` -/
  | write (r : Resp)
  /-- `close(logfile_desc)` is answered by `r` -/
  | close (r : Resp)
  deriving DecidableEq, Repr

/-- The Logger is about to issue its next `read` (top of `while(1)`). -/
def Logger.nextRead (s : Logger) : Logger :=
  { s with pc := .reading, reads := s.reads + 1 }

/-- After the write loop: `if (logger_shouldStop) break;`, else the next round of the main
loop. -/
def Logger.afterWrite (s : Logger) : Logger :=
  if s.logger_shouldStop then { s with pc := .closing } else s.nextRead

/-- Main loop of `startLogger`, from the answer `r` to
`ret = read(logging_pipe[0], buf, sizeof(buf))` up to the next call:
```
if (ret == 0) break; // server closed the pipe: it has died unexpectedly!
if (ret == -1 && errno == EINTR) continue;
ERROR_HELPER(ret, "Cannot read from pipe");
int written_bytes = 0;
int bytes_left = ret;
while (bytes_left > 0) { ... }
```
`data bs` is a `read` that stored `bs` in `buf` and returned their number. -/
def readBody (s : Logger) (r : Resp) : Option Logger :=
  match r with
  | .data bs =>
    if bs.length = 0 then some { s with pc := .closing }
    else
      some { s with buf := bs, pc := .writing,
                    w := { s.w with written_bytes := 0, bytes_left := bs.length } }
  | .fail e =>
    let s1 := { s with w := { s.w with errno := e } }
    if r.val = -1 ∧ s1.w.errno = EINTR then some s1.nextRead
    else if ERROR_HELPER r.val then some { s1 with pc := .ended, w := s1.w.exit EXIT_FAILURE }
    else some s1
  | .ret _ => none

/-- One step of the Logger and its pipe. `none`: the step is not enabled; in particular a
`read` on an empty pipe whose write end is open blocks. A signal that arrives while the
Logger is blocked in `read` makes the `read` return `-1` with `EINTR` (the handler is
installed without `SA_RESTART`); at any other moment the handler only sets the flag. -/
def lstep (s : Logger) : LStep → Option Logger
  | .serverWrite bs => if s.writer_open then some { s with pipe := s.pipe ++ bs } else none
  | .serverClose => if s.writer_open then some { s with writer_open := false } else none
  | .signal =>
    match s.pc with
    | .ended => none
    | .reading =>
      -- `logger_shouldStop = 1;` in the handler
      let s1 := { s with logger_shouldStop := true }
      if s1.pipe = [] ∧ s1.writer_open then readBody s1 (.fail EINTR) else some s1
    | _ => some { s with logger_shouldStop := true }
  | .read =>
    match s.pc with
    | .reading =>
      if s.pipe = [] ∧ s.writer_open then none
      else readBody { s with pipe := s.pipe.drop LOGGER_BUF } (.data (s.pipe.take LOGGER_BUF))
    | _ => none
  | .readFails e =>
    match s.pc with
    | .reading => readBody s (.fail e)
    | _ => none
  | .write r =>
    match s.pc with
    | .writing =>
      (writeBody s.buf s.w r).map fun w' =>
        let s1 := { s with w := w' }
        if w'.exited.isSome then { s1 with pc := .ended }
        else if 0 < w'.bytes_left then s1 else s1.afterWrite
    | _ => none
  | .close r =>
    -- `ret = close(logfile_desc); ERROR_HELPER(ret, "Cannot close log file from Logger");`
    -- `close(logging_pipe[0]); ERROR_HELPER(ret, ...); exit(EXIT_SUCCESS);`
    match s.pc with
    | .closing =>
      match r with
      | .ret 0 => some { s with pc := .ended, w := s.w.exit EXIT_SUCCESS }
      | .fail e =>
        if ERROR_HELPER r.val then
          some { s with pc := .ended, w := { s.w with errno := e }.exit EXIT_FAILURE }
        else some s
      | _ => none
    | _ => none

/-- Runs the Logger on a sequence of steps. -/
def lrun (s : Logger) : List LStep → Option Logger
  | [] => some s
  | st :: sts => (lstep s st).bind fun s' => lrun s' sts

/-! ## Named semaphores: creation and cleanup -/

/-- `errno` of `sem_open` with `O_CREAT | O_EXCL` on a name that exists. -/
def EEXIST : Nat := 17

/-- `errno` of `sem_unlink` on a name that does not exist. -/
def ENOENT : Nat := 2

/-- The named semaphores of the system: the value of the semaphore that a name refers to,
`none` for a name that does not exist. -/
abbrev Namespace := String → Option Nat

/-- A process that uses one named semaphore, and the namespace it shares with the others. -/
structure SemSys where
  names : Namespace
  /-- the descriptor variable (`connections`, `sem`) refers to an open semaphore; `false` is
  `SEM_FAILED`, or a descriptor that has been closed -/
  opened : Bool
  errno : Nat
  /-- `some status` once the process has called `exit(status)` -/
  exited : Option Nat

/-- `exit(status)`. -/
def SemSys.exit (s : SemSys) (status : Nat) : SemSys := { s with exited := some status }

/-- `sem_open(name, O_CREAT | O_EXCL, mode, value)`, assigned to the descriptor variable: it
creates the semaphore with `value`, or fails with `EEXIST` when the name exists. -/
def SemSys.sem_open (s : SemSys) (name : String) (value : Nat) : SemSys :=
  if (s.names name).isSome then { s with opened := false, errno := EEXIST }
  else { s with names := fun n => if n = name then some value else s.names n, opened := true }

/-- `sem_unlink(name)`: the value returned, and the state after the call. -/
def SemSys.sem_unlink (s : SemSys) (name : String) : Int × SemSys :=
  if (s.names name).isSome then
    (0, { s with names := fun n => if n = name then none else s.names n })
  else (-1, { s with errno := ENOENT })

/-- `sem_close` of the descriptor. POSIX leaves the call on a descriptor that is not open
undefined; `stale` is what it returns then (glibc: `-1`). -/
def SemSys.sem_close (stale : Int) (s : SemSys) : Int × SemSys :=
  if s.opened then (0, { s with opened := false }) else (stale, s)

/-- Lines 129-143 of `main` in multiprocess.c:
```
connections = sem_open(SEMAPHORE_NAME, O_CREAT | O_EXCL, 0600, MAX_CONCURRENCY);
if (connections == SEM_FAILED && errno == EEXIST) {
    ret = sem_unlink(SEMAPHORE_NAME);
    ERROR_HELPER(ret, "Cannot unlink already existing named semaphore");
    connections = sem_open(SEMAPHORE_NAME, O_CREAT | O_EXCL, 0600, MAX_CONCURRENCY);
}
if (connections == SEM_FAILED) ERROR_HELPER(-1, "Cannot open named semaphore");
```
`SEMAPHORE_NAME` (here `sem_name`) and `MAX_CONCURRENCY` come from common.h. -/
def multiprocess_main (sem_name : String) (MAX_CONCURRENCY : Nat) (s : SemSys) : SemSys :=
  let s1 := s.sem_open sem_name MAX_CONCURRENCY
  let s2 :=
    if s1.opened = false ∧ s1.errno = EEXIST then
      let (ret, s3) := s1.sem_unlink sem_name
      if ERROR_HELPER ret then s3.exit EXIT_FAILURE
      else s3.sem_open sem_name MAX_CONCURRENCY
    else s1
  if s2.exited.isSome then s2
  else if s2.opened = false then (if ERROR_HELPER (-1) then s2.exit EXIT_FAILURE else s2)
  else s2

/-- `create_named_semaphore(name, mode, value)` of riepilogo.c:
```
sem_t *sem = sem_open(name, O_CREAT | O_EXCL, mode, value);
if (sem == SEM_FAILED && errno == EEXIST) {
    sem_unlink(name);
    sem = sem_open(name, O_CREAT | O_EXCL, mode, value);
}
if (sem == SEM_FAILED) { printf(...); exit(EXIT_FAILURE); }
return sem;
``` -/
def create_named_semaphore (name : String) (value : Nat) (s : SemSys) : SemSys :=
  let s1 := s.sem_open name value
  let s2 :=
    if s1.opened = false ∧ s1.errno = EEXIST then ((s1.sem_unlink name).2).sem_open name value
    else s1
  if s2.opened = false then s2.exit EXIT_FAILURE else s2

/-- `#define NUM_RESOURCES 3` (named_semaphore/server.c). -/
def NUM_RESOURCES : Nat := 3

/-- `#define SEMAPHORE_NAME "/simple_scheduler"` (named_semaphore/server.c). -/
def SEMAPHORE_NAME : String := "/simple_scheduler"

/-- Lines 47-61 of `main` in named_semaphore/server.c:
```
named_semaphore = sem_open(SEMAPHORE_NAME, O_CREAT | O_EXCL, 0600, NUM_RESOURCES);
if (named_semaphore == SEM_FAILED && errno == EEXIST) {
    sem_unlink(SEMAPHORE_NAME);
    named_semaphore = sem_open(SEMAPHORE_NAME, O_CREAT | O_EXCL, 0600, NUM_RESOURCES);
}
if (named_semaphore == SEM_FAILED) { printf(...); exit(1); }
``` -/
def server_main (s : SemSys) : SemSys :=
  let s1 := s.sem_open SEMAPHORE_NAME NUM_RESOURCES
  let s2 :=
    if s1.opened = false ∧ s1.errno = EEXIST then
      ((s1.sem_unlink SEMAPHORE_NAME).2).sem_open SEMAPHORE_NAME NUM_RESOURCES
    else s1
  if s2.opened = false then s2.exit 1 else s2

/-- `signalHandlerCleanup` of multiprocess.c, run by the process `process_id`:
```
if (process_id == main_process) {
    int ret = sem_close(connections);
    ERROR_HELPER(ret, "[MAIN PROCESS] Cannot close named semaphore");
    ret = sem_unlink(SEMAPHORE_NAME);
    ERROR_HELPER(ret, "[MAIN PROCESS] Cannot unlink named semaphore");
}
exit(EXIT_SUCCESS);
``` -/
def signalHandlerCleanup (sem_name : String) (stale : Int) (main_process process_id : Nat)
    (s : SemSys) : SemSys :=
  if process_id = main_process then
    let (ret, s1) := s.sem_close stale
    if ERROR_HELPER ret then s1.exit EXIT_FAILURE
    else
      let (ret, s2) := s1.sem_unlink sem_name
      if ERROR_HELPER ret then s2.exit EXIT_FAILURE
      else s2.exit EXIT_SUCCESS
  else s.exit EXIT_SUCCESS

/-- The first `k` system calls of `signalHandlerCleanup` in the main process, each with its
`ERROR_HELPER`: `sem_close` for `k = 1`, `sem_close` and `sem_unlink` for `k ≥ 2`. -/
def cleanupCalls (sem_name : String) (stale : Int) : Nat → SemSys → SemSys
  | 0, s => s
  | 1, s =>
    let (ret, s1) := s.sem_close stale
    if ERROR_HELPER ret then s1.exit EXIT_FAILURE else s1
  | _ + 2, s =>
    let (ret, s1) := s.sem_close stale
    if ERROR_HELPER ret then s1.exit EXIT_FAILURE
    else
      let (ret, s2) := s1.sem_unlink sem_name
      if ERROR_HELPER ret then s2.exit EXIT_FAILURE else s2

/-- A second signal during the shutdown of the main process: `signalHandlerCleanup` has made
`k` of its system calls when another SIGINT or SIGTERM is delivered (the handler is
installed for both, with an empty mask), and the handler runs again, up to its `exit`. -/
def secondSignal (sem_name : String) (stale : Int) (main_process : Nat) (k : Nat)
    (s : SemSys) : SemSys :=
  let s1 := cleanupCalls sem_name stale k s
  if s1.exited.isSome then s1
  else signalHandlerCleanup sem_name stale main_process main_process s1

/-- The thread-based server: its semaphore `connections` (`sem_init` in `main`), and the
exit status. -/
structure MtSys where
  /-- `connections` is an initialised semaphore -/
  initialised : Bool
  exited : Option Nat
  deriving DecidableEq, Repr

/-- `signalHandlerCleanup` of multithread.c:
```
int ret = sem_destroy(&connections);
ERROR_HELPER(ret, "Cannot destroy semaphore");
exit(EXIT_SUCCESS);
```
POSIX leaves `sem_destroy` of a semaphore that is not initialised undefined; `stale` is what
it returns then. -/
def multithread_signalHandlerCleanup (stale : Int) (s : MtSys) : MtSys :=
  let ret : Int := if s.initialised then 0 else stale
  let s1 := { s with initialised := false }
  if ERROR_HELPER ret then { s1 with exited := some EXIT_FAILURE }
  else { s1 with exited := some EXIT_SUCCESS }

/-! ## one_prod_one_cons.c run by two producers -/

/-- `one_prod_one_cons.c`: `BUFFER_SIZE` is 128; `performTransactions` and
`processTransactions` use `empty_count` and `fill_count` only, neither index has a mutex. -/
def one_prod_one_cons : BufCfg := { SIZE := 128, write_mutexed := false, read_mutexed := false }

/-- Two threads run `performTransactions` of one_prod_one_cons.c, producing 7 and -3: both
pass `sem_wait(&empty_count)`, then both execute `transactions[write_index] = ...` before
either of them executes `write_index = (write_index + 1) % BUFFER_SIZE`; then both advance
the index and post `fill_count`. -/
def lostUpdate : List (BStep Int) :=
  [.produce 0 7, .produce 1 (-3), .producer 0, .producer 1, .producer 0, .producer 1,
   .producer 0, .producer 1, .producer 0, .producer 1]

/-! ## `performRandomTransaction` -/

/-- `#define MAX_TRANSACTION 1000` (one_prod_one_cons.c, many_prod_many_cons.c). -/
def MAX_TRANSACTION : Int := 1000

/-- `performRandomTransaction()`, for the value `r` that `rand()` returns (`0..RAND_MAX`):
```
int amount = rand() % (2 * MAX_TRANSACTION);
if (amount++ >= MAX_TRANSACTION) return MAX_TRANSACTION - amount;
else return amount;
```
`%` of C truncates towards zero; the comparison reads `amount` before the increment. -/
def performRandomTransaction (r : Nat) : Int :=
  let amount : Int := Int.tmod (r : Int) (2 * MAX_TRANSACTION)
  if amount ≥ MAX_TRANSACTION then MAX_TRANSACTION - (amount + 1) else amount + 1

/-! ## The record composed by `my_log` -/

/-- Size passed to `malloc` in `my_log`: `strlen(msg) + 2`, computed in `size_t` (64 bits). -/
def my_log_malloc (msg : List Nat) : Nat := (strlen msg + 2) % 2 ^ 64

/-- The bytes that `sprintf(tmp, "%s\n", msg)` writes at `tmp`: the characters of `msg` up
to its terminator, a line feed, and the terminator. -/
def my_log_tmp (msg : List Nat) : List Nat := msg.takeWhile (· ≠ 0) ++ [10, 0]

/-! ## The terminator written after a message has been received -/

/-- The assignment `a[i] = c` on an array `a`; `none`: index `i` is outside the array. -/
def array_store (a : List Nat) (i c : Nat) : Option (List Nat) :=
  if i < a.length then some (a.set i c) else none

/-- Lines 146 and 155 of `connection_handler` in echo_server_mt_logger.c, for the array `buf`
of `DEFAULT_BUFFER_SIZE` characters: `recv(args->socket_desc, buf, DEFAULT_BUFFER_SIZE, 0)`
stores the bytes `bs` at the start of `buf` and returns their number `recv_bytes`, then
`buf[recv_bytes] = '\0'`. -/
def terminate_message (buf bs : List Nat) : Option (List Nat) :=
  array_store (bs ++ buf.drop bs.length) bs.length 0

/-! ## The echo handlers of lab08 and of the pipe-based Logger

`connection_handler` of lab08-socket-process-thread/base.c and multithread.c, and of
lab9-fifo-logger/Logger/server.c: the same three loops, without partial sends. -/

/-- Body of both send loops, for the answer `r` to `send(socket_desc, buf, len, 0)`:
```
while ( (ret = send(socket_desc, buf, len, 0)) < 0 ) {
    if (errno == EINTR) continue;
    ERROR_HELPER(-1, "Cannot write to the socket");
}
```
`next` is the call that follows the loop. The Logger's server uses
`SRV_ERROR_HELPER_WITH_ACTIVE_LOGGER`, which also ends with `exit(EXIT_FAILURE)`. -/
def lab08_sendBody (s : HState) (len : Nat) (next : Pc) (r : Resp) : Option HState :=
  match r with
  | .ret n =>
    if len < n then none
    else some { s.emit (.sent (s.buf.take n)) with pc := next }
  | .fail e =>
    let s1 := { s with errno := e }
    if s1.errno = EINTR then some s1
    else if ERROR_HELPER (-1) then some s1.die else some s1
  | .data _ => none

/-- Body of the echo loop from the answer `r` to `recv(socket_desc, buf, buf_len, 0)` up to
the next call:
```
while ( (recv_bytes = recv(socket_desc, buf, buf_len, 0)) < 0 ) {
    if (errno == EINTR) continue;
    ERROR_HELPER(-1, "Cannot read from socket");
}
if (recv_bytes == quit_command_len && !memcmp(buf, quit_command, quit_command_len)) break;
```
`data []` is a `recv` that returns 0. -/
def lab08_recvBody (h : Handler) (s : HState) (r : Resp) : Option HState :=
  match r with
  | .data bs =>
    if h.buf_len < bs.length then none
    else
      let s1 := { s with recv_bytes := bs.length, buf := bs ++ s.buf.drop bs.length }.emit
        (.received bs)
      if is_quit s1.buf s1.recv_bytes h.quit_command then some { s1 with pc := .closing }
      else some { s1 with pc := .echo }
  | .fail e =>
    let s1 := { s with errno := e }
    if s1.errno = EINTR then some s1
    else if ERROR_HELPER (-1) then some s1.die else some s1
  | .ret _ => none

/-- `ret = close(socket_desc); ERROR_HELPER(ret, ...)`, then the handler ends. -/
def lab08_closeBody (s : HState) (r : Resp) : Option HState :=
  match r with
  | .ret 0 => some { s.emit .closed with pc := .returned }
  | .fail e => if ERROR_HELPER (-1) then some { s with errno := e }.die else some s
  | _ => none

/-- One step of the handler: the code executed from the answer `r` to the pending call up to
the next call. -/
def lab08_step (h : Handler) (s : HState) (r : Resp) : Option HState :=
  match s.pc with
  | .welcome => lab08_sendBody s s.msg_len .receive r
  | .receive => lab08_recvBody h s r
  | .echo => lab08_sendBody s s.recv_bytes .receive r
  | .closing => lab08_closeBody s r
  | _ => none

/-- Runs the handler on the answers `rs` to its successive calls. -/
def lab08_run (h : Handler) (s : HState) : List Resp → Option HState
  | [] => some s
  | r :: rs => (lab08_step h s r).bind fun s' => lab08_run h s' rs

/-- Initial state of the handler: `buf` holds the welcome message, `msg_len = strlen(buf)`,
and the handler is at the `send` of the welcome message. -/
def lab08_connection_handler (h : Handler) (errno0 : Nat) : HState :=
  { pc := .welcome, buf := h.welcome, msg_len := strlen h.welcome, recv_bytes := 0,
    bytes_sent := 0, errno := errno0, trace := [] }

/-- The answers of `n` rounds of the echo loop on a connection that the peer has closed:
`recv` returns 0, and the `send` of zero bytes returns 0. -/
def closedPeerRounds : Nat → List Resp
  | 0 => []
  | n + 1 => .data [] :: .ret 0 :: closedPeerRounds n

/-- The trace of these rounds. -/
def closedPeerTrace : Nat → List Action
  | 0 => []
  | n + 1 => .received [] :: .sent [] :: closedPeerTrace n

/-! ## `main` of multiprocess.c after the creation of the semaphore -/

/-- The call at which `main` is (lines 164-233). -/
inductive MPc where
  | socket
  | setsockopt
  | bind
  | listen
  | accept
  | sem_wait
  | fork
  /-- the parent's `close(client_desc)` -/
  | close
  deriving DecidableEq, Repr

/-- The main process: its semaphore state and the call it is at. -/
structure MainProc where
  sys : SemSys
  pc : MPc

/-- The call that follows a successful call of `main`. -/
def MPc.next : MPc → MPc
  | .socket => .setsockopt
  | .setsockopt => .bind
  | .bind => .listen
  | .listen => .accept
  | .accept => .sem_wait
  | .sem_wait => .fork
  | .fork => .close
  | .close => .accept

/-- One step of `main`, for the answer `r` to the pending call. Every call is followed by
`ERROR_HELPER(ret, ...)`; before it `accept` has
`if (client_desc == -1 && errno == EINTR) continue;`. A successful `sem_wait` lowers the
named semaphore `sem_name`; it blocks at value 0. `none`: the process has exited, the call
blocks, or `r` is no answer to it (`fork` returns 0 only in the child). -/
def multiprocess_main_step (sem_name : String) (m : MainProc) (r : Resp) : Option MainProc :=
  if m.sys.exited.isSome then none
  else
    match r with
    | .data _ => none
    | .fail e =>
      let sys := { m.sys with errno := e }
      if m.pc = .accept ∧ r.val = -1 ∧ sys.errno = EINTR then some { m with sys := sys }
      else if ERROR_HELPER r.val then some { m with sys := sys.exit EXIT_FAILURE }
      else some { m with sys := sys }
    | .ret n =>
      match m.pc with
      | .sem_wait =>
        match m.sys.names sem_name with
        | some v =>
          (CTeaching.sem_wait v).map fun v' =>
            { sys := { m.sys with
                names := fun x => if x = sem_name then some v' else m.sys.names x },
              pc := .fork }
        | none => none
      | .fork => if n = 0 then none else some { m with pc := .close }
      | pc => some { m with pc := pc.next }

/-- Runs `main` on the answers to its successive calls. -/
def multiprocess_main_run (sem_name : String) (m : MainProc) : List Resp → Option MainProc
  | [] => some m
  | r :: rs => (multiprocess_main_step sem_name m r).bind fun m' =>
      multiprocess_main_run sem_name m' rs

/-! ## The scheduler's `client` (lab3-thread+scheduler/scheduler_solution.c) -/

/-- `INT_MAX` for the 32-bit `int` of `i` and `num_tasks`. -/
def INT_MAX : Nat := 2147483647

/-- What `client` does, in order. -/
inductive Ev where
  /-- `sem_wait(args->semaphore)` has returned 0 -/
  | acquire
  /-- `sleep(rand() % (MAX_SLEEP+1))`: the work item with this index -/
  | work (i : Nat)
  /-- `sem_post(args->semaphore)` has returned 0 -/
  | release
  deriving DecidableEq, Repr

/-- How a run of `client` ends. -/
inductive Outcome where
  /-- `client` has returned, having done this -/
  | done (tr : List Ev)
  /-- `++i` was executed with `i == INT_MAX`: signed overflow, the behaviour is undefined -/
  | overflow (tr : List Ev)
  /-- the rounds allowed to the run are used up -/
  | unfinished (tr : List Ev)
  deriving DecidableEq, Repr

/-- `++i` on an `int`. -/
def incr (i : Nat) : Option Nat := if i < INT_MAX then some (i + 1) else none

/-- The loop of `client` for a non-negative `num_tasks`, at most `fuel` tests of its
condition, with both semaphore calls returning 0:
```
while (i < args->num_tasks) {
    int ret = sem_wait(args->semaphore); ...
    sleep(rand() % (MAX_SLEEP+1)); // work item i
    ++i;
    if (i != args->num_tasks) {
        sleep(rand() % (MAX_SLEEP+1)); // work item i+1
    }
    ++i;
    ret = sem_post(args->semaphore); ...
}
``` -/
def client_loop (num_tasks : Nat) : Nat → Nat → List Ev → Outcome
  | 0, _, tr => .unfinished tr
  | fuel + 1, i, tr =>
    if i < num_tasks then
      let tr1 := tr ++ [.acquire, .work i]
      match incr i with
      | none => .overflow tr1
      | some i1 =>
        let tr2 := if i1 ≠ num_tasks then tr1 ++ [.work i1] else tr1
        match incr i1 with
        | none => .overflow tr2
        | some i2 => client_loop num_tasks fuel i2 (tr2 ++ [.release])
    else .done tr

/-- `client` with `args->num_tasks = num_tasks`: `int i = 0;` and the loop, which tests its
condition at most `num_tasks + 1` times. -/
def client (num_tasks : Nat) : Outcome := client_loop num_tasks (num_tasks + 1) 0 []

/-- Round `k` of the schedule that the specification describes: one acquire, the work items
`2k` and `2k + 1` (the second only if it exists), one release. -/
def spec_round (num_tasks k : Nat) : List Ev :=
  [.acquire, .work (2 * k)] ++ (if 2 * k + 1 < num_tasks then [.work (2 * k + 1)] else [])
    ++ [.release]

/-- The first `k` rounds of that schedule. -/
def spec_rounds (num_tasks k : Nat) : List Ev :=
  ((List.range k).map (spec_round num_tasks)).flatten

/-- The schedule that the specification describes for `num_tasks` work items:
`ceil(num_tasks / 2)` rounds. -/
def spec_schedule (num_tasks : Nat) : List Ev := spec_rounds num_tasks ((num_tasks + 1) / 2)

/-- Number of work items in a trace. -/
def works (tr : List Ev) : Nat := tr.countP fun e => match e with | .work _ => true | _ => false

/-! ## The log records of a session -/

/-- The records that a handler has passed to `my_log`, in the order of the calls. -/
def logs : List Action → List (List Nat)
  | [] => []
  | .logged m :: as => m :: logs as
  | _ :: as => logs as

/-- The 'Message received' record for the message `msg`: what
`snprintf(log_msg, sizeof(log_msg), "Message received from client %s:%hu: %s", ...)` leaves
in `log_msg` when `buf` holds `msg` followed by the terminator. -/
def messageRecord (h : Handler) (msg : List Nat) : List Nat :=
  (h.log_prefix ++ msg.takeWhile (· ≠ 0)).take (h.buf_len - 1)

/-- The answers to the calls of a handler of the logging server in a session without failing
call: the welcome message goes out in pieces of sizes `ws`; for every pair `(m, cs)` of `ms`
a `recv` delivers the client's message `m`, which is sent back in pieces of sizes `cs`; then
a `recv` delivers `SERVER_COMMAND`, and `close` returns 0. -/
def loggerScript (ws : List Nat) (ms : List (List Nat × List Nat)) : List Resp :=
  sends ws ++ (ms.map fun p => Resp.data p.1 :: sends p.2).flatten
    ++ [.data SERVER_COMMAND, .ret 0]

/-- The semaphore operations among the actions of `client`, in order. -/
def semOps (tr : List Ev) : List SemOp :=
  tr.filterMap fun e => match e with
    | .acquire => some .acquire
    | .release => some .release
    | .work _ => none

/-! # Properties -/

/-! ## The admission semaphore -/

/-- A completed run changes the value by the releases minus the acquires. -/
theorem semRun_count (ops : List SemOp) : ∀ (v w : Nat), semRun v ops = some w →
    w + ops.count .acquire = v + ops.count .release := by
  induction ops with
  | nil => intro v w h; simp [semRun] at h; simp [h]
  | cons op ops ih =>
    intro v w h
    cases op with
    | acquire =>
      by_cases hv : 0 < v
      · simp [semRun, SemOp.apply, sem_wait, hv] at h
        have := ih _ _ h
        simp at this ⊢
        omega
      · simp [semRun, SemOp.apply, sem_wait, hv] at h
    | release =>
      simp [semRun, SemOp.apply, sem_post] at h
      have := ih _ _ h
      simp at this ⊢
      omega

/-- **C2.** For every sequence of acquires and releases on `connections` in which every
release is preceded by its matching acquire, starting from the value `MAX_CONCURRENCY`, the
value after every step (after every prefix of the sequence) lies in `[0, MAX_CONCURRENCY]`;
it is `MAX_CONCURRENCY` minus the number of acquires not yet released, and at value 0 a
further acquire does not complete. -/
theorem connections_within_bounds (MAX_CONCURRENCY : Nat) (ops : List SemOp)
    (hm : Matched ops) (n : Nat) (hn : n ≤ ops.length) (v : Nat)
    (hv : semRun MAX_CONCURRENCY (ops.take n) = some v) :
    0 ≤ v ∧ v ≤ MAX_CONCURRENCY ∧ v + outstanding (ops.take n) = MAX_CONCURRENCY
      ∧ (v = 0 → semRun v [.acquire] = none) := by
  have h1 := semRun_count _ _ _ hv
  have h2 := hm n hn
  unfold outstanding
  refine ⟨Nat.zero_le _, by omega, by omega, fun h0 => ?_⟩
  subst h0
  rfl

/-- With `MAX_CONCURRENCY = 2`: after two acquires the value is 0 and a third acquire does
not complete. -/
theorem connections_within_bounds_witness :
    0 ≤ 0 ∧ 0 ≤ 2 ∧
      0 + outstanding ([SemOp.acquire, .acquire, .release, .acquire, .release].take 2) = 2
      ∧ (0 = 0 → semRun 0 [.acquire] = none) :=
  connections_within_bounds 2 [.acquire, .acquire, .release, .acquire, .release]
    (by decide) 2 (by decide) 0 (by decide)

/-! ## Counting threads -/

theorem weight_nil {β : Type} (f : β → Nat) : weight f [] = 0 := rfl

theorem weight_append {β : Type} (f : β → Nat) (l m : List β) :
    weight f (l ++ m) = weight f l + weight f m := by
  simp [weight]

theorem weight_singleton {β : Type} (f : β → Nat) (y : β) : weight f [y] = f y := by
  simp [weight]

theorem weight_replicate_zero {β : Type} (f : β → Nat) (y : β) (hy : f y = 0) (n : Nat) :
    weight f (List.replicate n y) = 0 := by
  induction n with
  | zero => rfl
  | succ n ih => simp [weight, List.replicate_succ, hy] at ih ⊢

/-- Moving thread `i` from `x` to `y` exchanges the weight of `x` for the weight of `y`. -/
theorem weight_set {β : Type} (f : β → Nat) (y : β) :
    ∀ (l : List β) (i : Nat) (x : β), l[i]? = some x →
      weight f (l.set i y) + f x = weight f l + f y := by
  intro l
  induction l with
  | nil => intro i x h; simp at h
  | cons a l ih =>
    intro i x h
    cases i with
    | zero =>
      simp at h
      subst h
      simp [weight]
      omega
    | succ i =>
      simp at h
      have := ih i x h
      simp [weight] at this ⊢
      omega

theorem weight_le_weight {β : Type} (f g : β → Nat) (hfg : ∀ x, f x ≤ g x) (l : List β) :
    weight f l ≤ weight g l := by
  induction l with
  | nil => simp [weight]
  | cons a l ih =>
    have := hfg a
    simp [weight] at ih ⊢
    omega

theorem weight_le_length {β : Type} (f : β → Nat) (hf : ∀ x, f x ≤ 1) (l : List β) :
    weight f l ≤ l.length := by
  induction l with
  | nil => simp [weight]
  | cons a l ih =>
    have := hf a
    simp [weight] at ih ⊢
    omega

theorem countP_eq_weight {β : Type} (p : β → Bool) (l : List β) :
    l.countP p = weight (fun x => if p x then 1 else 0) l := by
  induction l with
  | nil => rfl
  | cons a l ih =>
    simp only [List.countP_cons, ih, weight, List.map_cons, List.sum_cons]
    omega

/-! ## Steps of `connection_handler` -/

@[simp] theorem emit_pc (s : HState) (a : Action) : (s.emit a).pc = s.pc := rfl
@[simp] theorem emit_trace (s : HState) (a : Action) : (s.emit a).trace = s.trace ++ [a] := rfl
@[simp] theorem emit_buf (s : HState) (a : Action) : (s.emit a).buf = s.buf := rfl
@[simp] theorem emit_errno (s : HState) (a : Action) : (s.emit a).errno = s.errno := rfl
@[simp] theorem emit_bytes_sent (s : HState) (a : Action) : (s.emit a).bytes_sent = s.bytes_sent := rfl
@[simp] theorem emit_recv_bytes (s : HState) (a : Action) : (s.emit a).recv_bytes = s.recv_bytes := rfl
@[simp] theorem emit_msg_len (s : HState) (a : Action) : (s.emit a).msg_len = s.msg_len := rfl
@[simp] theorem die_pc (s : HState) : s.die.pc = .exited EXIT_FAILURE := rfl
@[simp] theorem die_trace (s : HState) : s.die.trace = s.trace ++ [.exit EXIT_FAILURE] := rfl

theorem welcomeTest_pc (s : HState) :
    (welcomeTest s).pc = .welcome ∨ (welcomeTest s).pc = .receive := by
  unfold welcomeTest; split <;> simp

theorem echoTest_pc (s : HState) : (echoTest s).pc = .echo ∨ (echoTest s).pc = .receive := by
  unfold echoTest; split <;> simp

@[simp] theorem welcomeTest_trace (s : HState) : (welcomeTest s).trace = s.trace := by
  unfold welcomeTest; split <;> rfl

@[simp] theorem echoTest_trace (s : HState) : (echoTest s).trace = s.trace := by
  unfold echoTest; split <;> rfl

theorem welcomeTest_ne_returned (t : HState) : (welcomeTest t).pc ≠ .returned := by
  rcases welcomeTest_pc t with h | h <;> simp [h]

theorem echoTest_ne_returned (t : HState) : (echoTest t).pc ≠ .returned := by
  rcases echoTest_pc t with h | h <;> simp [h]

theorem afterRecv_ne_returned (h : Handler) (t : HState) : (afterRecv h t).pc ≠ .returned := by
  unfold afterRecv; split
  · simp
  · exact echoTest_ne_returned _

theorem sendBody_ne_returned (s : HState) (len : Nat) (test : HState → HState) (r : Resp)
    (s' : HState) (ht : ∀ t, (test t).pc ≠ .returned)
    (hs : sendBody s len test r = some s') : s'.pc ≠ .returned := by
  unfold sendBody at hs
  cases r with
  | data bs => simp at hs
  | ret n =>
    simp only at hs
    split at hs
    · simp at hs
    · split at hs
      · simp at hs; subst hs; exact ht _
      · split at hs
        · simp at hs; subst hs; simp
        · simp at hs; subst hs; exact ht _
  | fail e =>
    simp only at hs
    split at hs
    · simp at hs; subst hs; exact ht _
    · split at hs
      · simp at hs; subst hs; simp
      · simp at hs; subst hs; exact ht _

theorem recvBody_ne_returned (h : Handler) (s s' : HState) (r : Resp) (h0 : s.pc ≠ .returned)
    (hs : recvBody h s r = some s') : s'.pc ≠ .returned := by
  unfold recvBody at hs
  cases r with
  | ret n => simp at hs
  | data bs =>
    simp only at hs
    split at hs
    · simp at hs
    · split at hs
      · split at hs
        · simp at hs; subst hs; simp
        · simp at hs; subst hs; exact h0
      · simp at hs; subst hs; exact afterRecv_ne_returned _ _
  | fail e =>
    simp only at hs
    split at hs
    · simp at hs; subst hs; exact h0
    · split at hs
      · simp at hs; subst hs; simp
      · simp at hs; subst hs; exact h0

theorem closeBody_ne_returned (h : Handler) (s s' : HState) (r : Resp)
    (hv : h.variant ≠ .logger) (h0 : s.pc ≠ .returned)
    (hs : closeBody h s r = some s') : s'.pc ≠ .returned := by
  unfold closeBody at hs
  split at hs
  · simp [hv] at hs; subst hs; simp
  · split at hs
    · simp at hs; subst hs; simp
    · simp at hs; subst hs; exact h0
  · simp at hs

theorem childInitBody_ne_returned (s s' : HState) (r : Resp)
    (hs : childInitBody s r = some s') : s'.pc ≠ .returned := by
  unfold childInitBody at hs
  split at hs
  · simp at hs; subst hs; exact welcomeTest_ne_returned _
  · simp at hs; subst hs; simp
  · simp at hs

/-- A worker that takes a step was running; in the admission-limited servers it reaches
`returned` only through its `sem_post`. -/
theorem hstep_pc (h : Handler) (w w' : HState) (r : Resp) (hv : h.variant ≠ .logger)
    (hs : hstep h w r = some w') :
    w.pc.running = true ∧ (w'.pc = .returned → w.pc = .posting) := by
  unfold hstep at hs
  cases hpc : w.pc with
  | childInit =>
    simp only [hpc] at hs
    exact ⟨rfl, fun h' => absurd h' (childInitBody_ne_returned _ _ _ hs)⟩
  | welcome =>
    simp only [hpc] at hs
    exact ⟨rfl, fun h' => absurd h' (sendBody_ne_returned _ _ _ _ _ welcomeTest_ne_returned hs)⟩
  | receive =>
    simp only [hpc] at hs
    exact ⟨rfl, fun h' => absurd h' (recvBody_ne_returned _ _ _ _ (by simp [hpc]) hs)⟩
  | echo =>
    simp only [hpc] at hs
    exact ⟨rfl, fun h' => absurd h' (sendBody_ne_returned _ _ _ _ _ echoTest_ne_returned hs)⟩
  | closing =>
    simp only [hpc] at hs
    exact ⟨rfl, fun h' => absurd h' (closeBody_ne_returned _ _ _ _ hv (by simp [hpc]) hs)⟩
  | posting => exact ⟨rfl, fun _ => rfl⟩
  | returned => simp [hpc] at hs
  | exited st => simp [hpc] at hs

theorem running_set (l : List HState) (i : Nat) (w w' : HState) (h : l[i]? = some w) :
    (l.set i w').countP (fun w => w.pc.running) + (if w.pc.running then 1 else 0)
      = l.countP (fun w => w.pc.running) + (if w'.pc.running then 1 else 0) := by
  rw [countP_eq_weight, countP_eq_weight]
  exact weight_set _ w' l i w h

theorem crashed_set (l : List HState) (i : Nat) (w w' : HState) (h : l[i]? = some w) :
    (l.set i w').countP (fun w => w.pc.crashed) + (if w.pc.crashed then 1 else 0)
      = l.countP (fun w => w.pc.crashed) + (if w'.pc.crashed then 1 else 0) := by
  rw [countP_eq_weight, countP_eq_weight]
  exact weight_set _ w' l i w h

theorem connection_handler_running (h : Handler) (e : Nat) :
    (connection_handler h e).pc.running = true ∧ (connection_handler h e).pc.crashed = false := by
  unfold connection_handler
  split
  · exact ⟨rfl, rfl⟩
  · rcases welcomeTest_pc
      { pc := .welcome, buf := h.welcome, msg_len := strlen h.welcome, recv_bytes := 0,
        bytes_sent := 0, errno := e, trace := [] } with h1 | h1 <;> simp [h1, Pc.running, Pc.crashed]

theorem SInv_init (N : Nat) : SInv N (Server.init N) := by
  simp [SInv, Server.init, Server.running, Server.crashed, Server.holding]

theorem SInv_halt (N : Nat) (s : Server) (st : Nat) (hi : SInv N s) : SInv N (s.halt st) := hi

theorem SInv_step (h : Handler) (hv : h.variant ≠ .logger) (e N : Nat) (s s' : Server)
    (st : SStep) (hs : sstep h e s st = some s') (hi : SInv N s) : SInv N s' := by
  unfold sstep at hs
  split at hs
  · simp at hs
  · cases st with
    | main r =>
      simp only at hs
      cases hd : s.dispatcher with
      | accepting =>
        simp only [hd, hv, if_false] at hs
        cases r with
        | ret n =>
          simp at hs; subst hs
          simpa [SInv, Server.running, Server.crashed, Server.holding, hd] using hi
        | fail e' =>
          simp only at hs
          split at hs <;>
          · simp at hs; subst hs
            simpa [SInv, Server.running, Server.crashed, Server.holding, hd, Server.halt] using hi
        | data bs => simp at hs
      | waiting =>
        simp only [hd] at hs
        cases r with
        | fail e' =>
          simp at hs; subst hs
          exact SInv_halt _ _ _ hi
        | ret n => simp at hs
        | data bs => simp at hs
      | spawning =>
        simp only [hd] at hs
        have hspawn : SInv N (s.spawn h e) := by
          have := connection_handler_running h (if h.variant = .process then s.errno else e)
          simp only [SInv, Server.running, Server.crashed, Server.holding, hd, Server.spawn,
            List.countP_append, List.countP_cons, List.countP_nil, this] at hi ⊢
          simp at hi ⊢
          omega
        cases r with
        | ret n =>
          cases n with
          | zero => simp at hs; subst hs; exact hspawn
          | succ n =>
            simp only at hs
            split at hs
            · simp at hs; subst hs; exact hspawn
            · simp at hs; subst hs; exact SInv_halt _ _ _ hi
        | fail e' => simp at hs; subst hs; exact SInv_halt _ _ _ hi
        | data bs => simp at hs
      | detaching =>
        simp only [hd] at hs
        cases r with
        | ret n =>
          cases n with
          | zero =>
            simp at hs; subst hs
            simpa [SInv, Server.running, Server.crashed, Server.holding, hd] using hi
          | succ n =>
            simp only at hs
            split at hs
            · simp at hs
            · simp at hs; subst hs; exact SInv_halt _ _ _ hi
        | fail e' => simp at hs; subst hs; exact SInv_halt _ _ _ hi
        | data bs => simp at hs
    | semWait =>
      simp only at hs
      cases hd : s.dispatcher <;> simp only [hd] at hs <;> try (simp at hs; done)
      unfold sem_wait at hs
      split at hs
      · simp at hs; subst hs
        simp only [SInv, Server.running, Server.crashed, Server.holding, hd] at hi ⊢
        simp at hi ⊢
        omega
      · simp at hs
    | worker i r =>
      simp only at hs
      cases hw : s.workers[i]? with
      | none => simp [hw] at hs
      | some w =>
        simp only [hw] at hs
        cases hh : hstep h w r with
        | none => simp [hh] at hs
        | some w' =>
          simp only [hh, Option.map_some', Option.some.injEq] at hs
          obtain ⟨hrun, hret⟩ := hstep_pc h w w' r hv hh
          have h1 := running_set s.workers i w w' hw
          have h2 := crashed_set s.workers i w w' hw
          have hwc : w.pc.crashed = false := by
            cases hp : w.pc <;> simp [hp, Pc.running, Pc.crashed] at hrun ⊢
          simp only [hrun, hwc, if_true, Bool.false_eq_true, if_false] at h1 h2
          have hcnt : (s.workers.set i w').countP (fun w => w.pc.running)
              + (s.workers.set i w').countP (fun w => w.pc.crashed)
              + (if w'.pc = .returned then 1 else 0)
              = s.workers.countP (fun w => w.pc.running)
              + s.workers.countP (fun w => w.pc.crashed) := by
            cases hp' : w'.pc <;> simp [hp', Pc.running, Pc.crashed] at h1 h2 ⊢ <;> omega
          by_cases hp' : w'.pc = .returned
          · have hp := hret hp'
            simp only [hp, hp', and_self, if_true] at hs hcnt
            subst hs
            simp only [SInv, Server.running, Server.crashed, Server.holding, sem_post] at hi ⊢
            omega
          · simp only [hp', and_false, if_false] at hs hcnt
            have : s'.connections = s.connections ∧ s'.workers = s.workers.set i w'
                ∧ s'.dispatcher = s.dispatcher := by
              split at hs
              · split at hs <;> (subst hs; simp [Server.halt])
              · subst hs; simp
            obtain ⟨e1, e2, e3⟩ := this
            simp only [SInv, Server.running, Server.crashed, Server.holding, e1, e2, e3] at hi ⊢
            omega

theorem SInv_run (h : Handler) (hv : h.variant ≠ .logger) (e N : Nat) :
    ∀ (steps : List SStep) (s s' : Server), srun h e s steps = some s' → SInv N s → SInv N s' := by
  intro steps
  induction steps with
  | nil => intro s s' hs hi; simp [srun] at hs; subst hs; exact hi
  | cons st sts ih =>
    intro s s' hs hi
    simp only [srun] at hs
    cases h1 : sstep h e s st with
    | none => simp [h1] at hs
    | some s1 =>
      simp only [h1, Option.bind_some] at hs
      exact ih s1 s' hs (SInv_step h hv e N s s1 st h1 hi)

/-- A worker is added only by the dispatcher at `pthread_create`/`fork`, which it reaches
holding a slot. -/
theorem spawn_holds_slot (h : Handler) (e : Nat) (s s' : Server) (r : Resp)
    (hs : sstep h e s (.main r) = some s') (hw : s'.workers ≠ s.workers) :
    s.holding = 1 ∧ s'.holding = 0 := by
  unfold sstep at hs
  split at hs
  · simp at hs
  · simp only at hs
    cases hd : s.dispatcher with
    | accepting =>
      simp only [hd] at hs
      cases r with
      | ret n => simp at hs; subst hs; simp at hw
      | fail e' => simp only at hs; split at hs <;> (simp at hs; subst hs; simp [Server.halt] at hw)
      | data bs => simp at hs
    | waiting =>
      simp only [hd] at hs
      cases r with
      | fail e' => simp at hs; subst hs; simp [Server.halt] at hw
      | ret n => simp at hs
      | data bs => simp at hs
    | spawning =>
      simp only [hd] at hs
      have hsp : (s.spawn h e).holding = 0 := by simp [Server.spawn, Server.holding]
      cases r with
      | ret n =>
        cases n with
        | zero => simp at hs; subst hs; exact ⟨by simp [Server.holding, hd], hsp⟩
        | succ n =>
          simp only at hs
          split at hs
          · simp at hs; subst hs; exact ⟨by simp [Server.holding, hd], hsp⟩
          · simp at hs; subst hs; simp [Server.halt] at hw
      | fail e' => simp at hs; subst hs; simp [Server.halt] at hw
      | data bs => simp at hs
    | detaching =>
      simp only [hd] at hs
      cases r with
      | ret n =>
        cases n with
        | zero => simp at hs; subst hs; simp at hw
        | succ n =>
          simp only at hs
          split at hs
          · simp at hs
          · simp at hs; subst hs; simp [Server.halt] at hw
      | fail e' => simp at hs; subst hs; simp [Server.halt] at hw
      | data bs => simp at hs

/-- A step of a worker changes `connections` only when the worker completes the
`sem_post(&connections)` that ends its handler. -/
theorem release_after_handler (h : Handler) (e : Nat) (s s' : Server) (i : Nat) (r : Resp)
    (hs : sstep h e s (.worker i r) = some s') (hc : s'.connections ≠ s.connections) :
    ∃ w w', s.workers[i]? = some w ∧ w.pc = .posting ∧ s'.workers[i]? = some w'
      ∧ w'.pc = .returned ∧ s'.connections = s.connections + 1 := by
  unfold sstep at hs
  split at hs
  · simp at hs
  · simp only at hs
    cases hw : s.workers[i]? with
    | none => simp [hw] at hs
    | some w =>
      simp only [hw] at hs
      cases hh : hstep h w r with
      | none => simp [hh] at hs
      | some w' =>
        simp only [hh, Option.map_some', Option.some.injEq] at hs
        have hi : i < s.workers.length := by
          rcases Nat.lt_or_ge i s.workers.length with h1 | h1
          · exact h1
          · rw [List.getElem?_eq_none h1] at hw; cases hw
        by_cases hp : w.pc = .posting ∧ w'.pc = .returned
        · refine ⟨w, w', rfl, hp.1, ?_, hp.2, ?_⟩
          · simp only [hp, and_self, if_true, hp.2] at hs
            subst hs
            simp [hi]
          · simp only [hp, and_self, if_true, hp.2] at hs
            subst hs
            simp [sem_post]
        · exfalso
          apply hc
          simp only [hp, if_false] at hs
          split at hs
          · split at hs <;> (subst hs; simp [Server.halt])
          · subst hs; simp

/-- **C3.** In the admission-limited servers (thread and process variant) every reachable
state has at most `MAX_CONCURRENCY` running workers (spawned, handler unfinished); every slot
is free, held by a running worker, lost with a worker that called `exit`, or held by the
dispatcher between its `sem_wait` and the spawn; a worker is spawned only by a dispatcher
holding a slot; `connections` is raised only by the `sem_post` that ends a handler; and when
`MAX_CONCURRENCY` handlers are unfinished the dispatcher's `sem_wait` is not enabled. -/
theorem running_workers_bounded (h : Handler) (hv : h.variant ≠ .logger)
    (errno0 MAX_CONCURRENCY : Nat) (steps : List SStep) (s : Server)
    (hr : srun h errno0 (Server.init MAX_CONCURRENCY) steps = some s) :
    s.running ≤ MAX_CONCURRENCY
    ∧ s.connections + s.running + s.crashed + s.holding = MAX_CONCURRENCY
    ∧ (∀ r s', sstep h errno0 s (.main r) = some s' → s'.workers ≠ s.workers →
        s.holding = 1 ∧ s'.holding = 0)
    ∧ (∀ i r s', sstep h errno0 s (.worker i r) = some s' → s'.connections ≠ s.connections →
        ∃ w w', s.workers[i]? = some w ∧ w.pc = .posting ∧ s'.workers[i]? = some w'
          ∧ w'.pc = .returned ∧ s'.connections = s.connections + 1)
    ∧ (s.running = MAX_CONCURRENCY → sstep h errno0 s .semWait = none) := by
  have hi := SInv_run h hv errno0 MAX_CONCURRENCY steps _ s hr (SInv_init _)
  have hi' := hi
  unfold SInv at hi'
  refine ⟨by omega, hi, fun r s' => spawn_holds_slot h errno0 s s' r,
    fun i r s' => release_after_handler h errno0 s s' i r, fun hfull => ?_⟩
  have hc : s.connections = 0 := by omega
  unfold sstep
  split
  · rfl
  · cases hd : s.dispatcher <;> simp [hd, hc, sem_wait]

set_option maxRecDepth 100000 in
/-- With `MAX_CONCURRENCY = 2`, after two workers have been spawned and a third connection
has been accepted, two handlers are unfinished and the dispatcher's `sem_wait` is not
enabled; it is enabled once the first handler has received `QUIT`, closed and posted. -/
theorem running_workers_bounded_witness :
    ∃ s, srun (localHandler .thread) 0 (Server.init 2) (dispatchOne ++ dispatchOne ++ [.main (.ret 6)])
        = some s
      ∧ s.running = 2
      ∧ sstep (localHandler .thread) 0 s .semWait = none
      ∧ ((srun (localHandler .thread) 0 s
            [.worker 0 (.ret 144), .worker 0 (.data (bytes "QUIT")), .worker 0 (.ret 0)]).bind
          fun s1 => sstep (localHandler .thread) 0 s1 .semWait) = none
      ∧ ((srun (localHandler .thread) 0 s
            [.worker 0 (.ret 144), .worker 0 (.data (bytes "QUIT")), .worker 0 (.ret 0),
             .worker 0 (.ret 0), .semWait]).map fun s2 => (s2.running, s2.connections))
          = some (1, 0) := by
  refine ⟨_, rfl, by decide, ?_, by decide, by decide⟩
  have key := fun s hr => (running_workers_bounded (localHandler .thread) (by decide) 0 2
    (dispatchOne ++ dispatchOne ++ [.main (.ret 6)]) s hr).2.2.2.2
  exact key _ rfl (by decide)

theorem take_set_of_le (l : List Nat) (a : Nat) : ∀ (n m : Nat), m ≤ n →
    (l.set n a).take m = l.take m := by
  induction l with
  | nil => intro n m _; simp
  | cons x l ih =>
    intro n m hmn
    cases m with
    | zero => simp
    | succ m =>
      cases n with
      | zero => omega
      | succ n => simp [ih n m (by omega)]

theorem strlen_SERVER_COMMAND : strlen SERVER_COMMAND = SERVER_COMMAND.length := by decide

theorem is_quit_iff (buf : List Nat) (n : Nat) (q : List Nat) (hq : strlen q = q.length) :
    is_quit buf n q = true ↔ n = q.length ∧ buf.take n = q := by
  unfold is_quit memcmp_eq
  rw [hq]
  simp only [Bool.and_eq_true, decide_eq_true_eq, beq_iff_eq, List.take_length]
  constructor
  · rintro ⟨h1, h2⟩; subst h1; exact ⟨rfl, h2⟩
  · rintro ⟨h1, h2⟩; subst h1; exact ⟨rfl, h2⟩

@[simp] theorem logReceived_pc (h : Handler) (s : HState) : (logReceived h s).pc = s.pc := by
  unfold logReceived; split <;> rfl
@[simp] theorem logReceived_errno (h : Handler) (s : HState) :
    (logReceived h s).errno = s.errno := by
  unfold logReceived; split <;> rfl
@[simp] theorem logReceived_recv_bytes (h : Handler) (s : HState) :
    (logReceived h s).recv_bytes = s.recv_bytes := by
  unfold logReceived; split <;> rfl
@[simp] theorem logReceived_msg_len (h : Handler) (s : HState) :
    (logReceived h s).msg_len = s.msg_len := by
  unfold logReceived; split <;> rfl
theorem logReceived_buf_take (h : Handler) (s : HState) :
    (logReceived h s).buf.take s.recv_bytes = s.buf.take s.recv_bytes := by
  unfold logReceived; split
  · simp [take_set_of_le]
  · rfl
theorem logReceived_trace (h : Handler) (s : HState) :
    (logReceived h s).trace = s.trace ++
      (if h.variant = .logger then
        [.logged (received_log_msg h { s with buf := s.buf.set s.recv_bytes 0 })] else []) := by
  unfold logReceived; split <;> simp

theorem output_append (a b : List Action) : output (a ++ b) = output a ++ output b := by
  induction a with
  | nil => rfl
  | cons x a ih => cases x <;> simp [output, ih]

theorem logReceived_output (h : Handler) (s : HState) :
    output (logReceived h s).trace = output s.trace := by
  rw [logReceived_trace, output_append]
  split <;> simp [output]

@[simp] theorem afterRecv_trace (h : Handler) (s : HState) : (afterRecv h s).trace = s.trace := by
  unfold afterRecv; split <;> simp
@[simp] theorem afterRecv_buf (h : Handler) (s : HState) : (afterRecv h s).buf = s.buf := by
  unfold afterRecv echoTest; split
  · rfl
  · split <;> rfl
@[simp] theorem afterRecv_errno (h : Handler) (s : HState) : (afterRecv h s).errno = s.errno := by
  unfold afterRecv echoTest; split
  · rfl
  · split <;> rfl
@[simp] theorem afterRecv_recv_bytes (h : Handler) (s : HState) :
    (afterRecv h s).recv_bytes = s.recv_bytes := by
  unfold afterRecv echoTest; split
  · rfl
  · split <;> rfl
@[simp] theorem afterRecv_msg_len (h : Handler) (s : HState) :
    (afterRecv h s).msg_len = s.msg_len := by
  unfold afterRecv echoTest; split
  · rfl
  · split <;> rfl

/-- The answer `data msg` with a non-empty message that fits the buffer. -/
theorem recvBody_data (h : Handler) (s : HState) (msg : List Nat) (hm : msg ≠ [])
    (hl : msg.length ≤ h.buf_len) :
    recvBody h s (.data msg) = some (afterRecv h (logReceived h
      ({ s with recv_bytes := msg.length, buf := msg ++ s.buf.drop msg.length }.emit
        (.received msg)))) := by
  have h1 : ¬ h.buf_len < msg.length := by omega
  have h2 : ¬ msg.length = 0 := by
    intro h0; exact hm (List.length_eq_zero.mp h0)
  simp [recvBody, h1, h2]

theorem hrun_append (h : Handler) : ∀ (a b : List Resp) (s : HState),
    hrun h s (a ++ b) = (hrun h s a).bind fun s' => hrun h s' b := by
  intro a
  induction a with
  | nil => intro b s; rfl
  | cons r a ih =>
    intro b s
    simp only [List.cons_append, hrun]
    cases hstep h s r with
    | none => rfl
    | some s1 => simp [ih]

theorem val_ret (n : Nat) : (Resp.ret n).val = (n : Int) := rfl

/-- A `send` that returns `n` with `errno` different from `EINTR`. -/
theorem sendBody_ret (s : HState) (len n : Nat) (test : HState → HState)
    (hn : n ≤ len - s.bytes_sent) (he : s.errno ≠ EINTR) :
    sendBody s len test (.ret n) =
      some (test { s.emit (.sent ((s.buf.drop s.bytes_sent).take n)) with
        bytes_sent := s.bytes_sent + n }) := by
  have h1 : ¬ (len - s.bytes_sent < n) := by omega
  have h2 : ERROR_HELPER (n : Int) = false := by simp [ERROR_HELPER]
  simp [sendBody, h1, he, val_ret, h2]

/-- The echo send loop transmits the rest of the message, whatever the sizes of the partial
sends, when `errno` is not `EINTR`. -/
theorem echo_loop (h : Handler) : ∀ (cs : List Nat) (s : HState),
    s.pc = (if s.bytes_sent < s.recv_bytes then Pc.echo else Pc.receive) →
    s.errno ≠ EINTR → Chunking cs (s.recv_bytes - s.bytes_sent) →
    ∃ s', hrun h s (sends cs) = some s' ∧ s'.pc = .receive ∧ s'.errno = s.errno
      ∧ s'.buf = s.buf ∧ s'.msg_len = s.msg_len
      ∧ s'.trace = s.trace ++ (chunks (s.buf.drop s.bytes_sent) cs).map .sent := by
  intro cs
  induction cs with
  | nil =>
    intro s hpc _ hc
    have h0 : ¬ s.bytes_sent < s.recv_bytes := by
      have := hc.2; simp at this; omega
    rw [if_neg h0] at hpc
    exact ⟨s, rfl, hpc, rfl, rfl, rfl, by simp [chunks]⟩
  | cons n ns ih =>
    intro s hpc he hc
    have hn : 0 < n := hc.1 n (List.mem_cons_self _ _)
    have hsum : n + ns.sum = s.recv_bytes - s.bytes_sent := by
      have := hc.2; simpa using this
    have hlt : s.bytes_sent < s.recv_bytes := by omega
    rw [if_pos hlt] at hpc
    have hstep1 : hstep h s (.ret n) = some (echoTest { s.emit (.sent ((s.buf.drop s.bytes_sent).take n)) with
        bytes_sent := s.bytes_sent + n }) := by
      unfold hstep
      rw [hpc]
      exact sendBody_ret s s.recv_bytes n echoTest (by omega) he
    obtain ⟨s', hr, h1, h2, h3, h4, h5⟩ := ih
      (echoTest { s.emit (.sent ((s.buf.drop s.bytes_sent).take n)) with
        bytes_sent := s.bytes_sent + n })
      (by unfold echoTest; split <;> simp_all)
      (by unfold echoTest; split <;> simpa using he)
      (by
        refine ⟨fun m hm => hc.1 m (List.mem_cons_of_mem _ hm), ?_⟩
        unfold echoTest; split <;> (simp; omega))
    refine ⟨s', ?_, h1, ?_, ?_, ?_, ?_⟩
    · simp only [sends, List.map_cons, hrun, hstep1, Option.bind_some]
      exact hr
    · rw [h2]; unfold echoTest; split <;> rfl
    · rw [h3]; unfold echoTest; split <;> rfl
    · rw [h4]; unfold echoTest; split <;> rfl
    · rw [h5]
      have e1 : (echoTest { s.emit (.sent ((s.buf.drop s.bytes_sent).take n)) with
          bytes_sent := s.bytes_sent + n }).trace = s.trace ++ [.sent ((s.buf.drop s.bytes_sent).take n)] := by
        simp
      have e2 : (echoTest { s.emit (.sent ((s.buf.drop s.bytes_sent).take n)) with
          bytes_sent := s.bytes_sent + n }).buf = s.buf := by
        unfold echoTest; split <;> rfl
      have e3 : (echoTest { s.emit (.sent ((s.buf.drop s.bytes_sent).take n)) with
          bytes_sent := s.bytes_sent + n }).bytes_sent = s.bytes_sent + n := by
        unfold echoTest; split <;> rfl
      rw [e1, e2, e3]
      simp [chunks, List.drop_drop, Nat.add_comm]

/-- The welcome loop transmits the rest of the welcome message, whatever the sizes of the partial
sends, when `errno` is not `EINTR`. -/
theorem welcome_loop (h : Handler) : ∀ (cs : List Nat) (s : HState),
    s.pc = (if s.bytes_sent < s.msg_len then Pc.welcome else Pc.receive) →
    s.errno ≠ EINTR → Chunking cs (s.msg_len - s.bytes_sent) →
    ∃ s', hrun h s (sends cs) = some s' ∧ s'.pc = .receive ∧ s'.errno = s.errno
      ∧ s'.buf = s.buf ∧ s'.recv_bytes = s.recv_bytes
      ∧ s'.trace = s.trace ++ (chunks (s.buf.drop s.bytes_sent) cs).map .sent := by
  intro cs
  induction cs with
  | nil =>
    intro s hpc _ hc
    have h0 : ¬ s.bytes_sent < s.msg_len := by
      have := hc.2; simp at this; omega
    rw [if_neg h0] at hpc
    exact ⟨s, rfl, hpc, rfl, rfl, rfl, by simp [chunks]⟩
  | cons n ns ih =>
    intro s hpc he hc
    have hn : 0 < n := hc.1 n (List.mem_cons_self _ _)
    have hsum : n + ns.sum = s.msg_len - s.bytes_sent := by
      have := hc.2; simpa using this
    have hlt : s.bytes_sent < s.msg_len := by omega
    rw [if_pos hlt] at hpc
    have hstep1 : hstep h s (.ret n) = some (welcomeTest { s.emit (.sent ((s.buf.drop s.bytes_sent).take n)) with
        bytes_sent := s.bytes_sent + n }) := by
      unfold hstep
      rw [hpc]
      exact sendBody_ret s s.msg_len n welcomeTest (by omega) he
    obtain ⟨s', hr, h1, h2, h3, h4, h5⟩ := ih
      (welcomeTest { s.emit (.sent ((s.buf.drop s.bytes_sent).take n)) with
        bytes_sent := s.bytes_sent + n })
      (by unfold welcomeTest; split <;> simp_all)
      (by unfold welcomeTest; split <;> simpa using he)
      (by
        refine ⟨fun m hm => hc.1 m (List.mem_cons_of_mem _ hm), ?_⟩
        unfold welcomeTest; split <;> (simp; omega))
    refine ⟨s', ?_, h1, ?_, ?_, ?_, ?_⟩
    · simp only [sends, List.map_cons, hrun, hstep1, Option.bind_some]
      exact hr
    · rw [h2]; unfold welcomeTest; split <;> rfl
    · rw [h3]; unfold welcomeTest; split <;> rfl
    · rw [h4]; unfold welcomeTest; split <;> rfl
    · rw [h5]
      have e1 : (welcomeTest { s.emit (.sent ((s.buf.drop s.bytes_sent).take n)) with
          bytes_sent := s.bytes_sent + n }).trace = s.trace ++ [.sent ((s.buf.drop s.bytes_sent).take n)] := by
        simp
      have e2 : (welcomeTest { s.emit (.sent ((s.buf.drop s.bytes_sent).take n)) with
          bytes_sent := s.bytes_sent + n }).buf = s.buf := by
        unfold welcomeTest; split <;> rfl
      have e3 : (welcomeTest { s.emit (.sent ((s.buf.drop s.bytes_sent).take n)) with
          bytes_sent := s.bytes_sent + n }).bytes_sent = s.bytes_sent + n := by
        unfold welcomeTest; split <;> rfl
      rw [e1, e2, e3]
      simp [chunks, List.drop_drop, Nat.add_comm]


theorem chunks_flatten : ∀ (ns : List Nat) (l : List Nat), ns.sum = l.length →
    (chunks l ns).flatten = l := by
  intro ns
  induction ns with
  | nil => intro l h; simp at h; simp [chunks, List.length_eq_zero.mp h.symm]
  | cons n ns ih =>
    intro l h
    simp only [List.sum_cons] at h
    simp only [chunks, List.flatten_cons]
    rw [ih (l.drop n) (by simp; omega)]
    exact List.take_append_drop n l

theorem output_sent (xs : List (List Nat)) : output (xs.map .sent) = xs.flatten := by
  induction xs with
  | nil => rfl
  | cons x xs ih => simp [output, ih]

theorem chunks_take : ∀ (ns : List Nat) (l : List Nat) (k : Nat), ns.sum ≤ k →
    chunks (l.take k) ns = chunks l ns := by
  intro ns
  induction ns with
  | nil => intro l k _; rfl
  | cons n ns ih =>
    intro l k h
    simp only [List.sum_cons] at h
    simp only [chunks]
    rw [List.take_take, Nat.min_eq_left (by omega), List.drop_take, ih _ _ (by omega)]

theorem logReceived_of_not_logger (h : Handler) (hv : h.variant ≠ .logger) (s : HState) :
    logReceived h s = s := by
  unfold logReceived; simp [hv]

/-- The step of a handler at `recv` that receives a non-empty message. -/
theorem hstep_data (h : Handler) (s : HState) (hpc : s.pc = .receive) (msg : List Nat)
    (hm : msg ≠ []) (hl : msg.length ≤ h.buf_len) :
    hstep h s (.data msg) = some (afterRecv h (logReceived h
      ({ s with recv_bytes := msg.length, buf := msg ++ s.buf.drop msg.length }.emit
        (.received msg)))) := by
  have := recvBody_data h s msg hm hl
  unfold hstep; rw [hpc] at this ⊢; exact this

/-- The step of a LimitConn handler whose `close` returns 0. -/
theorem hstep_close (h : Handler) (hv : h.variant ≠ .logger) (s : HState)
    (hpc : s.pc = .closing) :
    hstep h s (.ret 0) = some { s.emit .closed with pc := .posting } := by
  unfold hstep; simp [hpc, closeBody, hv]

/-- The step of a handler whose `sem_post` returns 0. -/
theorem hstep_post (h : Handler) (s : HState) (hpc : s.pc = .posting) :
    hstep h s (.ret 0) = some { s.emit .posted with pc := .returned } := by
  unfold hstep; simp [hpc, postBody]

/-- One round of the echo loop in a LimitConn server: a `recv` delivers the message `msg`
(not the terminator), the `send` calls return the sizes `cs`. -/
theorem echo_round (h : Handler) (hv : h.variant ≠ .logger) (hq : h.quit_command = SERVER_COMMAND)
    (s : HState) (hpc : s.pc = .receive) (he : s.errno ≠ EINTR)
    (msg : List Nat) (cs : List Nat) (hm : msg ≠ []) (hne : msg ≠ SERVER_COMMAND)
    (hl : msg.length ≤ h.buf_len) (hc : Chunking cs msg.length) :
    ∃ s', hrun h s (.data msg :: sends cs) = some s' ∧ s'.pc = .receive ∧ s'.errno = s.errno
      ∧ s'.trace = s.trace ++ .received msg :: (chunks msg cs).map .sent := by
  have hs1 := hstep_data h s hpc msg hm hl
  rw [logReceived_of_not_logger h hv] at hs1
  have hnq : is_quit (msg ++ s.buf.drop msg.length) msg.length h.quit_command = false := by
    rw [Bool.eq_false_iff]
    intro hq'
    rw [hq, is_quit_iff _ _ _ strlen_SERVER_COMMAND] at hq'
    rw [List.take_left] at hq'
    exact hne hq'.2
  have hlen : 0 < msg.length := List.length_pos.mpr hm
  obtain ⟨s', hr, h1, h2, _, _, h5⟩ := echo_loop h cs
    (afterRecv h ({ s with recv_bytes := msg.length, buf := msg ++ s.buf.drop msg.length }.emit
        (.received msg)))
    (by simp [afterRecv, hnq, echoTest, hlen])
    (by simpa using he)
    (by simpa [afterRecv, hnq, echoTest, hlen] using hc)
  refine ⟨s', ?_, h1, ?_, ?_⟩
  · simp only [hrun, hs1, Option.bind_some]; exact hr
  · rw [h2]; simp
  · rw [h5]
    have hc2 : cs.sum ≤ msg.length := by rw [hc.2]
    have e : chunks (msg ++ s.buf.drop msg.length) cs = chunks msg cs := by
      rw [← chunks_take cs (msg ++ s.buf.drop msg.length) msg.length hc2, List.take_left]
    simp [afterRecv, hnq, echoTest, hlen, e]

/-- The end of a session in a LimitConn server: a `recv` delivers the terminator, `close`
and `sem_post` return 0. -/
theorem quit_round (h : Handler) (hv : h.variant ≠ .logger) (hq : h.quit_command = SERVER_COMMAND)
    (s : HState) (hpc : s.pc = .receive) (hb : SERVER_COMMAND.length ≤ h.buf_len) :
    ∃ s1 s2 s3, hstep h s (.data SERVER_COMMAND) = some s1 ∧ s1.pc = .closing
      ∧ hstep h s1 (.ret 0) = some s2 ∧ s2.pc = .posting
      ∧ hstep h s2 (.ret 0) = some s3 ∧ s3.pc = .returned
      ∧ s3.trace = s.trace ++ [.received SERVER_COMMAND, .closed, .posted] := by
  have hs1 := hstep_data h s hpc SERVER_COMMAND (by decide) hb
  rw [logReceived_of_not_logger h hv] at hs1
  have hisq : is_quit (SERVER_COMMAND ++ s.buf.drop SERVER_COMMAND.length)
      SERVER_COMMAND.length h.quit_command = true := by
    rw [hq, is_quit_iff _ _ _ strlen_SERVER_COMMAND, List.take_left]
    exact ⟨rfl, rfl⟩
  have hp1 : (afterRecv h ({ s with
        recv_bytes := SERVER_COMMAND.length,
        buf := SERVER_COMMAND ++ s.buf.drop SERVER_COMMAND.length }.emit
        (.received SERVER_COMMAND))).pc = .closing := by
    simp [afterRecv, hisq]
  refine ⟨_, _, _, hs1, hp1, hstep_close h hv _ hp1, rfl, hstep_post h _ rfl, rfl, ?_⟩
  simp

/-- The rounds of the echo loop for the messages of a session. -/
theorem echo_rounds (h : Handler) (hv : h.variant ≠ .logger)
    (hq : h.quit_command = SERVER_COMMAND) :
    ∀ (ms : List (List Nat × List Nat)) (s : HState), s.pc = .receive → s.errno ≠ EINTR →
    (∀ p ∈ ms, p.1 ≠ [] ∧ p.1 ≠ SERVER_COMMAND ∧ p.1.length ≤ h.buf_len
      ∧ Chunking p.2 p.1.length) →
    ∃ s', hrun h s (ms.map fun p => Resp.data p.1 :: sends p.2).flatten = some s'
      ∧ s'.pc = .receive ∧ s'.errno = s.errno
      ∧ s'.trace = s.trace
          ++ (ms.map fun p => Action.received p.1 :: (chunks p.1 p.2).map .sent).flatten := by
  intro ms
  induction ms with
  | nil => intro s hpc _ _; exact ⟨s, rfl, hpc, rfl, by simp⟩
  | cons p ms ih =>
    intro s hpc he hms
    obtain ⟨hp1, hp2, hp3, hp4⟩ := hms p (List.mem_cons_self _ _)
    obtain ⟨s1, hr1, hpc1, he1, ht1⟩ := echo_round h hv hq s hpc he p.1 p.2 hp1 hp2 hp3 hp4
    obtain ⟨s2, hr2, hpc2, he2, ht2⟩ := ih s1 hpc1 (by rw [he1]; exact he)
      (fun q hq' => hms q (List.mem_cons_of_mem _ hq'))
    refine ⟨s2, ?_, hpc2, by rw [he2, he1], ?_⟩
    · simp only [List.map_cons, List.flatten_cons]
      rw [hrun_append, hr1]
      exact hr2
    · rw [ht2, ht1]; simp

theorem closes_sent (xs : List (List Nat)) : closes (xs.map .sent) = 0 := by
  unfold closes
  rw [List.count_eq_zero]
  simp

theorem closes_rounds (ms : List (List Nat × List Nat)) :
    closes (ms.map fun p => Action.received p.1 :: (chunks p.1 p.2).map .sent).flatten = 0 := by
  unfold closes
  rw [List.count_eq_zero]
  simp only [List.mem_flatten, List.mem_map, not_exists, not_and]
  rintro x ⟨p, _, rfl⟩
  simp

theorem output_rounds (ms : List (List Nat × List Nat))
    (hms : ∀ p ∈ ms, p.2.sum = p.1.length) :
    output (ms.map fun p => Action.received p.1 :: (chunks p.1 p.2).map .sent).flatten
      = (ms.map Prod.fst).flatten := by
  induction ms with
  | nil => rfl
  | cons p ms ih =>
    simp only [List.map_cons, List.flatten_cons, List.cons_append]
    show output (List.map Action.sent (chunks p.1 p.2) ++ _) = _
    rw [output_append, ih (fun q hq => hms q (List.mem_cons_of_mem _ hq)), output_sent,
      chunks_flatten _ _ (hms p (List.mem_cons_self _ _))]

/-- Sessions without a failing call. In the thread-based LimitConn server, for every session
in which no call fails
(the thread starts with `errno` different from `EINTR`, the welcome message and every echo
go out in arbitrary pieces, every `recv` delivers one message of the client): if the client
sends the non-empty non-terminator messages `m1..mk` and then the terminator,
`connection_handler` finishes the welcome loop (GREETING), stays at `recv` through the echo
rounds (ECHO_LOOP), reaches `close` on the terminator (CLOSING) and returns after `close`
and `sem_post` (CLOSED); its trace is the welcome pieces, then for every message its receipt
and its echo, then the receipt of the terminator, one `close`, one `sem_post`; its whole
output is the welcome message followed by `m1..mk`; after that it performs no call. -/
theorem session_runs_in_order (h : Handler) (hv : h.variant = .thread)
    (hq : h.quit_command = SERVER_COMMAND) (hw : strlen h.welcome = h.welcome.length)
    (hb : SERVER_COMMAND.length ≤ h.buf_len) (errno0 : Nat) (he : errno0 ≠ EINTR)
    (ws : List Nat) (hws : Chunking ws h.welcome.length)
    (ms : List (List Nat × List Nat))
    (hms : ∀ p ∈ ms, p.1 ≠ [] ∧ p.1 ≠ SERVER_COMMAND ∧ p.1.length ≤ h.buf_len
      ∧ Chunking p.2 p.1.length) :
    ∃ s1 s2 s3 s,
      hrun h (connection_handler h errno0) (sends ws) = some s1 ∧ s1.pc = .receive
      ∧ hrun h s1 (ms.map fun p => Resp.data p.1 :: sends p.2).flatten = some s2
      ∧ s2.pc = .receive
      ∧ hstep h s2 (.data SERVER_COMMAND) = some s3 ∧ s3.pc = .closing
      ∧ hrun h s3 [.ret 0, .ret 0] = some s ∧ s.pc = .returned
      ∧ hrun h (connection_handler h errno0) (sessionScript ws ms) = some s
      ∧ s.trace = sessionTrace h.welcome ws ms
      ∧ output s.trace = h.welcome ++ (ms.map Prod.fst).flatten
      ∧ closes s.trace = 1
      ∧ ∀ r, hstep h s r = none := by
  have hv' : h.variant ≠ .logger := by rw [hv]; decide
  have hinit : connection_handler h errno0 = welcomeTest
      { pc := .welcome, buf := h.welcome, msg_len := strlen h.welcome, recv_bytes := 0,
        bytes_sent := 0, errno := errno0, trace := [] } := by
    unfold connection_handler; simp [hv]
  obtain ⟨s1, hr1, hpc1, he1, _, _, ht1⟩ := welcome_loop h ws (connection_handler h errno0)
    (by rw [hinit]; unfold welcomeTest; split <;> simp_all)
    (by rw [hinit]; unfold welcomeTest; split <;> simpa using he)
    (by rw [hinit]; unfold welcomeTest; split <;> simpa [hw] using hws)
  have hb1 : (connection_handler h errno0).buf = h.welcome := by
    rw [hinit]; unfold welcomeTest; split <;> rfl
  have hb2 : (connection_handler h errno0).bytes_sent = 0 := by
    rw [hinit]; unfold welcomeTest; split <;> rfl
  have hb3 : (connection_handler h errno0).trace = [] := by
    rw [hinit]; simp
  have hb4 : (connection_handler h errno0).errno = errno0 := by
    rw [hinit]; unfold welcomeTest; split <;> rfl
  rw [hb1, hb2, hb3] at ht1
  simp only [List.drop_zero, List.nil_append] at ht1
  obtain ⟨s2, hr2, hpc2, he2, ht2⟩ := echo_rounds h hv' hq ms s1 hpc1
    (by rw [he1, hb4]; exact he) hms
  obtain ⟨s3, s4, s, hq1, hq2, hq3, hq4, hq5, hq6, hq7⟩ := quit_round h hv' hq s2 hpc2 hb
  have hrq : hrun h s3 [.ret 0, .ret 0] = some s := by
    simp [hrun, hq3, hq5]
  have htr : s.trace = sessionTrace h.welcome ws ms := by
    rw [hq7, ht2, ht1]; rfl
  refine ⟨s1, s2, s3, s, hr1, hpc1, hr2, hpc2, hq1, hq2, hrq, hq6, ?_, htr, ?_, ?_, ?_⟩
  · unfold sessionScript
    rw [hrun_append, hrun_append, hr1]
    simp [hrun, hr2, hq1, hq3, hq5]
  · rw [htr]
    unfold sessionTrace
    rw [output_append, output_append, output_sent, chunks_flatten _ _ hws.2,
      output_rounds ms (fun p hp => (hms p hp).2.2.2.2)]
    simp [output]
  · rw [htr]
    unfold sessionTrace
    have closes_sent_aux := closes_sent (chunks h.welcome ws)
    have := closes_rounds ms
    unfold closes at *
    rw [List.count_append, List.count_append, this, closes_sent_aux]
    rfl
  · intro r; unfold hstep; rw [hq6]

/-- From `close` on, a handler transmits nothing. -/
theorem no_send_after_loop (h : Handler) : ∀ (rs : List Resp) (s s' : HState),
    (s.pc = .closing ∨ s.pc = .posting ∨ s.pc = .returned ∨ ∃ st, s.pc = .exited st) →
    hrun h s rs = some s' → output s'.trace = output s.trace := by
  intro rs
  induction rs with
  | nil => intro s s' _ hr; simp [hrun] at hr; subst hr; rfl
  | cons r rs ih =>
    intro s s' hpc hr
    simp only [hrun] at hr
    cases hs : hstep h s r with
    | none => simp [hs] at hr
    | some s1 =>
      simp only [hs, Option.some_bind] at hr
      have key : (s1.pc = .closing ∨ s1.pc = .posting ∨ s1.pc = .returned
          ∨ ∃ st, s1.pc = .exited st) ∧ output s1.trace = output s.trace := by
        unfold hstep at hs
        rcases hpc with hp | hp | hp | ⟨st, hp⟩
        · simp only [hp] at hs
          unfold closeBody at hs
          split at hs
          · split at hs <;>
            · simp at hs; subst hs
              simp [output_append, output]
          · split at hs
            · simp at hs; subst hs
              simp [output_append, output]
            · simp at hs; subst hs; exact ⟨Or.inl hp, rfl⟩
          · simp at hs
        · simp only [hp] at hs
          unfold postBody at hs
          split at hs
          · simp at hs; subst hs
            simp [output_append, output]
          · split at hs
            · simp at hs; subst hs
              simp [output_append, output]
            · simp at hs; subst hs; exact ⟨Or.inr (Or.inl hp), rfl⟩
          · simp at hs
        · simp [hp] at hs
        · simp [hp] at hs
      rw [ih s1 s' key.1 hr, key.2]

/-- **C6.** For every non-empty message delivered by `recv` in the echo loop (any of the
three servers, `quit_command` being `SERVER_COMMAND`, that is "QUIT"): the handler leaves
the echo loop for `close` if and only if the message is exactly the terminator (same length
and same bytes). After the exact terminator nothing more is transmitted, whatever follows.
Any other message, also one that starts with the terminator, contains it or is a proper
prefix of it, puts the handler at the `send` of the echo loop with exactly the message to
transmit from offset 0; when `errno` is not `EINTR` every pattern of partial sends transmits
exactly the message and brings the handler back to `recv`. -/
theorem quit_iff_exact_terminator (h : Handler) (hq : h.quit_command = SERVER_COMMAND)
    (s : HState) (hpc : s.pc = .receive) (msg : List Nat) (hm : msg ≠ [])
    (hl : msg.length ≤ h.buf_len) :
    ∃ s', hstep h s (.data msg) = some s'
      ∧ (s'.pc = .closing ↔ msg = SERVER_COMMAND)
      ∧ (msg = SERVER_COMMAND →
          ∀ rs s'', hrun h s' rs = some s'' → output s''.trace = output s.trace)
      ∧ (msg ≠ SERVER_COMMAND →
          s'.pc = .echo ∧ s'.bytes_sent = 0 ∧ s'.recv_bytes = msg.length
          ∧ s'.buf.take s'.recv_bytes = msg
          ∧ (s.errno ≠ EINTR → ∀ cs, Chunking cs msg.length →
              ∃ s'', hrun h s' (sends cs) = some s'' ∧ s''.pc = .receive
                ∧ output s''.trace = output s.trace ++ msg)) := by
  have hs1 := hstep_data h s hpc msg hm hl
  have hlen : 0 < msg.length := List.length_pos.mpr hm
  obtain ⟨t, ht, hrb, hbf, htr, her⟩ : ∃ t : HState,
      t = logReceived h
        ({ s with recv_bytes := msg.length, buf := msg ++ s.buf.drop msg.length }.emit
          (.received msg))
      ∧ t.recv_bytes = msg.length ∧ t.buf.take msg.length = msg
      ∧ output t.trace = output s.trace ∧ t.errno = s.errno := by
    refine ⟨_, rfl, by simp, ?_, ?_, by simp⟩
    · have := logReceived_buf_take h
        ({ s with recv_bytes := msg.length, buf := msg ++ s.buf.drop msg.length }.emit
          (.received msg))
      simp only [emit_recv_bytes, emit_buf] at this
      rw [this, List.take_left]
    · rw [logReceived_output]
      simp [output_append, output]
  rw [← ht] at hs1
  have hisq : is_quit t.buf t.recv_bytes h.quit_command = true ↔ msg = SERVER_COMMAND := by
    rw [hq, is_quit_iff _ _ _ strlen_SERVER_COMMAND, hrb, hbf]
    constructor
    · exact fun h' => h'.2
    · intro h'; exact ⟨by rw [h'], h'⟩
  refine ⟨_, hs1, ?_, ?_, ?_⟩
  · unfold afterRecv
    split
    · rename_i hc; simpa using hisq.mp hc
    · rename_i hc
      rw [hisq] at hc
      simp only [hc, iff_false]
      intro h'
      rcases echoTest_pc { t with bytes_sent := 0 } with e | e <;> rw [e] at h' <;> cases h'
  · intro hmq rs s'' hr
    have hpc' : (afterRecv h t).pc = .closing := by
      unfold afterRecv
      rw [if_pos (hisq.mpr hmq)]
    rw [no_send_after_loop h rs _ s'' (Or.inl hpc') hr, afterRecv_trace, htr]
  · intro hne
    have hnq : ¬ is_quit t.buf t.recv_bytes h.quit_command = true := fun hc => hne (hisq.mp hc)
    have haft : afterRecv h t = { t with bytes_sent := 0, pc := .echo } := by
      unfold afterRecv
      rw [if_neg hnq]
      unfold echoTest
      simp [hrb, hlen]
    rw [haft]
    refine ⟨rfl, rfl, hrb, by simpa [hrb] using hbf, fun he cs hc => ?_⟩
    obtain ⟨s'', hr, h1, _, _, _, h5⟩ := echo_loop h cs
      { t with bytes_sent := 0, pc := .echo }
      (by simp [hrb, hlen]) (by simpa [her] using he) (by simpa [hrb] using hc)
    refine ⟨s'', hr, h1, ?_⟩
    rw [h5, output_append, output_sent]
    simp only [List.drop_zero]
    have hc2 : cs.sum ≤ msg.length := by rw [hc.2]
    rw [← chunks_take cs _ msg.length hc2, hbf, chunks_flatten _ _ hc.2, htr]

/-- The terminator "QUIT" leads to `close`; "QUIT\n", "QUITX", "xQUIT" and "QUI" lead to the
`send` of the echo loop. -/
theorem quit_iff_exact_terminator_witness :
    (∃ s', hstep (localHandler .thread) (atRecv (localHandler .thread) 0)
        (.data (bytes "QUIT")) = some s' ∧ s'.pc = .closing)
    ∧ (∃ s', hstep (localHandler .thread) (atRecv (localHandler .thread) 0)
        (.data (bytes "QUIT\n")) = some s' ∧ s'.pc = .echo ∧ s'.buf.take s'.recv_bytes = bytes "QUIT\n")
    ∧ (∃ s', hstep (localHandler .thread) (atRecv (localHandler .thread) 0)
        (.data (bytes "QUITX")) = some s' ∧ s'.pc = .echo ∧ s'.buf.take s'.recv_bytes = bytes "QUITX")
    ∧ (∃ s', hstep (localHandler .thread) (atRecv (localHandler .thread) 0)
        (.data (bytes "xQUIT")) = some s' ∧ s'.pc = .echo ∧ s'.buf.take s'.recv_bytes = bytes "xQUIT")
    ∧ (∃ s', hstep (localHandler .thread) (atRecv (localHandler .thread) 0)
        (.data (bytes "QUI")) = some s' ∧ s'.pc = .echo ∧ s'.buf.take s'.recv_bytes = bytes "QUI") := by
  have key := fun msg hm hl =>
    quit_iff_exact_terminator (localHandler .thread) rfl (atRecv (localHandler .thread) 0) rfl
      msg hm hl
  refine ⟨?_, ?_, ?_, ?_, ?_⟩
  · obtain ⟨s', h1, h2, _, _⟩ := key (bytes "QUIT") (by decide) (by decide)
    exact ⟨s', h1, h2.mpr rfl⟩
  · obtain ⟨s', h1, _, _, h4⟩ := key (bytes "QUIT\n") (by decide) (by decide)
    exact ⟨s', h1, (h4 (by decide)).1, (h4 (by decide)).2.2.2.1⟩
  · obtain ⟨s', h1, _, _, h4⟩ := key (bytes "QUITX") (by decide) (by decide)
    exact ⟨s', h1, (h4 (by decide)).1, (h4 (by decide)).2.2.2.1⟩
  · obtain ⟨s', h1, _, _, h4⟩ := key (bytes "xQUIT") (by decide) (by decide)
    exact ⟨s', h1, (h4 (by decide)).1, (h4 (by decide)).2.2.2.1⟩
  · obtain ⟨s', h1, _, _, h4⟩ := key (bytes "QUI") (by decide) (by decide)
    exact ⟨s', h1, (h4 (by decide)).1, (h4 (by decide)).2.2.2.1⟩

set_option maxRecDepth 100000 in
/-- The session "hello", "QUIT": the welcome message goes out in two pieces, "hello" in two
pieces; the output is the welcome message followed by "hello", then one `close`. -/
theorem session_runs_in_order_witness :
    ∃ s, hrun (localHandler .thread) (connection_handler (localHandler .thread) 0)
        (sessionScript [100, 44] [(bytes "hello", [2, 3])]) = some s
      ∧ s.pc = .returned
      ∧ output s.trace = (localHandler .thread).welcome ++ bytes "hello"
      ∧ closes s.trace = 1 := by
  obtain ⟨_, _, _, s, _, _, _, _, _, _, _, h8, h9, _, h11, h12, _⟩ :=
    session_runs_in_order (localHandler .thread) rfl rfl (by decide) (by decide) 0 (by decide)
      [100, 44] (by decide) [(bytes "hello", [2, 3])] (by decide)
  exact ⟨s, h9, h8, by simpa using h11, h12⟩

set_option maxRecDepth 100000 in
/-- **C5 (failing input).** Thread-based LimitConn server: the welcome message has gone out,
a `recv` is interrupted by a signal (`errno = EINTR`) and retried, then delivers "ab"; the
first `send` transmits one byte, and because `errno` still is `EINTR` the test
`ret == 1 && errno == EINTR` makes the loop `continue` without advancing `bytes_sent`; the
next `send` transmits "ab" from offset 0. The client receives "aab". -/
theorem echo_repeats_byte_after_interrupted_recv :
    (hrun (localHandler .thread) (connection_handler (localHandler .thread) 0)
        [.ret 144, .fail EINTR, .data (bytes "ab"), .ret 1, .ret 2]).map
      (fun s => (s.pc, s.bytes_sent, s.trace.drop 1))
      = some (.receive, 2, [.received (bytes "ab"), .sent (bytes "a"), .sent (bytes "ab")])
    ∧ output [.received (bytes "ab"), .sent (bytes "a"), .sent (bytes "ab")] = bytes "aab"
    ∧ bytes "aab" ≠ bytes "ab" := by
  decide

theorem posts_append (a b : List Action) : posts (a ++ b) = posts a + posts b := by
  unfold posts; exact List.count_append _ _ _

theorem afterRecv_pc (h : Handler) (t : HState) :
    (afterRecv h t).pc = .closing ∨ (afterRecv h t).pc = .echo
      ∨ (afterRecv h t).pc = .receive := by
  unfold afterRecv; split
  · exact Or.inl rfl
  · exact Or.inr (echoTest_pc _)

theorem beforePost_die (s : HState) : s.die.pc.beforePost := by
  refine ⟨by simp, by simp, fun st hst => ?_⟩
  simp at hst; exact hst.symm

theorem beforePost_welcome : Pc.welcome.beforePost := ⟨by simp, by simp, by simp⟩
theorem beforePost_receive : Pc.receive.beforePost := ⟨by simp, by simp, by simp⟩
theorem beforePost_echo : Pc.echo.beforePost := ⟨by simp, by simp, by simp⟩
theorem beforePost_closing : Pc.closing.beforePost := ⟨by simp, by simp, by simp⟩

theorem beforePost_welcomeTest (t : HState) : (welcomeTest t).pc.beforePost := by
  rcases welcomeTest_pc t with e | e <;> rw [e]
  · exact beforePost_welcome
  · exact beforePost_receive

theorem beforePost_echoTest (t : HState) : (echoTest t).pc.beforePost := by
  rcases echoTest_pc t with e | e <;> rw [e]
  · exact beforePost_echo
  · exact beforePost_receive

theorem beforePost_afterRecv (h : Handler) (t : HState) : (afterRecv h t).pc.beforePost := by
  rcases afterRecv_pc h t with e | e | e <;> rw [e]
  · exact beforePost_closing
  · exact beforePost_echo
  · exact beforePost_receive

/-- What a step of a send loop appends to the trace. -/
theorem sendBody_shape (s s' : HState) (len : Nat) (test : HState → HState) (r : Resp)
    (ht : ∀ t, (test t).trace = t.trace) (hp : ∀ t, (test t).pc.beforePost)
    (hb : sendBody s len test r = some s') :
    ∃ tl, s'.trace = s.trace ++ tl ∧ s'.pc.beforePost ∧ posts tl = 0 := by
  unfold sendBody at hb
  cases r with
  | data bs => simp at hb
  | ret n =>
    simp only at hb
    split at hb
    · simp at hb
    · split at hb
      · simp at hb; subst hb
        exact ⟨[.sent ((s.buf.drop s.bytes_sent).take n)], by simp [ht], hp _, by simp [posts]⟩
      · split at hb
        · simp at hb; subst hb
          exact ⟨[.sent ((s.buf.drop s.bytes_sent).take n), .exit EXIT_FAILURE], by simp,
            beforePost_die _, by simp [posts]⟩
        · simp at hb; subst hb
          exact ⟨[.sent ((s.buf.drop s.bytes_sent).take n)], by simp [ht], hp _, by simp [posts]⟩
  | fail e =>
    simp only at hb
    split at hb
    · simp at hb; subst hb
      exact ⟨[], by simp [ht], hp _, by simp [posts]⟩
    · split at hb
      · simp at hb; subst hb
        exact ⟨[.exit EXIT_FAILURE], by simp, beforePost_die _, by simp [posts]⟩
      · simp at hb; subst hb
        exact ⟨[], by simp [ht], hp _, by simp [posts]⟩

/-- What one step of a LimitConn handler appends to the trace. -/
theorem hstep_shape (h : Handler) (hv : h.variant ≠ .logger) (s s' : HState) (r : Resp)
    (hs : hstep h s r = some s') :
    ∃ tl, s'.trace = s.trace ++ tl ∧
      ((s.pc = .posting ∧ s'.pc = .returned ∧ tl = [.posted])
      ∨ (s.pc = .closing ∧ s'.pc = .posting ∧ tl = [.closed])
      ∨ (s'.pc.beforePost ∧ posts tl = 0)) := by
  unfold hstep at hs
  cases hpc : s.pc with
  | childInit =>
    simp only [hpc] at hs
    unfold childInitBody at hs
    split at hs
    · simp at hs; subst hs
      exact ⟨[], by simp, Or.inr (Or.inr ⟨beforePost_welcomeTest _, by simp [posts]⟩)⟩
    · simp at hs; subst hs
      exact ⟨[.exit EXIT_FAILURE], by simp, Or.inr (Or.inr ⟨beforePost_die _, by simp [posts]⟩)⟩
    · simp at hs
  | welcome =>
    simp only [hpc] at hs
    obtain ⟨tl, h1, h2⟩ := sendBody_shape s s' _ welcomeTest r welcomeTest_trace
      beforePost_welcomeTest hs
    exact ⟨tl, h1, Or.inr (Or.inr h2)⟩
  | echo =>
    simp only [hpc] at hs
    obtain ⟨tl, h1, h2⟩ := sendBody_shape s s' _ echoTest r echoTest_trace
      beforePost_echoTest hs
    exact ⟨tl, h1, Or.inr (Or.inr h2)⟩
  | receive =>
    have hsp : s.pc.beforePost := by rw [hpc]; exact beforePost_receive
    simp only [hpc] at hs
    unfold recvBody at hs
    cases r with
    | ret n => simp at hs
    | data bs =>
      simp only at hs
      split at hs
      · simp at hs
      · split at hs
        · split at hs
          · simp at hs; subst hs
            exact ⟨[.exit EXIT_FAILURE], by simp,
              Or.inr (Or.inr ⟨beforePost_die _, by simp [posts]⟩)⟩
          · simp at hs; subst hs
            exact ⟨[], by simp, Or.inr (Or.inr ⟨hsp, by simp [posts]⟩)⟩
        · simp at hs; subst hs
          rw [logReceived_of_not_logger h hv]
          exact ⟨[.received bs], by simp,
            Or.inr (Or.inr ⟨beforePost_afterRecv _ _, by simp [posts]⟩)⟩
    | fail e =>
      simp only at hs
      split at hs
      · simp at hs; subst hs
        exact ⟨[], by simp, Or.inr (Or.inr ⟨hsp, by simp [posts]⟩)⟩
      · split at hs
        · simp at hs; subst hs
          exact ⟨[.exit EXIT_FAILURE], by simp,
            Or.inr (Or.inr ⟨beforePost_die _, by simp [posts]⟩)⟩
        · simp at hs; subst hs
          exact ⟨[], by simp, Or.inr (Or.inr ⟨hsp, by simp [posts]⟩)⟩
  | closing =>
    have hsp : s.pc.beforePost := by rw [hpc]; exact beforePost_closing
    simp only [hpc] at hs
    unfold closeBody at hs
    split at hs
    · simp [hv] at hs; subst hs
      exact ⟨[.closed], by simp, Or.inr (Or.inl ⟨rfl, rfl, rfl⟩)⟩
    · split at hs
      · simp at hs; subst hs
        exact ⟨[.exit EXIT_FAILURE], by simp,
          Or.inr (Or.inr ⟨beforePost_die _, by simp [posts]⟩)⟩
      · simp at hs; subst hs
        exact ⟨[], by simp, Or.inr (Or.inr ⟨hsp, by simp [posts]⟩)⟩
    · simp at hs
  | posting =>
    simp only [hpc] at hs
    unfold postBody at hs
    split at hs
    · simp at hs; subst hs
      exact ⟨[.posted], by simp, Or.inl ⟨rfl, rfl, rfl⟩⟩
    · split at hs
      · simp at hs; subst hs
        exact ⟨[.exit EXIT_FAILURE], by simp,
          Or.inr (Or.inr ⟨beforePost_die _, by simp [posts]⟩)⟩
      · rename_i hne
        exact absurd (by decide : ERROR_HELPER (-1) = true) hne
    · simp at hs
  | returned => simp [hpc] at hs
  | exited st => simp [hpc] at hs

/-- Trace invariant of a LimitConn handler: before the `sem_post` nothing has been posted,
the `sem_post` directly follows the `close`, and a handler that has returned has posted
exactly once, as its last action. -/
theorem post_invariant (h : Handler) (hv : h.variant ≠ .logger) :
    ∀ (rs : List Resp) (s s' : HState), hrun h s rs = some s' →
    (s.pc.beforePost ∧ posts s.trace = 0) ∨ (s.pc = .childInit ∧ posts s.trace = 0)
      ∨ (s.pc = .posting ∧ posts s.trace = 0 ∧ ∃ tr, s.trace = tr ++ [.closed])
      ∨ (s.pc = .returned ∧ ∃ tr, s.trace = tr ++ [.closed, .posted] ∧ posts tr = 0) →
    (s'.pc.beforePost ∧ posts s'.trace = 0) ∨ (s'.pc = .childInit ∧ posts s'.trace = 0)
      ∨ (s'.pc = .posting ∧ posts s'.trace = 0 ∧ ∃ tr, s'.trace = tr ++ [.closed])
      ∨ (s'.pc = .returned ∧ ∃ tr, s'.trace = tr ++ [.closed, .posted] ∧ posts tr = 0) := by
  intro rs
  induction rs with
  | nil => intro s s' hr hi; simp [hrun] at hr; subst hr; exact hi
  | cons r rs ih =>
    intro s s' hr hi
    simp only [hrun] at hr
    cases hs : hstep h s r with
    | none => simp [hs] at hr
    | some s1 =>
      simp only [hs, Option.some_bind] at hr
      apply ih s1 s' hr
      obtain ⟨tl, ht, hsh⟩ := hstep_shape h hv s s1 r hs
      have hp0 : s.pc ≠ .returned → posts s.trace = 0 := by
        intro hne
        rcases hi with hi | hi | hi | hi
        · exact hi.2
        · exact hi.2
        · exact hi.2.1
        · exact absurd hi.1 hne
      rcases hsh with ⟨h1, h2, h3⟩ | ⟨h1, h2, h3⟩ | ⟨h1, h2⟩
      · right; right; right
        rcases hi with hi | hi | hi | hi
        · exact absurd h1 hi.1.2.1
        · rw [h1] at hi; cases hi.1
        · obtain ⟨_, hp, tr, htr⟩ := hi
          refine ⟨h2, tr, by rw [ht, htr, h3]; simp, ?_⟩
          rw [htr, posts_append] at hp
          omega
        · rw [h1] at hi; cases hi.1
      · right; right; left
        subst h3
        refine ⟨h2, ?_, s.trace, ht⟩
        rw [ht, posts_append, hp0 (by rw [h1]; simp)]
        rfl
      · left
        refine ⟨h1, ?_⟩
        have hne : s.pc ≠ .returned := by
          intro hret
          unfold hstep at hs
          simp [hret] at hs
        rw [ht, posts_append, hp0 hne, h2]

set_option maxRecDepth 100000 in
/-- **C9 (counterexample).** The peer disconnects (`recv` returns 0) after the welcome
message: the handler calls `exit(EXIT_FAILURE)` and no `sem_post` has been executed, in the
thread and in the process variant. In the process-based server with `MAX_CONCURRENCY = 1`
the slot of the dead child is lost: `connections` stays 0, no worker is running, and the
dispatcher's `sem_wait` for the next accepted connection is not enabled. -/
theorem no_post_on_peer_disconnect :
    (hrun (localHandler .thread) (connection_handler (localHandler .thread) 0)
        [.ret 144, .data []]).map (fun s => (s.pc, posts s.trace))
      = some (.exited EXIT_FAILURE, 0)
    ∧ (hrun (localHandler .process) (connection_handler (localHandler .process) 0)
        [.ret 0, .ret 144, .data []]).map (fun s => (s.pc, posts s.trace))
      = some (.exited EXIT_FAILURE, 0)
    ∧ (srun (localHandler .process) 0 (Server.init 1)
        (dispatchOne ++ [.worker 0 (.ret 0), .worker 0 (.ret 144), .worker 0 (.data []),
          .main (.ret 6)])).map
        (fun s => (s.connections, s.running, s.crashed, s.halted,
          sstep (localHandler .process) 0 s .semWait))
      = some (0, 0, 1, none, none) := by
  decide

/-- **C9 (amended).** In the admission-limited servers, for every sequence of answers to the
calls of `connection_handler`: a handler that has completed normally has executed exactly
one `sem_post(&connections)`, as its last action, directly after `close`; a handler that has
ended through `exit` has ended with `EXIT_FAILURE` and has executed no `sem_post`; a handler
still running has executed none. The error paths end in `exit(EXIT_FAILURE)`: a `recv` that
returns 0, a `recv` that fails with an error other than `EINTR`, a failing `send`, a failing
`close`. -/
theorem slot_released_only_on_normal_completion (h : Handler) (hv : h.variant ≠ .logger)
    (errno0 : Nat) (rs : List Resp) (s : HState)
    (hr : hrun h (connection_handler h errno0) rs = some s) :
    (s.pc = .returned → posts s.trace = 1 ∧ ∃ tr, s.trace = tr ++ [.closed, .posted])
    ∧ (∀ st, s.pc = .exited st → st = EXIT_FAILURE ∧ posts s.trace = 0)
    ∧ (s.pc.running = true → posts s.trace = 0)
    ∧ (s.pc = .receive → hstep h s (.data []) = some s.die)
    ∧ (s.pc = .receive → ∀ e, e ≠ EINTR → hstep h s (.fail e) = some { s with errno := e }.die)
    ∧ (s.pc = .welcome ∨ s.pc = .echo →
        ∀ e, hstep h s (.fail e) = some { s with errno := e }.die)
    ∧ (s.pc = .closing → ∀ e, hstep h s (.fail e) = some { s with errno := e }.die)
    ∧ (∀ t : HState, t.die.pc = .exited EXIT_FAILURE ∧ posts t.die.trace = posts t.trace) := by
  have hinit : ((connection_handler h errno0).pc.beforePost
        ∧ posts (connection_handler h errno0).trace = 0)
      ∨ ((connection_handler h errno0).pc = .childInit
        ∧ posts (connection_handler h errno0).trace = 0) := by
    unfold connection_handler
    split
    · exact Or.inr ⟨rfl, rfl⟩
    · exact Or.inl ⟨beforePost_welcomeTest _, by simp [posts]⟩
  have hinv := post_invariant h hv rs _ s hr
    (by rcases hinit with h1 | h1
        · exact Or.inl h1
        · exact Or.inr (Or.inl h1))
  refine ⟨?_, ?_, ?_, ?_, ?_, ?_, ?_, ?_⟩
  · intro hret
    rcases hinv with h1 | h1 | h1 | h1
    · exact absurd hret h1.1.1
    · rw [hret] at h1; cases h1.1
    · rw [hret] at h1; cases h1.1
    · obtain ⟨_, tr, htr, hp⟩ := h1
      refine ⟨?_, tr, htr⟩
      rw [htr, posts_append, hp]
      rfl
  · intro st hst
    rcases hinv with h1 | h1 | h1 | h1
    · exact ⟨h1.1.2.2 st hst, h1.2⟩
    · rw [hst] at h1; cases h1.1
    · rw [hst] at h1; cases h1.1
    · rw [hst] at h1; cases h1.1
  · intro hrun
    rcases hinv with h1 | h1 | h1 | h1
    · exact h1.2
    · exact h1.2
    · exact h1.2.1
    · rw [h1.1] at hrun; cases hrun
  · intro hpc
    unfold hstep; simp only [hpc]
    simp [recvBody, ERROR_HELPER]
  · intro hpc e he
    unfold hstep; simp only [hpc]
    simp [recvBody, ERROR_HELPER, he, HState.die, hpc]
  · intro hpc e
    unfold hstep
    rcases hpc with hpc | hpc <;> simp only [hpc] <;>
      simp [sendBody, Resp.val, ERROR_HELPER, HState.die, hpc]
  · intro hpc e
    unfold hstep; simp only [hpc]
    simp [closeBody, ERROR_HELPER, HState.die, hpc]
  · intro t
    refine ⟨rfl, ?_⟩
    simp [posts_append, posts]

set_option maxRecDepth 100000 in
/-- The session "QUIT" ends with exactly one `sem_post`; the session that is cut by the peer
after the welcome message ends in `exit(EXIT_FAILURE)` without `sem_post`. -/
theorem slot_released_only_on_normal_completion_witness :
    (∃ s, hrun (localHandler .thread) (connection_handler (localHandler .thread) 0)
        (sessionScript [144] []) = some s ∧ s.pc = .returned ∧ posts s.trace = 1)
    ∧ (∃ s, hrun (localHandler .thread) (connection_handler (localHandler .thread) 0)
        [.ret 144, .data []] = some s ∧ s.pc = .exited EXIT_FAILURE ∧ posts s.trace = 0) := by
  refine ⟨⟨_, rfl, rfl, ?_⟩, ⟨_, rfl, rfl, ?_⟩⟩
  · have key := fun s hr => (slot_released_only_on_normal_completion (localHandler .thread)
      (by decide) 0 (sessionScript [144] []) s hr).1
    exact (key _ rfl rfl).1
  · have key := fun s hr => (slot_released_only_on_normal_completion (localHandler .thread)
      (by decide) 0 [.ret 144, .data []] s hr).2.1
    exact (key _ rfl EXIT_FAILURE rfl).2

set_option maxRecDepth 100000 in
/-- **C10 (counterexample).** Thread-based LimitConn server with two handlers in their echo
loop: when the `recv` of the first returns 0, the server process has exited with
`EXIT_FAILURE`; neither the second handler (which would receive "hello") nor the dispatcher
(which would accept a connection) takes a step any more. -/
theorem peer_disconnect_stops_thread_server :
    (srun (localHandler .thread) 0 (Server.init 2)
        (dispatchOne ++ dispatchOne ++
          [.worker 0 (.ret 144), .worker 1 (.ret 144), .worker 0 (.data [])])).map
      (fun s => (s.halted, s.workers.map (fun w => w.pc),
        sstep (localHandler .thread) 0 s (.worker 1 (.data (bytes "hello"))),
        sstep (localHandler .thread) 0 s (.main (.ret 7))))
      = some (some EXIT_FAILURE, [.exited EXIT_FAILURE, .receive], none, none) := by
  decide

/-- **C10 (amended).** In a thread-based server (LimitConn thread variant, logger variant),
when `recv` returns 0 in the echo loop of a handler, `ERROR_HELPER` calls
`exit(EXIT_FAILURE)`: the whole server process exits with `EXIT_FAILURE` and no thread of it
(dispatcher, other handlers, logger) takes a further step. -/
theorem peer_disconnect_exits_process (h : Handler) (hv : h.variant ≠ .process)
    (errno0 : Nat) (s : Server) (hh : s.halted = none) (i : Nat) (w : HState)
    (hw : s.workers[i]? = some w) (hpc : w.pc = .receive) :
    ∃ s', sstep h errno0 s (.worker i (.data [])) = some s'
      ∧ s'.halted = some EXIT_FAILURE
      ∧ s'.workers[i]? = some w.die
      ∧ ∀ st, sstep h errno0 s' st = none := by
  have hi : i < s.workers.length := by
    rcases Nat.lt_or_ge i s.workers.length with h1 | h1
    · exact h1
    · rw [List.getElem?_eq_none h1] at hw; cases hw
  have hs : hstep h w (.data []) = some w.die := by
    unfold hstep; simp only [hpc]
    simp [recvBody, ERROR_HELPER, HState.die, hpc]
  refine ⟨({ s with workers := s.workers.set i w.die } : Server).halt EXIT_FAILURE, ?_, rfl, ?_, ?_⟩
  · unfold sstep
    simp [hh, hw, hs, hv]
  · simp [Server.halt, hi]
  · intro st
    unfold sstep
    simp [Server.halt]

set_option maxRecDepth 100000 in
/-- Two handlers of the thread-based server in their echo loop; the peer of the first
disconnects. -/
theorem peer_disconnect_exits_process_witness :
    ∃ s, srun (localHandler .thread) 0 (Server.init 2)
        (dispatchOne ++ dispatchOne ++ [.worker 0 (.ret 144), .worker 1 (.ret 144)]) = some s
      ∧ ∃ s', sstep (localHandler .thread) 0 s (.worker 0 (.data [])) = some s'
        ∧ s'.halted = some EXIT_FAILURE
        ∧ s'.workers[0]? = some (atRecv (localHandler .thread) 0).die
        ∧ ∀ st, sstep (localHandler .thread) 0 s' st = none := by
  refine ⟨_, rfl, ?_⟩
  exact peer_disconnect_exits_process (localHandler .thread) (by decide) 0 _ rfl 0
    (atRecv (localHandler .thread) 0) (by decide) rfl

theorem mod_succ_congr (a b S : Nat) (h : a % S = b % S) : (a + 1) % S = (b + 1) % S := by
  rw [Nat.add_mod a 1 S, Nat.add_mod b 1 S, h]

theorem mod_ne_of_lt (k n S : Nat) (h1 : k < n) (h2 : n < k + S) : k % S ≠ n % S := by
  intro h
  have hd : S ∣ n - k := (Nat.modEq_iff_dvd' (le_of_lt h1)).mp h
  have hpos : 0 < n - k := by omega
  have := Nat.le_of_dvd hpos hd
  omega

/-- Moving producer `i` from statement `x` to statement `y` changes the counts by the weights
of `x` and `y`. -/
theorem producer_move {α : Type} (l : List (PPc α)) (i : Nat) (x y : PPc α)
    (h : l[i]? = some x) :
    weight PPc.reserved (l.set i y) + x.reserved = weight PPc.reserved l + y.reserved
    ∧ weight PPc.stored (l.set i y) + x.stored = weight PPc.stored l + y.stored
    ∧ weight PPc.locked (l.set i y) + x.locked = weight PPc.locked l + y.locked
    ∧ weight PPc.pending (l.set i y) + x.pending = weight PPc.pending l + y.pending :=
  ⟨weight_set _ y l i x h, weight_set _ y l i x h, weight_set _ y l i x h, weight_set _ y l i x h⟩

/-- Moving consumer `j` from statement `x` to statement `y` changes the counts by the weights
of `x` and `y`. -/
theorem consumer_move (l : List CPc) (j : Nat) (x y : CPc) (h : l[j]? = some x) :
    weight CPc.claimed (l.set j y) + x.claimed = weight CPc.claimed l + y.claimed
    ∧ weight CPc.taken (l.set j y) + x.taken = weight CPc.taken l + y.taken
    ∧ weight CPc.locked (l.set j y) + x.locked = weight CPc.locked l + y.locked
    ∧ weight CPc.pending (l.set j y) + x.pending = weight CPc.pending l + y.pending
    ∧ weight CPc.atIndex (l.set j y) + x.atIndex = weight CPc.atIndex l + y.atIndex :=
  ⟨weight_set _ y l j x h, weight_set _ y l j x h, weight_set _ y l j x h,
    weight_set _ y l j x h, weight_set _ y l j x h⟩

theorem pending_le_locked {α : Type} (l : List (PPc α)) :
    weight PPc.pending l ≤ weight PPc.locked l :=
  weight_le_weight _ _ (fun x => by cases x <;> simp [PPc.pending, PPc.locked]) l

theorem cpending_le_locked (l : List CPc) : weight CPc.pending l ≤ weight CPc.locked l :=
  weight_le_weight _ _ (fun x => by cases x <;> simp [CPc.pending, CPc.locked]) l

theorem cpending_le_length (l : List CPc) : weight CPc.pending l ≤ l.length :=
  weight_le_length _ (fun x => by cases x <;> simp [CPc.pending]) l

theorem BInv_init {α : Type} (c : BufCfg) (hS : 0 < c.SIZE) (np nc : Nat)
    (hc : c.read_mutexed = false → nc ≤ 1) : BInv c (BState.init c np nc : BState α) where
  size := by simp [BState.init]
  fill := by
    simp [BState.init, weight_replicate_zero CPc.claimed .waitFill rfl,
      weight_replicate_zero (@PPc.stored α) .producing rfl]
  empty := by
    simp [BState.init, weight_replicate_zero CPc.taken .waitFill rfl,
      weight_replicate_zero (@PPc.reserved α) .producing rfl]
  wmutex := by
    simp [BState.init, weight_replicate_zero (@PPc.locked α) .producing rfl]
  rmutex := by
    intro _
    simp [BState.init, weight_replicate_zero CPc.locked .waitFill rfl]
  single := by
    intro h; simpa [BState.init] using hc h
  widx := by
    simp [BState.init, weight_replicate_zero (@PPc.pending α) .producing rfl, hS]
  ridx := by
    simp [BState.init, weight_replicate_zero CPc.pending .waitFill rfl, hS]
  content := by
    intro k _ hk; simp [BState.init] at hk
  fifo := by simp [BState.init]

theorem getD_set_self {β : Type} (l : List β) (i : Nat) (a d : β) (h : i < l.length) :
    (l.set i a).getD i d = a := by
  simp [List.getD_eq_getElem?_getD, h]

theorem getD_set_ne {β : Type} (l : List β) (i j : Nat) (a d : β) (h : i ≠ j) :
    (l.set i a).getD j d = l.getD j d := by
  simp [List.getD_eq_getElem?_getD, List.getElem?_set_ne h]

/-- The statements of a producer preserve the invariant. -/
theorem BInv_producer {α : Type} (c : BufCfg) (hS : 0 < c.SIZE) (hw : c.write_mutexed = true)
    (s s' : BState α) (i : Nat) (hs : my_log c s i = some s') (hi : BInv c s) :
    BInv c s' := by
  unfold my_log at hs
  cases hp : s.producers[i]? with
  | none => simp [hp] at hs
  | some p =>
    simp only [hp] at hs
    cases p with
    | producing => simp at hs
    | waitEmpty x =>
      simp only [hw, if_true] at hs
      unfold sem_wait at hs
      split at hs
      · simp at hs; subst hs
        obtain ⟨m1, m2, m3, m4⟩ := producer_move s.producers i _ (.waitMutex x) hp
        simp only [PPc.reserved, PPc.stored, PPc.locked, PPc.pending] at m1 m2 m3 m4
        exact {
          size := hi.size
          fill := by have := hi.fill; simp only; omega
          empty := by have := hi.empty; simp only; omega
          wmutex := by have := hi.wmutex; simp only; omega
          rmutex := hi.rmutex
          single := hi.single
          widx := by have := hi.widx; simp only; rw [show weight PPc.pending (s.producers.set i (.waitMutex x)) = weight PPc.pending s.producers by omega]; exact this
          ridx := hi.ridx
          content := hi.content
          fifo := hi.fifo }
      · simp at hs
    | waitMutex x =>
      simp only at hs
      unfold sem_wait at hs
      split at hs
      · simp at hs; subst hs
        obtain ⟨m1, m2, m3, m4⟩ := producer_move s.producers i _ (.store x) hp
        simp only [PPc.reserved, PPc.stored, PPc.locked, PPc.pending] at m1 m2 m3 m4
        exact {
          size := hi.size
          fill := by have := hi.fill; simp only; omega
          empty := by have := hi.empty; simp only; omega
          wmutex := by have := hi.wmutex; simp only; omega
          rmutex := hi.rmutex
          single := hi.single
          widx := by
            have := hi.widx; simp only
            rw [show weight PPc.pending (s.producers.set i (.store x))
              = weight PPc.pending s.producers by omega]
            exact this
          ridx := hi.ridx
          content := hi.content
          fifo := hi.fifo }
      · simp at hs
    | store x =>
      simp at hs; subst hs
      obtain ⟨m1, m2, m3, m4⟩ := producer_move s.producers i _ .advance hp
      simp only [PPc.reserved, PPc.stored, PPc.locked, PPc.pending] at m1 m2 m3 m4
      have hpl := pending_le_locked (s.producers.set i .advance)
      have hwm := hi.wmutex
      have hp0 : weight PPc.pending s.producers = 0 := by omega
      have hwi : s.write_index = s.puts.length % c.SIZE := by
        have := hi.widx.2
        rw [hp0, Nat.add_zero, Nat.mod_eq_of_lt hi.widx.1] at this
        exact this
      have hfill := hi.fill
      have hempty := hi.empty
      exact {
        size := by simp [hi.size]
        fill := by simp only [List.length_append, List.length_singleton]; omega
        empty := by simp only [List.length_append, List.length_singleton]; omega
        wmutex := by simp only; omega
        rmutex := hi.rmutex
        single := hi.single
        widx := by
          refine ⟨hi.widx.1, ?_⟩
          simp only [List.length_append, List.length_singleton]
          rw [show weight PPc.pending (s.producers.set i .advance) = 0 + 1 by omega,
            ← Nat.add_assoc]
          apply mod_succ_congr
          show (s.write_index + 0) % c.SIZE = s.puts.length % c.SIZE
          rw [Nat.add_zero, hwi, Nat.mod_mod]
        ridx := hi.ridx
        content := by
          intro k hk1 hk2
          dsimp only at hk1 hk2 ⊢
          simp only [List.length_append, List.length_singleton] at hk2
          rcases Nat.lt_or_ge k s.puts.length with hlt | hge
          · have hne : s.write_index ≠ k % c.SIZE := by
              rw [hwi]
              exact (mod_ne_of_lt k s.puts.length c.SIZE hlt (by omega)).symm
            rw [getD_set_ne _ _ _ _ _ hne, hi.content k hk1 hlt]
            simp [List.getElem_append_left, hlt]
          · have hk : k = s.puts.length := by omega
            subst hk
            rw [← hwi, getD_set_self _ _ _ _ (by rw [hi.size]; exact hi.widx.1)]
            simp
        fifo := by
          simp only
          rw [List.take_append_of_le_length (by omega)]
          exact hi.fifo }
    | advance =>
      simp only [hw, if_true] at hs
      simp at hs; subst hs
      obtain ⟨m1, m2, m3, m4⟩ := producer_move s.producers i _ .postMutex hp
      simp only [PPc.reserved, PPc.stored, PPc.locked, PPc.pending] at m1 m2 m3 m4
      exact {
        size := hi.size
        fill := by have := hi.fill; simp only; omega
        empty := by have := hi.empty; simp only; omega
        wmutex := by have := hi.wmutex; simp only; omega
        rmutex := hi.rmutex
        single := hi.single
        widx := by
          refine ⟨Nat.mod_lt _ hS, ?_⟩
          simp only
          rw [Nat.mod_add_mod, ← hi.widx.2]
          congr 1
          omega
        ridx := hi.ridx
        content := hi.content
        fifo := hi.fifo }
    | postMutex =>
      simp at hs; subst hs
      obtain ⟨m1, m2, m3, m4⟩ := producer_move s.producers i _ .postFill hp
      simp only [PPc.reserved, PPc.stored, PPc.locked, PPc.pending] at m1 m2 m3 m4
      exact {
        size := hi.size
        fill := by have := hi.fill; simp only; omega
        empty := by have := hi.empty; simp only; omega
        wmutex := by have := hi.wmutex; simp only [sem_post]; omega
        rmutex := hi.rmutex
        single := hi.single
        widx := by
          have := hi.widx; simp only
          rw [show weight PPc.pending (s.producers.set i .postFill)
            = weight PPc.pending s.producers by omega]
          exact this
        ridx := hi.ridx
        content := hi.content
        fifo := hi.fifo }
    | postFill =>
      simp at hs; subst hs
      obtain ⟨m1, m2, m3, m4⟩ := producer_move s.producers i _ .producing hp
      simp only [PPc.reserved, PPc.stored, PPc.locked, PPc.pending] at m1 m2 m3 m4
      exact {
        size := hi.size
        fill := by have := hi.fill; simp only [sem_post]; omega
        empty := by have := hi.empty; simp only; omega
        wmutex := by have := hi.wmutex; simp only; omega
        rmutex := hi.rmutex
        single := hi.single
        widx := by
          have := hi.widx; simp only
          rw [show weight PPc.pending (s.producers.set i .producing)
            = weight PPc.pending s.producers by omega]
          exact this
        ridx := hi.ridx
        content := hi.content
        fifo := hi.fifo }

theorem take_succ_map_some {α : Type} (l : List α) (n : Nat) (h : n < l.length) :
    (l.take (n + 1)).map some = (l.take n).map some ++ [some (l.get ⟨n, h⟩)] := by
  rw [List.take_succ, List.map_append, List.getElem?_eq_getElem h]
  rfl

/-- The statements of a consumer preserve the invariant. -/
theorem BInv_consumer {α : Type} (c : BufCfg) (hS : 0 < c.SIZE)
    (s s' : BState α) (j : Nat) (hs : logger c s j = some s') (hi : BInv c s) :
    BInv c s' := by
  unfold logger at hs
  cases hp : s.consumers[j]? with
  | none => simp [hp] at hs
  | some p =>
    simp only [hp] at hs
    cases p with
    | waitFill =>
      simp only at hs
      unfold sem_wait at hs
      by_cases hpos : 0 < s.fill_count
      · rw [if_pos hpos] at hs
        simp only [Option.map_some', Option.some.injEq] at hs
        subst hs
        obtain ⟨m1, m2, m3, m4, m5⟩ := consumer_move s.consumers j _
          (if c.read_mutexed = true then CPc.waitMutex else CPc.load) hp
        cases hr : c.read_mutexed <;>
        · simp only [hr, if_true, if_false, Bool.false_eq_true, CPc.claimed, CPc.taken,
            CPc.locked, CPc.pending, CPc.atIndex] at m1 m2 m3 m4 m5 ⊢
          exact {
            size := hi.size
            fill := by have := hi.fill; simp only; omega
            empty := by have := hi.empty; simp only; omega
            wmutex := hi.wmutex
            rmutex := fun h' => by have := hi.rmutex h'; rw [hr] at h'; first | (simp only; omega) | cases h'
            single := by intro h'; have := hi.single h'; simpa using this
            widx := hi.widx
            ridx := by
              have := hi.ridx; simp only
              rw [show weight CPc.pending (s.consumers.set j _)
                = weight CPc.pending s.consumers by omega]
              exact this
            content := hi.content
            fifo := hi.fifo }
      · rw [if_neg hpos] at hs; simp at hs
    | waitMutex =>
      simp only at hs
      unfold sem_wait at hs
      split at hs
      · simp at hs; subst hs
        obtain ⟨m1, m2, m3, m4, m5⟩ := consumer_move s.consumers j _ CPc.load hp
        simp only [CPc.claimed, CPc.taken, CPc.locked, CPc.pending, CPc.atIndex]
          at m1 m2 m3 m4 m5
        exact {
          size := hi.size
          fill := by have := hi.fill; simp only; omega
          empty := by have := hi.empty; simp only; omega
          wmutex := hi.wmutex
          rmutex := by intro h'; have := hi.rmutex h'; simp only; omega
          single := by intro h'; have := hi.single h'; simpa using this
          widx := hi.widx
          ridx := by
            have := hi.ridx; simp only
            rw [show weight CPc.pending (s.consumers.set j .load)
              = weight CPc.pending s.consumers by omega]
            exact this
          content := hi.content
          fifo := hi.fifo }
      · simp at hs
    | load =>
      simp only [Option.some.injEq] at hs
      subst hs
      obtain ⟨m1, m2, m3, m4, m5⟩ := consumer_move s.consumers j _ CPc.advance hp
      simp only [CPc.claimed, CPc.taken, CPc.locked, CPc.pending, CPc.atIndex]
        at m1 m2 m3 m4 m5
      have hp0 : weight CPc.pending s.consumers = 0 := by
        cases hr : c.read_mutexed with
        | true =>
          have := hi.rmutex hr
          have := cpending_le_locked (s.consumers.set j .advance)
          omega
        | false =>
          have := hi.single hr
          have := cpending_le_length (s.consumers.set j .advance)
          simp only [List.length_set] at this
          omega
      have hri : s.read_index = s.takes.length % c.SIZE := by
        have := hi.ridx.2
        rw [hp0, Nat.add_zero, Nat.mod_eq_of_lt hi.ridx.1] at this
        exact this
      have hfill := hi.fill
      have hempty := hi.empty
      have hlt : s.takes.length < s.puts.length := by omega
      exact {
        size := hi.size
        fill := by simp only [List.length_append, List.length_singleton]; omega
        empty := by simp only [List.length_append, List.length_singleton]; omega
        wmutex := hi.wmutex
        rmutex := by intro h'; have := hi.rmutex h'; simp only; omega
        single := by intro h'; have := hi.single h'; simpa using this
        widx := hi.widx
        ridx := by
          refine ⟨hi.ridx.1, ?_⟩
          simp only [List.length_append, List.length_singleton]
          rw [show weight CPc.pending (s.consumers.set j .advance) = 0 + 1 by omega,
            ← Nat.add_assoc]
          apply mod_succ_congr
          show (s.read_index + 0) % c.SIZE = s.takes.length % c.SIZE
          rw [Nat.add_zero, hri, Nat.mod_mod]
        content := by
          intro k hk1 hk2
          dsimp only at hk1 hk2 ⊢
          simp only [List.length_append, List.length_singleton] at hk1
          exact hi.content k (by omega) hk2
        fifo := by
          dsimp only
          rw [List.length_append, List.length_singleton, take_succ_map_some _ _ hlt, ← hi.fifo,
            hri, hi.content _ (le_refl _) hlt] }
    | advance =>
      simp only [Option.some.injEq] at hs
      subst hs
      obtain ⟨m1, m2, m3, m4, m5⟩ := consumer_move s.consumers j _
        (if c.read_mutexed = true then CPc.postMutex else CPc.postEmpty) hp
      cases hr : c.read_mutexed <;>
      · simp only [hr, if_true, if_false, Bool.false_eq_true, CPc.claimed, CPc.taken,
          CPc.locked, CPc.pending, CPc.atIndex] at m1 m2 m3 m4 m5 ⊢
        exact {
          size := hi.size
          fill := by have := hi.fill; simp only; omega
          empty := by have := hi.empty; simp only; omega
          wmutex := hi.wmutex
          rmutex := fun h' => by have := hi.rmutex h'; rw [hr] at h'; first | (simp only; omega) | cases h'
          single := by intro h'; have := hi.single h'; simpa using this
          widx := hi.widx
          ridx := by
            refine ⟨Nat.mod_lt _ hS, ?_⟩
            simp only
            rw [Nat.mod_add_mod, ← hi.ridx.2]
            congr 1
            omega
          content := hi.content
          fifo := hi.fifo }
    | postMutex =>
      simp at hs; subst hs
      obtain ⟨m1, m2, m3, m4, m5⟩ := consumer_move s.consumers j _ CPc.postEmpty hp
      simp only [CPc.claimed, CPc.taken, CPc.locked, CPc.pending, CPc.atIndex]
        at m1 m2 m3 m4 m5
      exact {
        size := hi.size
        fill := by have := hi.fill; simp only; omega
        empty := by have := hi.empty; simp only; omega
        wmutex := hi.wmutex
        rmutex := by intro h'; have := hi.rmutex h'; simp only [sem_post]; omega
        single := by intro h'; have := hi.single h'; simpa using this
        widx := hi.widx
        ridx := by
          have := hi.ridx; simp only
          rw [show weight CPc.pending (s.consumers.set j .postEmpty)
            = weight CPc.pending s.consumers by omega]
          exact this
        content := hi.content
        fifo := hi.fifo }
    | postEmpty =>
      simp at hs; subst hs
      obtain ⟨m1, m2, m3, m4, m5⟩ := consumer_move s.consumers j _ CPc.waitFill hp
      simp only [CPc.claimed, CPc.taken, CPc.locked, CPc.pending, CPc.atIndex]
        at m1 m2 m3 m4 m5
      exact {
        size := hi.size
        fill := by have := hi.fill; simp only; omega
        empty := by have := hi.empty; simp only [sem_post]; omega
        wmutex := hi.wmutex
        rmutex := by intro h'; have := hi.rmutex h'; simp only; omega
        single := by intro h'; have := hi.single h'; simpa using this
        widx := hi.widx
        ridx := by
          have := hi.ridx; simp only
          rw [show weight CPc.pending (s.consumers.set j .waitFill)
            = weight CPc.pending s.consumers by omega]
          exact this
        content := hi.content
        fifo := hi.fifo }

/-- Every step of the program on the buffer preserves the invariant. -/
theorem BInv_step {α : Type} (c : BufCfg) (hS : 0 < c.SIZE) (hw : c.write_mutexed = true)
    (s s' : BState α) (st : BStep α) (hs : bstep c s st = some s') (hi : BInv c s) :
    BInv c s' := by
  cases st with
  | newProducer =>
    simp only [bstep, Option.some.injEq] at hs
    subst hs
    exact {
      size := hi.size
      fill := by
        have := hi.fill
        simp only [weight_append, weight_singleton, PPc.stored]; omega
      empty := by
        have := hi.empty
        simp only [weight_append, weight_singleton, PPc.reserved]; omega
      wmutex := by
        have := hi.wmutex
        simp only [weight_append, weight_singleton, PPc.locked]; omega
      rmutex := hi.rmutex
      single := hi.single
      widx := by
        have := hi.widx
        simp only [weight_append, weight_singleton, PPc.pending, Nat.add_zero]; exact this
      ridx := hi.ridx
      content := hi.content
      fifo := hi.fifo }
  | produce i x =>
    simp only [bstep] at hs
    cases hp : s.producers[i]? with
    | none => simp [hp] at hs
    | some p =>
      simp only [hp] at hs
      cases p <;> try (simp at hs; done)
      simp only [Option.some.injEq] at hs
      subst hs
      obtain ⟨m1, m2, m3, m4⟩ := producer_move s.producers i _ (.waitEmpty x) hp
      simp only [PPc.reserved, PPc.stored, PPc.locked, PPc.pending] at m1 m2 m3 m4
      exact {
        size := hi.size
        fill := by have := hi.fill; simp only; omega
        empty := by have := hi.empty; simp only; omega
        wmutex := by have := hi.wmutex; simp only; omega
        rmutex := hi.rmutex
        single := hi.single
        widx := by
          have := hi.widx; simp only
          rw [show weight PPc.pending (s.producers.set i (.waitEmpty x))
            = weight PPc.pending s.producers by omega]
          exact this
        ridx := hi.ridx
        content := hi.content
        fifo := hi.fifo }
  | producer i => exact BInv_producer c hS hw s s' i hs hi
  | consumer j => exact BInv_consumer c hS s s' j hs hi

/-- Every reachable state satisfies the invariant. -/
theorem BInv_run {α : Type} (c : BufCfg) (hS : 0 < c.SIZE) (hw : c.write_mutexed = true) :
    ∀ (steps : List (BStep α)) (s s' : BState α), brun c s steps = some s' →
      BInv c s → BInv c s' := by
  intro steps
  induction steps with
  | nil => intro s s' hs hi; simp [brun] at hs; subst hs; exact hi
  | cons st sts ih =>
    intro s s' hs hi
    simp only [brun] at hs
    cases h1 : bstep c s st with
    | none => simp [h1] at hs
    | some s1 =>
      simp only [h1, Option.some_bind] at hs
      exact ih s1 s' hs (BInv_step c hS hw s s1 st h1 hi)

/-- **C1.** For every interleaving of the statements of any number of producers (`my_log`,
`performTransactions`) and of the consumers (the single `logger`, or any number of
`processTransactions` threads under `read_mutex`) on the circular buffer, starting from the
initialised state: the sequence of slot contents read so far is exactly the prefix, of the
same length, of the sequence of items stored (in the order of the stores), so no item is
lost, duplicated or reordered and no unwritten slot is read; the items stored and not yet
read are `fill_count` plus the puts and takes in progress that `fill_count` does not yet or
no longer counts; hence when no put and no take is in progress, (number put) - (number
taken) is `fill_count`, the number of filled slots. -/
theorem buffer_fifo {α : Type} (c : BufCfg) (hS : 0 < c.SIZE) (hw : c.write_mutexed = true)
    (np nc : Nat) (hc : c.read_mutexed = false → nc ≤ 1) (steps : List (BStep α))
    (s : BState α) (hr : brun c (BState.init c np nc) steps = some s) :
    s.takes = (s.puts.take s.takes.length).map some
    ∧ s.takes.length ≤ s.puts.length
    ∧ s.puts.length - s.takes.length
        = s.fill_count + weight CPc.claimed s.consumers + weight PPc.stored s.producers
    ∧ (∀ k, s.takes.length ≤ k → ∀ hk : k < s.puts.length,
        s.slots.getD (k % c.SIZE) none = some (s.puts.get ⟨k, hk⟩))
    ∧ (s.quiescent → s.puts.length - s.takes.length = s.fill_count) := by
  have hi := BInv_run c hS hw steps _ s hr (BInv_init c hS np nc hc)
  have hf := hi.fill
  refine ⟨hi.fifo, by omega, by omega, hi.content, fun hq => ?_⟩
  obtain ⟨h1, h2⟩ := hq
  unfold BState.putsInProgress at h1
  unfold BState.takesInProgress at h2
  omega

/-- **C4 (amended).** In every reachable state of the producer/consumer program, taking each
`sem_wait` and each `sem_post` as one step, `fill_count + empty_count` plus the number of
producers between their `sem_wait(&empty_count)` and their `sem_post(&fill_count)` plus the
number of consumers between their `sem_wait(&fill_count)` and their `sem_post(&empty_count)`
equals `BUFFER_SIZE`; so the sum of the two semaphores never exceeds `BUFFER_SIZE` and
equals it whenever no put and no take is in progress. -/
theorem fill_plus_empty {α : Type} (c : BufCfg) (hS : 0 < c.SIZE) (hw : c.write_mutexed = true)
    (np nc : Nat) (hc : c.read_mutexed = false → nc ≤ 1) (steps : List (BStep α))
    (s : BState α) (hr : brun c (BState.init c np nc) steps = some s) :
    s.fill_count + s.empty_count + s.putsInProgress + s.takesInProgress = c.SIZE
    ∧ s.fill_count + s.empty_count ≤ c.SIZE
    ∧ (s.quiescent → s.fill_count + s.empty_count = c.SIZE) := by
  have hi := BInv_run c hS hw steps _ s hr (BInv_init c hS np nc hc)
  have hf := hi.fill
  have he := hi.empty
  unfold BState.quiescent BState.putsInProgress BState.takesInProgress
  refine ⟨by omega, by omega, fun hq => by omega⟩

/-- **C8.** For every capacity `C` and every reachable state of the log buffer program: a
put (`my_log`) can begin exactly when fewer than `C` slots are in use (filled, reserved by a
put in progress, or not yet released by a take in progress); a take (`logger`) can begin
exactly when a filled slot is available (filled, signalled through `fill_count` and not
claimed by a take in progress); in particular, when no put and no take is in progress, a put
is enabled exactly when fewer than `C` slots are filled and a take exactly when at least
one slot is filled. -/
theorem put_take_enabled {α : Type} (C : Nat) (hS : 0 < C) (np : Nat)
    (steps : List (BStep α)) (s : BState α)
    (hr : brun (logBuffer C) (BState.init (logBuffer C) np 1) steps = some s) :
    (s.putEnabled ↔
      s.filled + weight PPc.reserved s.producers + weight CPc.taken s.consumers < C)
    ∧ (s.takeEnabled ↔
      weight CPc.claimed s.consumers + weight PPc.stored s.producers < s.filled)
    ∧ (s.quiescent → ((s.putEnabled ↔ s.filled < C) ∧ (s.takeEnabled ↔ 1 ≤ s.filled))) := by
  have hi := BInv_run (logBuffer C) hS rfl steps _ s hr
    (BInv_init (logBuffer C) hS np 1 (fun _ => le_refl _))
  have hf := hi.fill
  have he := hi.empty
  have hsz : (logBuffer C).SIZE = C := rfl
  rw [hsz] at he
  have hput : s.putEnabled ↔ 0 < s.empty_count := by
    unfold BState.putEnabled sem_wait
    split <;> simp_all
  have htake : s.takeEnabled ↔ 0 < s.fill_count := by
    unfold BState.takeEnabled sem_wait
    split <;> simp_all
  unfold BState.quiescent BState.putsInProgress BState.takesInProgress
  unfold BState.filled
  rw [hput, htake]
  refine ⟨by omega, by omega, fun hq => ⟨by omega, by omega⟩⟩

set_option maxRecDepth 100000 in
/-- Two producers and two consumers of many_prod_many_cons.c: producer 1 stores -3 before
producer 0 stores 7; the consumers read -3, then 7. -/
theorem buffer_fifo_witness :
    ∃ s : BState Int, brun many_prod_many_cons (BState.init many_prod_many_cons 2 2)
        sampleInterleaving = some s
      ∧ s.puts = [-3, 7] ∧ s.takes = [some (-3), some 7]
      ∧ s.takes = (s.puts.take s.takes.length).map some
      ∧ s.puts.length - s.takes.length = s.fill_count := by
  refine ⟨_, rfl, by decide, by decide, ?_, ?_⟩
  · have key := fun s hr => (buffer_fifo many_prod_many_cons (by decide) rfl 2 2 (by decide)
      sampleInterleaving s hr).1
    exact key _ rfl
  · decide

set_option maxRecDepth 100000 in
/-- **C4 (counterexample).** many_prod_many_cons.c with its three producers and three
consumers: after the first producer has passed `sem_wait(&empty_count)`, `fill_count` is 0
and `empty_count` is 127; their sum is not `BUFFER_SIZE` = 128. -/
theorem fill_plus_empty_below_capacity :
    (brun many_prod_many_cons (BState.init many_prod_many_cons 3 3 : BState Int)
        [.produce 0 5, .producer 0]).map (fun s => (s.fill_count, s.empty_count))
      = some (0, 127)
    ∧ 0 + 127 ≠ many_prod_many_cons.SIZE := by
  decide

set_option maxRecDepth 100000 in
/-- In that state one put is in progress: 0 + 127 + 1 + 0 = 128. -/
theorem fill_plus_empty_witness :
    ∃ s : BState Int, brun many_prod_many_cons (BState.init many_prod_many_cons 3 3)
        [.produce 0 5, .producer 0] = some s
      ∧ s.putsInProgress = 1 ∧ s.takesInProgress = 0
      ∧ s.fill_count + s.empty_count + s.putsInProgress + s.takesInProgress = 128 := by
  refine ⟨_, rfl, by decide, by decide, ?_⟩
  have key := fun s hr => (fill_plus_empty many_prod_many_cons (by decide) rfl 3 3 (by decide)
      [BStep.produce 0 (5 : Int), .producer 0] s hr).1
  exact key _ rfl

set_option maxRecDepth 100000 in
/-- Capacity 4, five producers with the records 1..5 and the logger: four puts complete, the
fifth put is blocked at `sem_wait(&empty_count)`; after one take it is enabled and
completes; after four more takes the logger has read 1, 2, 3, 4, 5. -/
theorem put_take_enabled_witness :
    ∃ s : BState Nat, brun (logBuffer 4) (BState.init (logBuffer 4) 5 1)
        fourPuts = some s
      ∧ s.quiescent ∧ s.filled = 4 ∧ ¬ s.putEnabled
      ∧ bstep (logBuffer 4) s (.producer 4) = none
      ∧ (brun (logBuffer 4) s takeSteps).map (fun t => (t.filled, decide t.putEnabled))
          = some (3, true)
      ∧ (brun (logBuffer 4) s
          (takeSteps ++ putSteps 4 ++ takeSteps ++ takeSteps ++ takeSteps ++ takeSteps)).map
          (fun t => (t.puts, t.takes, t.filled, decide t.takeEnabled))
          = some ([1, 2, 3, 4, 5], [some 1, some 2, some 3, some 4, some 5], 0, false) := by
  refine ⟨_, rfl, by decide, by decide, ?_, by decide, by decide, by decide⟩
  have key := fun s hr => (put_take_enabled 4 (by decide) 5
      fourPuts s hr).2.2
  have h2 := (key _ rfl (by decide)).1
  rw [h2]
  decide

/-- A thread of the list contributes its weight to the count. -/
theorem weight_get_le {β : Type} (f : β → Nat) :
    ∀ (l : List β) (i : Nat) (x : β), l[i]? = some x → f x ≤ weight f l := by
  intro l
  induction l with
  | nil => intro i x h; simp at h
  | cons a l ih =>
    intro i x h
    cases i with
    | zero =>
      simp at h
      subst h
      simp [weight]
    | succ i =>
      simp at h
      have := ih i x h
      simp [weight] at this ⊢
      omega

/-- Two different threads of the list contribute both their weights to the count. -/
theorem weight_pair_le {β : Type} (f : β → Nat) :
    ∀ (l : List β) (i j : Nat) (x y : β), i < j → l[i]? = some x → l[j]? = some y →
      f x + f y ≤ weight f l := by
  intro l
  induction l with
  | nil => intro i j x y _ h; simp at h
  | cons a l ih =>
    intro i j x y hij hx hy
    cases j with
    | zero => omega
    | succ j =>
      simp at hy
      cases i with
      | zero =>
        simp at hx
        subst hx
        have := weight_get_le f l j y hy
        simp [weight] at this ⊢
        omega
      | succ i =>
        simp at hx
        have := ih i j x y (by omega) hx hy
        simp [weight] at this ⊢
        omega

/-- **C18.** In every reachable state of many_prod_many_cons.c (any number of producers and
consumers, any interleaving of their statements): `write_mutex` is 0 or 1 and `read_mutex` is
0 or 1; the value of each mutex plus the number of threads between their `sem_wait` and their
`sem_post` on it is 1, so at most one producer is between its wait and its post on
`write_mutex` and at most one consumer between its wait and its post on `read_mutex`; no two
different producers are both at the store into `transactions[write_index]`, the update of
`write_index` or the post, and no two different consumers are both at the read of
`transactions[read_index]`, the update of `read_index` or the post. -/
theorem mutexes_exclude {α : Type} (np nc : Nat) (steps : List (BStep α)) (s : BState α)
    (hr : brun many_prod_many_cons (BState.init many_prod_many_cons np nc) steps = some s) :
    (s.write_mutex = 0 ∨ s.write_mutex = 1)
    ∧ (s.read_mutex = 0 ∨ s.read_mutex = 1)
    ∧ s.write_mutex + weight PPc.locked s.producers = 1
    ∧ s.read_mutex + weight CPc.locked s.consumers = 1
    ∧ weight PPc.locked s.producers ≤ 1
    ∧ weight CPc.locked s.consumers ≤ 1
    ∧ (∀ (i j : Nat) (p q : PPc α), i < j → s.producers[i]? = some p → s.producers[j]? = some q →
        ¬ (p.locked = 1 ∧ q.locked = 1))
    ∧ (∀ (i j : Nat) (p q : CPc), i < j → s.consumers[i]? = some p → s.consumers[j]? = some q →
        ¬ (p.locked = 1 ∧ q.locked = 1)) := by
  have hi := BInv_run many_prod_many_cons (by decide) rfl steps _ s hr
    (BInv_init many_prod_many_cons (by decide) np nc (fun h => by cases h))
  have hw := hi.wmutex
  have hm := hi.rmutex rfl
  refine ⟨by omega, by omega, hw, hm, by omega, by omega, ?_, ?_⟩
  · intro i j p q hij hp hq ⟨h1, h2⟩
    have := weight_pair_le PPc.locked s.producers i j p q hij hp hq
    omega
  · intro i j p q hij hp hq ⟨h1, h2⟩
    have := weight_pair_le CPc.locked s.consumers i j p q hij hp hq
    omega

set_option maxRecDepth 100000 in
/-- Two producers and two consumers: after the first five steps of the sample interleaving
producer 1 holds `write_mutex` (value 0) and producer 0 waits for it. -/
theorem mutexes_exclude_witness :
    ∃ s : BState Int, brun many_prod_many_cons (BState.init many_prod_many_cons 2 2)
        (sampleInterleaving.take 5) = some s
      ∧ s.write_mutex = 0 ∧ s.read_mutex = 1
      ∧ weight PPc.locked s.producers = 1
      ∧ s.write_mutex + weight PPc.locked s.producers = 1
      ∧ s.read_mutex + weight CPc.locked s.consumers = 1 := by
  refine ⟨_, rfl, by decide, by decide, by decide, ?_⟩
  have key := fun s hr => (mutexes_exclude 2 2 (sampleInterleaving.take 5) s hr).2.2
  exact ⟨(key _ rfl).1, (key _ rfl).2.1⟩

/-- A complete take by the logger thread, without interruption, from a state in which it is
at `sem_wait(&fill_count)` and a filled slot is signalled: the slot at `read_index` is read
and `read_index` advances by one modulo `LOG_BUFFER_SIZE`. -/
theorem take_advances_read_index {α : Type} (s : BState α) (hc : s.consumers = [.waitFill])
    (hf : 0 < s.fill_count) :
    brun echo_server_mt_logger s takeSteps = some
      { s with fill_count := s.fill_count - 1,
               takes := s.takes ++ [s.slots.getD s.read_index none],
               read_index := (s.read_index + 1) % 128,
               empty_count := s.empty_count + 1 } := by
  simp [takeSteps, brun, bstep, logger, hc, sem_wait, hf, sem_post, echo_server_mt_logger]

/-- A complete put by thread `i`, without interruption, from a state in which it is at
`sem_wait(&empty_count)` with record `x`, a slot is empty and `write_mutex` is free: the
record is stored at `write_index` and `write_index` advances by one modulo
`LOG_BUFFER_SIZE`. -/
theorem put_advances_write_index {α : Type} (s : BState α) (i : Nat) (x : α)
    (hp : s.producers[i]? = some (.waitEmpty x)) (he : 0 < s.empty_count)
    (hm : 0 < s.write_mutex) :
    brun echo_server_mt_logger s (putSteps i) = some
      { s with empty_count := s.empty_count - 1,
               write_mutex := s.write_mutex - 1 + 1,
               slots := s.slots.set s.write_index (some x),
               puts := s.puts ++ [x],
               write_index := (s.write_index + 1) % 128,
               fill_count := s.fill_count + 1,
               producers := s.producers.set i .producing } := by
  have hl : i < s.producers.length := (List.getElem?_eq_some_iff.mp hp).1
  simp [putSteps, brun, bstep, my_log, hp, sem_wait, he, hm, sem_post, echo_server_mt_logger,
    hl]

/-- A statement of `my_log` leaves `read_index` alone, and changes `write_index` only by
`write_index = (write_index + 1) % LOG_BUFFER_SIZE`. -/
theorem my_log_index {α : Type} (c : BufCfg) (s s' : BState α) (i : Nat)
    (h : my_log c s i = some s') :
    s'.read_index = s.read_index
    ∧ (s'.write_index = s.write_index
      ∨ (s.producers[i]? = some .advance ∧ s'.write_index = (s.write_index + 1) % c.SIZE)) := by
  unfold my_log at h
  split at h
  · cases hw : sem_wait s.empty_count with
    | none => simp [hw] at h
    | some v => simp [hw] at h; subst h; exact ⟨rfl, Or.inl rfl⟩
  · cases hw : sem_wait s.write_mutex with
    | none => simp [hw] at h
    | some v => simp [hw] at h; subst h; exact ⟨rfl, Or.inl rfl⟩
  · simp at h; subst h; exact ⟨rfl, Or.inl rfl⟩
  · rename_i hadv
    simp at h; subst h; exact ⟨rfl, Or.inr ⟨hadv, rfl⟩⟩
  · simp at h; subst h; exact ⟨rfl, Or.inl rfl⟩
  · simp at h; subst h; exact ⟨rfl, Or.inl rfl⟩
  · simp at h

/-- A statement of `logger` leaves `write_index` alone, and changes `read_index` only by
`read_index = (read_index + 1) % LOG_BUFFER_SIZE`. -/
theorem logger_index {α : Type} (c : BufCfg) (s s' : BState α) (j : Nat)
    (h : logger c s j = some s') :
    s'.write_index = s.write_index
    ∧ (s'.read_index = s.read_index
      ∨ (s.consumers[j]? = some .advance ∧ s'.read_index = (s.read_index + 1) % c.SIZE)) := by
  unfold logger at h
  split at h
  · cases hw : sem_wait s.fill_count with
    | none => simp [hw] at h
    | some v => simp [hw] at h; subst h; exact ⟨rfl, Or.inl rfl⟩
  · cases hw : sem_wait s.read_mutex with
    | none => simp [hw] at h
    | some v => simp [hw] at h; subst h; exact ⟨rfl, Or.inl rfl⟩
  · simp at h; subst h; exact ⟨rfl, Or.inl rfl⟩
  · rename_i hadv
    simp at h; subst h; exact ⟨rfl, Or.inr ⟨hadv, rfl⟩⟩
  · simp at h; subst h; exact ⟨rfl, Or.inl rfl⟩
  · simp at h; subst h; exact ⟨rfl, Or.inl rfl⟩
  · simp at h


/-- **C19.** Log buffer of echo_server_mt_logger.c (`LOG_BUFFER_SIZE` is 128), any number of
threads calling `my_log`, one `logger` thread, any interleaving. In every reachable state
`read_index` and `write_index` are below `LOG_BUFFER_SIZE`; `write_index` is the number of
records stored modulo `LOG_BUFFER_SIZE`, short by one while a put is between its store and
its update of the index, and `read_index` likewise for the records read. After every
completed put or take (no put and no take in progress) `write_index` is the number of puts
and `read_index` the number of takes modulo `LOG_BUFFER_SIZE`, and
`(write_index - read_index) mod LOG_BUFFER_SIZE` is the number of filled slots
(`fill_count`, which is puts minus takes) modulo `LOG_BUFFER_SIZE`. From every reachable
state a put that runs to completion stores its record and leaves `write_index` advanced by
one modulo `LOG_BUFFER_SIZE` and `read_index` as it was; a take that runs to completion
reads the slot at `read_index` and leaves `read_index` advanced by one modulo
`LOG_BUFFER_SIZE` and `write_index` as it was; and no single statement of `my_log` or
`logger` changes an index in any other way. -/
theorem indices_track_puts_and_takes {α : Type} (np : Nat) (steps : List (BStep α))
    (s : BState α)
    (hr : brun echo_server_mt_logger (BState.init echo_server_mt_logger np 1) steps = some s) :
    s.read_index < 128 ∧ s.write_index < 128
    ∧ (s.write_index + weight PPc.pending s.producers) % 128 = s.puts.length % 128
    ∧ (s.read_index + weight CPc.pending s.consumers) % 128 = s.takes.length % 128
    ∧ (s.quiescent →
        s.write_index = s.puts.length % 128 ∧ s.read_index = s.takes.length % 128
        ∧ s.fill_count = s.puts.length - s.takes.length
        ∧ s.filled = s.fill_count
        ∧ ((s.write_index : Int) - (s.read_index : Int)) % 128 = (s.fill_count : Int) % 128)
    ∧ (∀ (i : Nat) (x : α), s.producers[i]? = some (.waitEmpty x) → 0 < s.empty_count →
        0 < s.write_mutex →
        ∃ s', brun echo_server_mt_logger s (putSteps i) = some s'
          ∧ s'.write_index = (s.write_index + 1) % 128 ∧ s'.read_index = s.read_index
          ∧ s'.puts = s.puts ++ [x] ∧ s'.takes = s.takes
          ∧ s'.fill_count = s.fill_count + 1)
    ∧ (s.consumers = [.waitFill] → 0 < s.fill_count →
        ∃ s', brun echo_server_mt_logger s takeSteps = some s'
          ∧ s'.read_index = (s.read_index + 1) % 128 ∧ s'.write_index = s.write_index
          ∧ s'.takes = s.takes ++ [s.slots.getD s.read_index none] ∧ s'.puts = s.puts
          ∧ s'.fill_count + 1 = s.fill_count)
    ∧ (∀ (i : Nat) (s' : BState α), my_log echo_server_mt_logger s i = some s' →
        s'.read_index = s.read_index
        ∧ (s'.write_index = s.write_index
          ∨ (s.producers[i]? = some .advance
            ∧ s'.write_index = (s.write_index + 1) % 128)))
    ∧ (∀ (j : Nat) (s' : BState α), logger echo_server_mt_logger s j = some s' →
        s'.write_index = s.write_index
        ∧ (s'.read_index = s.read_index
          ∨ (s.consumers[j]? = some .advance
            ∧ s'.read_index = (s.read_index + 1) % 128))) := by
  have hi := BInv_run echo_server_mt_logger (by decide) rfl steps _ s hr
    (BInv_init echo_server_mt_logger (by decide) np 1 (fun _ => le_refl _))
  have hsz : echo_server_mt_logger.SIZE = 128 := rfl
  obtain ⟨hw1, hw2⟩ := hi.widx
  obtain ⟨hr1, hr2⟩ := hi.ridx
  rw [hsz] at hw1 hw2 hr1 hr2
  refine ⟨hr1, hw1, hw2, hr2, fun hq => ?_, ?_, ?_, ?_, ?_⟩
  · obtain ⟨h1, h2⟩ := hq
    unfold BState.putsInProgress at h1
    unfold BState.takesInProgress at h2
    have hf := hi.fill
    have hpl := pending_le_locked s.producers
    have hps : weight PPc.pending s.producers ≤ weight PPc.stored s.producers :=
      weight_le_weight _ _ (fun x => by cases x <;> simp [PPc.pending, PPc.stored]) _
    have hcs : weight CPc.pending s.consumers ≤ weight CPc.taken s.consumers :=
      weight_le_weight _ _ (fun x => by cases x <;> simp [CPc.pending, CPc.taken]) _
    have hp0 : weight PPc.pending s.producers = 0 := by omega
    have hc0 : weight CPc.pending s.consumers = 0 := by omega
    rw [hp0, Nat.add_zero, Nat.mod_eq_of_lt hw1] at hw2
    rw [hc0, Nat.add_zero, Nat.mod_eq_of_lt hr1] at hr2
    refine ⟨hw2, hr2, by omega, by unfold BState.filled; omega, ?_⟩
    omega
  · intro i x hp he hm
    exact ⟨_, put_advances_write_index s i x hp he hm, rfl, rfl, rfl, rfl, rfl⟩
  · intro hc hf
    refine ⟨_, take_advances_read_index s hc hf, rfl, rfl, rfl, rfl, ?_⟩
    show s.fill_count - 1 + 1 = s.fill_count
    omega
  · intro i s' h
    exact my_log_index echo_server_mt_logger s s' i h
  · intro j s' h
    exact logger_index echo_server_mt_logger s s' j h

set_option maxRecDepth 100000 in
/-- Five threads call `my_log`; four of the puts complete, then the logger completes one
take: `write_index` is 4, `read_index` has advanced from 0 to 1, the record read is the
first one stored, three slots are filled, and `(4 - 1) mod 128` is 3. -/
theorem indices_track_puts_and_takes_witness :
    ∃ s s' : BState Nat,
      brun echo_server_mt_logger (BState.init echo_server_mt_logger 5 1) fourPuts = some s
      ∧ s.write_index = 4 ∧ s.read_index = 0
      ∧ brun echo_server_mt_logger s takeSteps = some s'
      ∧ s'.read_index = 1 ∧ s'.write_index = 4 ∧ s'.takes = [some 1]
      ∧ s'.fill_count = 3 := by
  have hfacts : (brun echo_server_mt_logger (BState.init echo_server_mt_logger 5 1)
      fourPuts).map (fun s : BState Nat => (s.write_index, s.read_index, s.fill_count,
        s.consumers, s.takes, s.slots.getD 0 none))
      = some (4, 0, 4, [.waitFill], [], some 1) := by rfl
  cases hs : brun echo_server_mt_logger (BState.init echo_server_mt_logger 5 1) fourPuts with
  | none => rw [hs] at hfacts; simp at hfacts
  | some s =>
    rw [hs] at hfacts
    simp only [Option.map_some', Option.some.injEq, Prod.mk.injEq] at hfacts
    obtain ⟨f1, f2, f3, f4, f5, f6⟩ := hfacts
    obtain ⟨s', h1, h2, h3, h4, _, h6⟩ :=
      (indices_track_puts_and_takes 5 fourPuts s hs).2.2.2.2.2.2.1 f4 (by omega)
    refine ⟨s, s', rfl, f1, f2, h1, ?_, ?_, ?_, ?_⟩
    · rw [h2, f2]
    · rw [h3, f1]
    · rw [h4, f5, f2, f6]; rfl
    · omega

set_option maxRecDepth 100000 in
/-- **C11 (failing input).** For every handler and every state of it: a `send` of the welcome
loop that returns `-1` with `errno` set to `EINTR` makes the handler call
`exit(EXIT_FAILURE)`, and so does a `send` of the echo loop, because the test before
`ERROR_HELPER` reads `ret == 1 && errno == EINTR`; only the `recv` of the echo loop is
retried after an interruption, with the state otherwise unchanged. In the thread-based
LimitConn server the first `send` of the welcome message, once interrupted, ends the
handler with `exit(EXIT_FAILURE)` before a byte has been sent. -/
theorem interrupted_send_exits (h : Handler) (s : HState) :
    hstep h { s with pc := .welcome } (.fail EINTR)
        = some { s with pc := .exited EXIT_FAILURE, errno := EINTR,
                        trace := s.trace ++ [.exit EXIT_FAILURE] }
    ∧ hstep h { s with pc := .echo } (.fail EINTR)
        = some { s with pc := .exited EXIT_FAILURE, errno := EINTR,
                        trace := s.trace ++ [.exit EXIT_FAILURE] }
    ∧ hstep h { s with pc := .receive } (.fail EINTR)
        = some { s with pc := .receive, errno := EINTR }
    ∧ (hrun (localHandler .thread) (connection_handler (localHandler .thread) 0)
        [.fail EINTR]).map (fun t => (t.pc, t.trace))
        = some (.exited EXIT_FAILURE, [.exit EXIT_FAILURE]) := by
  refine ⟨?_, ?_, ?_, by decide⟩
  · simp [hstep, sendBody, Resp.val, ERROR_HELPER, HState.die]
  · simp [hstep, sendBody, Resp.val, ERROR_HELPER, HState.die]
  · simp [hstep, recvBody]

/-- While `errno` is `EINTR`, a `send` of the welcome loop that transmits one byte leaves
`bytes_sent` as it was: the loop is at the same `send` again. -/
theorem welcome_stuck (h : Handler) :
    ∀ (n : Nat) (s : HState), s.pc = .welcome → s.errno = EINTR → s.bytes_sent < s.msg_len →
      ∃ s', hrun h s (List.replicate n (.ret 1)) = some s' ∧ s'.pc = .welcome
        ∧ s'.bytes_sent = s.bytes_sent ∧ s'.msg_len = s.msg_len ∧ s'.errno = EINTR
        ∧ s'.trace = s.trace
            ++ List.replicate n (.sent ((s.buf.drop s.bytes_sent).take 1)) := by
  intro n
  induction n with
  | zero => intro s hpc he hlt; exact ⟨s, rfl, hpc, rfl, rfl, he, by simp⟩
  | succ n ih =>
    intro s hpc he hlt
    have hstep1 : hstep h s (.ret 1)
        = some { s.emit (.sent ((s.buf.drop s.bytes_sent).take 1)) with pc := .welcome } := by
      have hle : ¬ (s.msg_len - s.bytes_sent < 1) := by omega
      simp [hstep, hpc, sendBody, hle, Resp.val, he, welcomeTest, hlt]
    obtain ⟨s', h1, h2, h3, h4, h5, h6⟩ :=
      ih { s.emit (.sent ((s.buf.drop s.bytes_sent).take 1)) with pc := .welcome } rfl he hlt
    refine ⟨s', ?_, h2, h3, h4, h5, ?_⟩
    · simp only [List.replicate_succ, hrun, hstep1, Option.some_bind]
      exact h1
    · rw [h6]
      simp [List.replicate_succ]

set_option maxRecDepth 100000 in
/-- **C20 (failing input).** Process-based LimitConn server: the `accept` of the main process
is interrupted by a signal and repeated, so `errno` is `EINTR` in the main process and in
the child that `fork` creates for the next client. In the child the first `send` of the
welcome loop transmits one byte; the test `ret == 1 && errno == EINTR` makes the loop
`continue` without advancing `bytes_sent`, and the next `send` transmits the whole message
from offset 0: the client receives the first byte twice, 145 bytes for a message of 144.
When every `send` transmits one byte (a result between 1 and the bytes still to send) the
loop is still at its `send` with `bytes_sent = 0` after any number of calls. -/
theorem welcome_loop_repeats_first_byte (n : Nat) :
    (srun (localHandler .process) 0 (Server.init 1)
        [.main (.fail EINTR), .main (.ret 5), .semWait, .main (.ret 0), .worker 0 (.ret 0),
         .worker 0 (.ret 1), .worker 0 (.ret 144)]).map
      (fun s => s.workers.map fun w => (w.pc, w.bytes_sent, output w.trace))
      = some [(.receive, 144, bytes "H" ++ (localHandler .process).welcome)]
    ∧ bytes "H" ++ (localHandler .process).welcome ≠ (localHandler .process).welcome
    ∧ (hrun (localHandler .process) (connection_handler (localHandler .process) EINTR)
        (.ret 0 :: List.replicate n (.ret 1))).map (fun w => (w.pc, w.bytes_sent, w.msg_len))
        = some (.welcome, 0, 144) := by
  refine ⟨by decide, by decide, ?_⟩
  have h0 : hstep (localHandler .process) (connection_handler (localHandler .process) EINTR)
      (.ret 0) = some
        { connection_handler (localHandler .process) EINTR with pc := .welcome } := by
    decide
  obtain ⟨s', h1, h2, h3, h4, _, _⟩ := welcome_stuck (localHandler .process) n
    { connection_handler (localHandler .process) EINTR with pc := .welcome } rfl rfl
    (by decide)
  simp only [hrun, h0, Option.some_bind, h1, Option.map_some']
  rw [h2, h3, h4]
  decide

/-! ## The write loop -/

theorem writeRun_append (buf : List Nat) :
    ∀ (rs qs : List Resp) (w : WState),
      writeRun buf w (rs ++ qs) = (writeRun buf w rs).bind fun w' => writeRun buf w' qs := by
  intro rs
  induction rs with
  | nil => intro qs w; simp [writeRun]
  | cons r rs ih =>
    intro qs w
    simp only [List.cons_append, writeRun]
    cases writeBody buf w r with
    | none => simp
    | some w1 => simp [ih]

/-- A `write` interrupted by a signal changes `errno` and nothing else. -/
theorem writeBody_EINTR (buf : List Nat) (w : WState) (hx : w.exited = none)
    (hl : 0 < w.bytes_left) :
    writeBody buf w (.fail EINTR) = some { w with errno := EINTR } := by
  have hl' : w.bytes_left ≠ 0 := by omega
  simp [writeBody, hx, hl', Resp.val]

/-- Any number of interrupted `write` calls leaves the loop at the same `write`. -/
theorem writeRun_EINTR (buf : List Nat) :
    ∀ (k : Nat) (w : WState), w.exited = none → 0 < w.bytes_left →
      ∃ w', writeRun buf w (List.replicate k (.fail EINTR)) = some w'
        ∧ w'.written_bytes = w.written_bytes ∧ w'.bytes_left = w.bytes_left
        ∧ w'.logfile = w.logfile ∧ w'.exited = none := by
  intro k
  induction k with
  | zero => intro w hx _; exact ⟨w, rfl, rfl, rfl, rfl, hx⟩
  | succ k ih =>
    intro w hx hl
    obtain ⟨w', h1, h2, h3, h4, h5⟩ := ih { w with errno := EINTR } hx hl
    refine ⟨w', ?_, h2, h3, h4, h5⟩
    simp only [List.replicate_succ, writeRun, writeBody_EINTR buf w hx hl, Option.some_bind]
    exact h1

/-- A `write` that transfers `n` bytes, `n` between 1 and `bytes_left`, appends the next `n`
bytes of the buffer to the file and advances the loop by `n`. -/
theorem writeBody_ret (buf : List Nat) (w : WState) (n : Nat) (hx : w.exited = none)
    (hn : 0 < n) (hl : n ≤ w.bytes_left) :
    writeBody buf w (.ret n) = some
      { w with logfile := w.logfile ++ (buf.drop w.written_bytes).take n,
               bytes_left := w.bytes_left - n, written_bytes := w.written_bytes + n } := by
  have hl' : w.bytes_left ≠ 0 := by omega
  have hlt : ¬ w.bytes_left < n := by omega
  have hv : ¬ ((n : Int) = -1) := by omega
  have hneg : ¬ ((n : Int) < 0) := by omega
  simp [writeBody, hx, hl', hlt, Resp.val, ERROR_HELPER, hv, hneg]

theorem drop_take_add (l : List Nat) (a n m : Nat) :
    (l.drop a).take n ++ (l.drop (a + n)).take m = (l.drop a).take (n + m) := by
  rw [List.take_add, List.drop_drop]

/-- The write loop on any answers that are interruptions or partial counts which add up to
`bytes_left`: it ends, with the bytes of the buffer from `written_bytes` on appended to the
file once and in order. -/
theorem write_loop (buf : List Nat) :
    ∀ (ws : List (Nat × Nat)) (w : WState), w.exited = none →
      Chunking (ws.map Prod.snd) w.bytes_left →
      ∃ w', writeRun buf w (writes ws) = some w' ∧ w'.bytes_left = 0
        ∧ w'.written_bytes = w.written_bytes + w.bytes_left
        ∧ w'.logfile = w.logfile ++ (buf.drop w.written_bytes).take w.bytes_left
        ∧ w'.exited = none := by
  intro ws
  induction ws with
  | nil =>
    intro w hx hc
    have h0 : w.bytes_left = 0 := by simpa [Chunking] using hc.2.symm
    exact ⟨w, rfl, h0, by omega, by simp [h0], hx⟩
  | cons kn ws ih =>
    intro w hx hc
    obtain ⟨k, n⟩ := kn
    obtain ⟨hpos, hsum⟩ := hc
    have hn : 0 < n := hpos n (by simp)
    simp only [List.map_cons, List.sum_cons] at hsum
    have hl : n ≤ w.bytes_left := by omega
    obtain ⟨w1, h1, h2, h3, h4, h5⟩ := writeRun_EINTR buf k w hx (by omega)
    have hstep := writeBody_ret buf w1 n h5 hn (by omega)
    obtain ⟨w2, e2, hw2⟩ : ∃ w2 : WState, w2 =
        { w1 with logfile := w1.logfile ++ (buf.drop w1.written_bytes).take n,
                  bytes_left := w1.bytes_left - n, written_bytes := w1.written_bytes + n }
        ∧ writeBody buf w1 (.ret n) = some w2 := ⟨_, rfl, hstep⟩
    have hc2 : Chunking (ws.map Prod.snd) w2.bytes_left := by
      refine ⟨fun m hm => hpos m (by simp [hm]), ?_⟩
      rw [e2]; simp only; omega
    obtain ⟨w3, g1, g2, g3, g4, g5⟩ := ih w2 (by rw [e2]; exact h5) hc2
    refine ⟨w3, ?_, g2, ?_, ?_, g5⟩
    · simp only [writes, writeRun_append, h1, Option.some_bind, writeRun, hw2]
      exact g1
    · rw [g3, e2]; simp only; omega
    · rw [g4, e2]; simp only
      rw [h4, h2, h3, List.append_assoc, drop_take_add]
      congr 2
      omega

/-- No `write` changes what the file already holds. -/
theorem writeBody_keeps (buf : List Nat) (w w' : WState) (r : Resp)
    (h : writeBody buf w r = some w') : w.logfile <+: w'.logfile := by
  unfold writeBody at h
  split at h
  · cases h
  · cases r with
    | data bs => cases h
    | ret n =>
      simp only at h
      split at h
      · cases h
      · split at h
        · cases h; exact List.prefix_append _ _
        · split at h
          · cases h; exact List.prefix_append _ _
          · cases h; exact List.prefix_append _ _
    | fail e =>
      simp only at h
      split at h
      · cases h; exact List.prefix_refl _
      · split at h
        · cases h; exact List.prefix_refl _
        · cases h; exact List.prefix_refl _

theorem writeRun_keeps (buf : List Nat) :
    ∀ (rs : List Resp) (w w' : WState), writeRun buf w rs = some w' →
      w.logfile <+: w'.logfile := by
  intro rs
  induction rs with
  | nil => intro w w' h; simp [writeRun] at h; subst h; exact List.prefix_refl _
  | cons r rs ih =>
    intro w w' h
    simp only [writeRun] at h
    cases h1 : writeBody buf w r with
    | none => simp [h1] at h
    | some w1 =>
      simp only [h1, Option.some_bind] at h
      exact (writeBody_keeps buf w w1 r h1).trans (ih w1 w' h)

/-- One answer that is an interruption or a count: the loop stays alive, and the file has
grown by the bytes of the buffer between the old and the new offset. -/
theorem writeBody_inv (buf : List Nat) (w v : WState) (r : Resp) (hx : w.exited = none)
    (hr : r = .fail EINTR ∨ ∃ n, r = .ret n) (h : writeBody buf w r = some v) :
    v.exited = none ∧ v.written_bytes + v.bytes_left = w.written_bytes + w.bytes_left
      ∧ w.written_bytes ≤ v.written_bytes
      ∧ v.logfile = w.logfile
          ++ (buf.drop w.written_bytes).take (v.written_bytes - w.written_bytes) := by
  by_cases hl : w.bytes_left = 0
  · simp [writeBody, hl] at h
  · rcases hr with rfl | ⟨n, rfl⟩
    · rw [writeBody_EINTR buf w hx (by omega)] at h
      cases h
      simp [hx]
    · by_cases hn : w.bytes_left < n
      · simp [writeBody, hx, hl, hn] at h
      · have hv : ¬ ((n : Int) = -1) := by omega
        have hneg : ¬ ((n : Int) < 0) := by omega
        simp [writeBody, hx, hl, hn, Resp.val, ERROR_HELPER, hv, hneg] at h
        subst h
        simp only [hx, true_and]
        refine ⟨by omega, by omega, ?_⟩
        congr 2
        omega

/-- After any answers that are interruptions or counts, the file holds its previous content
followed by the bytes of the buffer from the first offset up to `written_bytes`. -/
theorem writeRun_inv (buf : List Nat) :
    ∀ (rs : List Resp) (w v : WState), w.exited = none →
      (∀ r ∈ rs, r = .fail EINTR ∨ ∃ n, r = .ret n) → writeRun buf w rs = some v →
      v.exited = none ∧ v.written_bytes + v.bytes_left = w.written_bytes + w.bytes_left
        ∧ w.written_bytes ≤ v.written_bytes
        ∧ v.logfile = w.logfile
            ++ (buf.drop w.written_bytes).take (v.written_bytes - w.written_bytes) := by
  intro rs
  induction rs with
  | nil =>
    intro w v hx _ h
    simp [writeRun] at h
    subst h
    simp [hx]
  | cons r rs ih =>
    intro w v hx hr h
    simp only [writeRun] at h
    cases h1 : writeBody buf w r with
    | none => simp [h1] at h
    | some w1 =>
      simp only [h1, Option.some_bind] at h
      obtain ⟨a1, a2, a3, a4⟩ := writeBody_inv buf w w1 r hx (hr r (by simp)) h1
      obtain ⟨b1, b2, b3, b4⟩ := ih w1 v a1 (fun q hq => hr q (by simp [hq])) h
      refine ⟨b1, by omega, by omega, ?_⟩
      rw [b4, a4, List.append_assoc]
      have e : w1.written_bytes = w.written_bytes + (w1.written_bytes - w.written_bytes) := by
        omega
      have e2 : v.written_bytes - w.written_bytes
          = (w1.written_bytes - w.written_bytes) + (v.written_bytes - w1.written_bytes) := by
        omega
      rw [e2, ← drop_take_add, ← e]

/-- **C12.** `logger` of echo_server_mt_logger.c, for every record `log_msg` taken from the
log buffer, every content of the log file and every sequence of answers to its `write` calls
in which each answer is an interruption (`-1` with `EINTR`) or a count between 1 and the
bytes left, the counts adding up to `strlen(log_msg)`: the loop ends with the file holding
its previous content followed by the bytes of the record, once and in order. An interrupted
`write` leaves the offset, the bytes left and the file as they were, and the same `write` is
issued again; any other failure of `write` makes the process call `exit(EXIT_FAILURE)`;
whatever the answers, the previous content of the file stays in place, and at every moment
of the loop the file holds its previous content followed by the first `written_bytes` bytes
of the record. -/
theorem log_record_written_once (log_msg : List Nat) (w : WState) (ws : List (Nat × Nat))
    (hx : w.exited = none) (hc : Chunking (ws.map Prod.snd) (strlen log_msg)) :
    (∃ w', writeRun log_msg (logger_write log_msg w) (writes ws) = some w'
        ∧ w'.logfile = w.logfile ++ log_msg.take (strlen log_msg)
        ∧ w'.bytes_left = 0 ∧ w'.written_bytes = strlen log_msg ∧ w'.exited = none)
    ∧ (∀ v : WState, v.exited = none → 0 < v.bytes_left →
        writeBody log_msg v (.fail EINTR) = some { v with errno := EINTR })
    ∧ (∀ (v : WState) (e : Nat), v.exited = none → 0 < v.bytes_left → e ≠ EINTR →
        writeBody log_msg v (.fail e)
          = some { v with errno := e, exited := some EXIT_FAILURE })
    ∧ (∀ (rs : List Resp) (v : WState),
        writeRun log_msg (logger_write log_msg w) rs = some v → w.logfile <+: v.logfile)
    ∧ (∀ (rs : List Resp) (v : WState), (∀ r ∈ rs, r = .fail EINTR ∨ ∃ n, r = .ret n) →
        writeRun log_msg (logger_write log_msg w) rs = some v →
        v.exited = none ∧ v.written_bytes + v.bytes_left = strlen log_msg
          ∧ v.logfile = w.logfile ++ log_msg.take v.written_bytes) := by
  refine ⟨?_, fun v hv hl => writeBody_EINTR log_msg v hv hl, ?_, ?_, ?_⟩
  · obtain ⟨w', h1, h2, h3, h4, h5⟩ := write_loop log_msg ws (logger_write log_msg w) hx hc
    refine ⟨w', h1, ?_, h2, ?_, h5⟩
    · rw [h4]; simp [logger_write]
    · rw [h3]; simp [logger_write]
  · intro v e hv hl he
    have hl' : v.bytes_left ≠ 0 := by omega
    simp [writeBody, hv, hl', Resp.val, he, ERROR_HELPER, WState.exit]
  · intro rs v h
    exact writeRun_keeps log_msg rs (logger_write log_msg w) v h
  · intro rs v hr h
    obtain ⟨a1, a2, _, a4⟩ := writeRun_inv log_msg rs (logger_write log_msg w) v hx hr h
    refine ⟨a1, by simpa [logger_write] using a2, ?_⟩
    simpa [logger_write] using a4

set_option maxRecDepth 100000 in
/-- The record "hello" with its line feed is appended to a file that holds "old": the first
`write` is interrupted, the second transfers 2 bytes, the third 1 byte, the fourth is
interrupted twice before it transfers the last 3 bytes. -/
theorem log_record_written_once_witness :
    ∃ w', writeRun (bytes "hello\n" ++ [0])
        (logger_write (bytes "hello\n" ++ [0])
          { written_bytes := 0, bytes_left := 0, errno := 0, logfile := bytes "old\n",
            exited := none })
        (writes [(1, 2), (0, 1), (2, 3)]) = some w'
      ∧ w'.logfile = bytes "old\n" ++ (bytes "hello\n" ++ [0]).take (strlen (bytes "hello\n" ++ [0]))
      ∧ w'.bytes_left = 0 ∧ w'.written_bytes = strlen (bytes "hello\n" ++ [0])
      ∧ w'.exited = none :=
  (log_record_written_once (bytes "hello\n" ++ [0])
    { written_bytes := 0, bytes_left := 0, errno := 0, logfile := bytes "old\n",
      exited := none }
    [(1, 2), (0, 1), (2, 3)] rfl (by decide)).1

/-! ## The Logger process -/

/-- A `read` on a pipe that holds at most `sizeof(buf)` bytes takes them all. -/
theorem lstep_read_data (s : Logger) (hpc : s.pc = .reading) (hne : s.pipe ≠ [])
    (hlen : s.pipe.length ≤ LOGGER_BUF) :
    lstep s .read = some
      { s with pipe := [], buf := s.pipe, pc := .writing,
               w := { s.w with written_bytes := 0, bytes_left := s.pipe.length } } := by
  have htake : List.take LOGGER_BUF s.pipe = s.pipe := List.take_of_length_le hlen
  have hdrop : List.drop LOGGER_BUF s.pipe = [] := List.drop_of_length_le hlen
  have hl0 : s.pipe.length ≠ 0 := fun h => hne (List.length_eq_zero.mp h)
  simp only [lstep, hpc]
  rw [if_neg (fun h => hne h.1), htake, hdrop]
  simp [readBody, hl0]

/-- A `write` that transfers all the bytes left ends the write loop. -/
theorem lstep_write_all (s : Logger) (hpc : s.pc = .writing) (hx : s.w.exited = none)
    (hl : 0 < s.w.bytes_left) :
    lstep s (.write (.ret s.w.bytes_left)) = some
      ({ s with w := { s.w with
            logfile := s.w.logfile ++ (s.buf.drop s.w.written_bytes).take s.w.bytes_left,
            bytes_left := 0, written_bytes := s.w.written_bytes + s.w.bytes_left } }).afterWrite := by
  simp only [lstep, hpc]
  rw [writeBody_ret s.buf s.w s.w.bytes_left hx hl (le_refl _)]
  simp [hx]

set_option maxRecDepth 100000 in
/-- **C13 (failing input).** The Logger has read "abc" from the pipe and is about to write it
to the log file when the Server writes "def" to the pipe; then the stop signal arrives. The
Logger writes "abc", finds `logger_shouldStop` set and leaves its loop: it closes the log
file and exits with `EXIT_SUCCESS` while "def" is in the pipe, unread. Likewise with 600
bytes in the pipe when the signal arrives: one `read` takes 512 of them, which are written,
and the Logger exits with 88 bytes unread. -/
theorem logger_stops_with_unread_data :
    (lrun (startLogger [] [] 0)
        [.serverWrite (bytes "abc"), .read, .serverWrite (bytes "def"), .signal,
         .write (.ret 3), .close (.ret 0)]).map
      (fun s => (s.pc, s.w.exited, s.w.logfile, s.pipe))
      = some (.ended, some EXIT_SUCCESS, bytes "abc", bytes "def")
    ∧ (lrun (startLogger (List.replicate 600 65) [] 0)
        [.signal, .read, .write (.ret 512), .close (.ret 0)]).map
      (fun s => (s.pc, s.w.exited, s.w.logfile.length, s.pipe.length))
      = some (.ended, some EXIT_SUCCESS, 512, 88) := by
  decide

/-- **C14 (counterexample).** The Logger waits in `read` on an empty pipe when the stop
signal arrives: `read` returns `-1` with `EINTR`, the flag is set, and the Logger is at
`read` again, its second call. That `read` blocks while the pipe is empty; when the Server
then writes "x", the Logger reads and logs it before it leaves its loop. -/
theorem logger_reads_again_after_stop :
    (lrun (startLogger [] [] 0) [.signal]).map
      (fun s => (s.pc, s.logger_shouldStop, s.reads, s.w.errno))
      = some (.reading, true, 2, EINTR)
    ∧ lrun (startLogger [] [] 0) [.signal, .read] = none
    ∧ (lrun (startLogger [] [] 0)
        [.signal, .serverWrite (bytes "x"), .read, .write (.ret 1)]).map
      (fun s => (s.pc, s.reads, s.w.logfile))
      = some (.closing, 2, bytes "x") := by
  decide

/-- **C14 (amended).** Once the stop flag has been set while the Logger is waiting in `read`
with no data pending (`read` returns `-1` with `EINTR`), the Logger issues the `read` again,
with the log file as it was. That `read` blocks as long as the pipe is empty and the Server
has it open. The Logger leaves its loop without a further `read` when this `read` returns 0
because the Server has closed the pipe, or after this `read` has delivered new data and the
Logger has written them to the log file. -/
theorem logger_stop_while_waiting (s : Logger) (hpc : s.pc = .reading) (hp : s.pipe = [])
    (ho : s.writer_open = true) (hx : s.w.exited = none) :
    ∃ s1, lstep s .signal = some s1
      ∧ s1.pc = .reading ∧ s1.logger_shouldStop = true ∧ s1.reads = s.reads + 1
      ∧ s1.pipe = [] ∧ s1.w.logfile = s.w.logfile
      ∧ lstep s1 .read = none
      ∧ (∃ s2, lrun s1 [.serverClose, .read] = some s2 ∧ s2.pc = .closing
          ∧ s2.reads = s1.reads ∧ s2.w.logfile = s.w.logfile)
      ∧ (∀ bs : List Nat, bs ≠ [] → bs.length ≤ LOGGER_BUF →
          ∃ s3, lrun s1 [.serverWrite bs, .read, .write (.ret bs.length)] = some s3
            ∧ s3.pc = .closing ∧ s3.reads = s1.reads
            ∧ s3.w.logfile = s.w.logfile ++ bs ∧ s3.pipe = []) := by
  refine ⟨{ s with logger_shouldStop := true, w := { s.w with errno := EINTR },
                   pc := .reading, reads := s.reads + 1 }, ?_, rfl, rfl, rfl, hp, rfl, ?_, ?_, ?_⟩
  · simp [lstep, hpc, hp, ho, readBody, Resp.val, Logger.nextRead]
  · simp [lstep, hp, ho]
  · refine ⟨{ s with logger_shouldStop := true, w := { s.w with errno := EINTR },
                     reads := s.reads + 1, writer_open := false, pipe := [],
                     pc := .closing }, ?_, rfl, rfl, rfl⟩
    simp [lrun, lstep, hp, ho, readBody]
  · intro bs hne hlen
    have e1 : lstep { s with logger_shouldStop := true, w := { s.w with errno := EINTR },
                             pc := .reading, reads := s.reads + 1 } (.serverWrite bs)
        = some { s with logger_shouldStop := true, w := { s.w with errno := EINTR },
                        pc := .reading, reads := s.reads + 1, pipe := bs } := by
      simp [lstep, ho, hp]
    have e2 := lstep_read_data
      { s with logger_shouldStop := true, w := { s.w with errno := EINTR },
               pc := .reading, reads := s.reads + 1, pipe := bs } rfl hne hlen
    have hpos : 0 < bs.length := List.length_pos.mpr hne
    have e3 := lstep_write_all
      { s with logger_shouldStop := true, pc := .writing, reads := s.reads + 1, pipe := [],
               buf := bs,
               w := { s.w with errno := EINTR, written_bytes := 0, bytes_left := bs.length } }
      rfl hx hpos
    refine ⟨{ s with logger_shouldStop := true, reads := s.reads + 1, pipe := [],
                     buf := bs, pc := .closing,
                     w := { s.w with errno := EINTR, logfile := s.w.logfile ++ bs,
                                     bytes_left := 0, written_bytes := 0 + bs.length } },
      ?_, rfl, rfl, rfl, rfl⟩
    simp only [lrun, e1, Option.some_bind, e2]
    simp only at e3
    rw [e3]
    simp [Logger.afterWrite]

set_option maxRecDepth 100000 in
/-- The Logger at its first `read`, the log file holding "a": after the stop signal it is at
its second `read`, and it leaves the loop once "xy" has arrived and has been logged. -/
theorem logger_stop_while_waiting_witness :
    ∃ s1, lstep (startLogger [] (bytes "a") 0) .signal = some s1
      ∧ s1.pc = .reading ∧ s1.reads = 2 ∧ lstep s1 .read = none
      ∧ ∃ s3, lrun s1 [.serverWrite (bytes "xy"), .read, .write (.ret 2)] = some s3
          ∧ s3.pc = .closing ∧ s3.reads = 2 ∧ s3.w.logfile = bytes "axy" := by
  obtain ⟨s1, h1, h2, _, h4, _, _, h7, _, h9⟩ :=
    logger_stop_while_waiting (startLogger [] (bytes "a") 0) rfl rfl rfl rfl
  obtain ⟨s3, g1, g2, g3, g4, _⟩ := h9 (bytes "xy") (by decide) (by decide)
  refine ⟨s1, h1, h2, h4, h7, s3, g1, g2, ?_, ?_⟩
  · rw [g3, h4]; rfl
  · rw [g4]; decide

/-! ## Named semaphores -/

/-- **C15.** For every prior state of the namespace (the name absent, or present with any
stale value) the initialisation ends with a semaphore of that name whose value is the
configured initial value, open in the process, and the process has not exited: `main` of
multiprocess.c with `MAX_CONCURRENCY`, `create_named_semaphore` of riepilogo.c with its
argument `value`, `main` of named_semaphore/server.c with `NUM_RESOURCES`. A semaphore that
exists is unlinked and created again; no other name is touched. -/
theorem named_semaphore_created (s : SemSys) (hx : s.exited = none) (name : String)
    (value MAX_CONCURRENCY : Nat) :
    ((multiprocess_main name MAX_CONCURRENCY s).names name = some MAX_CONCURRENCY
      ∧ (multiprocess_main name MAX_CONCURRENCY s).opened = true
      ∧ (multiprocess_main name MAX_CONCURRENCY s).exited = none
      ∧ ∀ n, n ≠ name → (multiprocess_main name MAX_CONCURRENCY s).names n = s.names n)
    ∧ ((create_named_semaphore name value s).names name = some value
      ∧ (create_named_semaphore name value s).opened = true
      ∧ (create_named_semaphore name value s).exited = none
      ∧ ∀ n, n ≠ name → (create_named_semaphore name value s).names n = s.names n)
    ∧ ((server_main s).names SEMAPHORE_NAME = some NUM_RESOURCES
      ∧ (server_main s).opened = true
      ∧ (server_main s).exited = none
      ∧ ∀ n, n ≠ SEMAPHORE_NAME → (server_main s).names n = s.names n) := by
  refine ⟨?_, ?_, ?_⟩
  · cases h : s.names name <;>
      simp [multiprocess_main, SemSys.sem_open, SemSys.sem_unlink, SemSys.exit, ERROR_HELPER,
        h, hx] <;> intro n hn <;> simp [hn]
  · cases h : s.names name <;>
      simp [create_named_semaphore, SemSys.sem_open, SemSys.sem_unlink, SemSys.exit, h, hx]
        <;> intro n hn <;> simp [hn]
  · cases h : s.names SEMAPHORE_NAME <;>
      simp [server_main, SemSys.sem_open, SemSys.sem_unlink, SemSys.exit, h, hx]
        <;> intro n hn <;> simp [hn]

/-- A stale semaphore "/connections" with value 0 is left over from a run that was killed:
`main` of multiprocess.c with `MAX_CONCURRENCY` 4 ends with the semaphore at 4. -/
theorem named_semaphore_created_witness :
    (multiprocess_main "/connections" 4
      { names := fun n => if n = "/connections" then some 0 else none, opened := false,
        errno := 0, exited := none }).names "/connections" = some 4 :=
  (named_semaphore_created
    { names := fun n => if n = "/connections" then some 0 else none, opened := false,
      errno := 0, exited := none } rfl "/connections" 0 4).1.1

/-- **C17.** `signalHandlerCleanup` of multiprocess.c, from a state in which the named
semaphore exists and is open: in the main process it closes and unlinks the semaphore, so
that `SEMAPHORE_NAME` no longer exists afterwards, touches no other name, and exits with
`EXIT_SUCCESS`; in a child process it leaves the namespace as it is and exits with
`EXIT_SUCCESS`. -/
theorem cleanup_unlinks_in_main_only (s : SemSys) (name : String) (stale : Int)
    (main_process process_id v : Nat) (hn : s.names name = some v) (ho : s.opened = true)
    (hc : process_id ≠ main_process) :
    ((signalHandlerCleanup name stale main_process main_process s).names name = none
      ∧ (signalHandlerCleanup name stale main_process main_process s).opened = false
      ∧ (signalHandlerCleanup name stale main_process main_process s).exited
          = some EXIT_SUCCESS
      ∧ ∀ n, n ≠ name →
          (signalHandlerCleanup name stale main_process main_process s).names n = s.names n)
    ∧ ((signalHandlerCleanup name stale main_process process_id s).names = s.names
      ∧ (signalHandlerCleanup name stale main_process process_id s).opened = s.opened
      ∧ (signalHandlerCleanup name stale main_process process_id s).exited
          = some EXIT_SUCCESS) := by
  refine ⟨?_, ?_⟩
  · simp [signalHandlerCleanup, SemSys.sem_close, SemSys.sem_unlink, SemSys.exit,
      ERROR_HELPER, hn, ho]
    intro n hne; simp [hne]
  · simp [signalHandlerCleanup, hc, SemSys.exit]

/-- The semaphore "/connections" has value 1 (three connections are being served) when the
main process, with process id 100, and its child 101 receive SIGINT. -/
theorem cleanup_unlinks_in_main_only_witness :
    (signalHandlerCleanup "/connections" (-1) 100 100
      { names := fun n => if n = "/connections" then some 1 else none, opened := true,
        errno := 0, exited := none }).names "/connections" = none
    ∧ (signalHandlerCleanup "/connections" (-1) 100 101
      { names := fun n => if n = "/connections" then some 1 else none, opened := true,
        errno := 0, exited := none }).names "/connections" = some 1 := by
  have key := cleanup_unlinks_in_main_only
    { names := fun n => if n = "/connections" then some 1 else none, opened := true,
      errno := 0, exited := none } "/connections" (-1) 100 101 1 rfl rfl (by decide)
  refine ⟨key.1.1, ?_⟩
  rw [key.2.1]
  rfl

/-- **C16 (counterexample).** Process-based server, semaphore "/connections" created by
`main` with `MAX_CONCURRENCY` 4. One run of `signalHandlerCleanup` exits with
`EXIT_SUCCESS`. When a second signal arrives after the `sem_unlink` of the first run, the
second run ends with `EXIT_FAILURE`, whether `sem_close` of the closed descriptor returns
`-1` or 0. When it arrives between `sem_close` and `sem_unlink` and `sem_close` of the closed
descriptor returns `-1`, the process exits with `EXIT_FAILURE` and the semaphore stays
linked. -/
theorem second_signal_ends_in_failure :
    (signalHandlerCleanup "/connections" (-1) 100 100
      (multiprocess_main "/connections" 4
        { names := fun _ => none, opened := false, errno := 0, exited := none })).exited
      = some EXIT_SUCCESS
    ∧ (secondSignal "/connections" (-1) 100 2
      (multiprocess_main "/connections" 4
        { names := fun _ => none, opened := false, errno := 0, exited := none })).exited
      = some EXIT_FAILURE
    ∧ (secondSignal "/connections" 0 100 2
      (multiprocess_main "/connections" 4
        { names := fun _ => none, opened := false, errno := 0, exited := none })).exited
      = some EXIT_FAILURE
    ∧ (secondSignal "/connections" (-1) 100 1
      (multiprocess_main "/connections" 4
        { names := fun _ => none, opened := false, errno := 0, exited := none })).exited
      = some EXIT_FAILURE
    ∧ (secondSignal "/connections" (-1) 100 1
      (multiprocess_main "/connections" 4
        { names := fun _ => none, opened := false, errno := 0, exited := none })).names
        "/connections" = some 4
    ∧ EXIT_FAILURE ≠ EXIT_SUCCESS := by
  refine ⟨by decide, by decide, by decide, by decide, by decide, by decide⟩

/-- **C16 (amended).** From a state in which the semaphore exists and is open, one run of
`signalHandlerCleanup` in the main process of the process-based server closes and unlinks it
and exits with `EXIT_SUCCESS`. A second run, started by a signal that arrives during the
first, releases and unlinks nothing a second time, but it is no repetition of the first:
started before the first `sem_close` it does the whole cleanup, with the outcome of a single
run; started after the `sem_unlink` of the first run it exits with `EXIT_FAILURE`, the
semaphore closed and unlinked as after a single run; started between `sem_close` and
`sem_unlink`, with `sem_close` of the closed descriptor returning a negative value, it exits
with `EXIT_FAILURE` and the semaphore stays linked. In the thread-based server the first
run destroys the semaphore and exits with `EXIT_SUCCESS`; a second run exits with
`EXIT_FAILURE` exactly when `sem_destroy` of the destroyed semaphore returns a negative
value. -/
theorem second_cleanup_run (s : SemSys) (name : String) (stale : Int)
    (main_process v : Nat) (hn : s.names name = some v) (ho : s.opened = true)
    (hx : s.exited = none) :
    ((signalHandlerCleanup name stale main_process main_process s).exited = some EXIT_SUCCESS
      ∧ (signalHandlerCleanup name stale main_process main_process s).names name = none
      ∧ (signalHandlerCleanup name stale main_process main_process s).opened = false)
    ∧ secondSignal name stale main_process 0 s
        = signalHandlerCleanup name stale main_process main_process s
    ∧ ((secondSignal name stale main_process 2 s).exited = some EXIT_FAILURE
      ∧ (secondSignal name stale main_process 2 s).names name = none
      ∧ (secondSignal name stale main_process 2 s).opened = false
      ∧ ∀ n, n ≠ name → (secondSignal name stale main_process 2 s).names n = s.names n)
    ∧ (stale < 0 →
        (secondSignal name stale main_process 1 s).exited = some EXIT_FAILURE
        ∧ (secondSignal name stale main_process 1 s).names name = some v)
    ∧ multithread_signalHandlerCleanup stale { initialised := true, exited := none }
        = { initialised := false, exited := some EXIT_SUCCESS }
    ∧ ((multithread_signalHandlerCleanup stale
          { initialised := false, exited := none }).exited = some EXIT_FAILURE ↔ stale < 0)
    ∧ (multithread_signalHandlerCleanup stale
          { initialised := false, exited := none }).initialised = false := by
  refine ⟨?_, ?_, ?_, ?_, ?_, ?_, ?_⟩
  · simp [signalHandlerCleanup, SemSys.sem_close, SemSys.sem_unlink, SemSys.exit,
      ERROR_HELPER, hn, ho]
  · simp [secondSignal, cleanupCalls, hx]
  · by_cases hs : stale < 0
    · simp [secondSignal, cleanupCalls, signalHandlerCleanup, SemSys.sem_close,
        SemSys.sem_unlink, SemSys.exit, ERROR_HELPER, hn, ho, hx, hs]
      intro n hne; simp [hne]
    · simp [secondSignal, cleanupCalls, signalHandlerCleanup, SemSys.sem_close,
        SemSys.sem_unlink, SemSys.exit, ERROR_HELPER, hn, ho, hx, hs]
      intro n hne; simp [hne]
  · intro hs
    simp [secondSignal, cleanupCalls, signalHandlerCleanup, SemSys.sem_close,
      SemSys.sem_unlink, SemSys.exit, ERROR_HELPER, hn, ho, hx, hs]
  · simp [multithread_signalHandlerCleanup, ERROR_HELPER]
  · by_cases hs : stale < 0 <;>
      simp [multithread_signalHandlerCleanup, ERROR_HELPER, hs, EXIT_FAILURE, EXIT_SUCCESS]
  · by_cases hs : stale < 0 <;> simp [multithread_signalHandlerCleanup, ERROR_HELPER, hs]

/-- The semaphore "/connections" with value 4: a second signal after the `sem_unlink` of the
first run makes the main process exit with `EXIT_FAILURE`. -/
theorem second_cleanup_run_witness :
    (signalHandlerCleanup "/connections" (-1) 100 100
      { names := fun n => if n = "/connections" then some 4 else none, opened := true,
        errno := 0, exited := none }).exited = some EXIT_SUCCESS
    ∧ (secondSignal "/connections" (-1) 100 2
      { names := fun n => if n = "/connections" then some 4 else none, opened := true,
        errno := 0, exited := none }).exited = some EXIT_FAILURE := by
  have key := second_cleanup_run
    { names := fun n => if n = "/connections" then some 4 else none, opened := true,
      errno := 0, exited := none } "/connections" (-1) 100 4 rfl rfl rfl
  exact ⟨key.1.1, key.2.2.1.1⟩

set_option maxRecDepth 100000 in
/-- **C25.** The put of one_prod_one_cons.c without a mutex, run by two producers at once:
in the interleaving `lostUpdate` both producers pass `sem_wait(&empty_count)` and both write
`transactions[0]` before `write_index` is advanced. After both puts have completed slot 0
holds -3, the 7 of the first producer is nowhere in the buffer, `write_index` is 2 and
`fill_count` is 2; the consumer then reads -3 from slot 0 and slot 1, which was never
written. -/
theorem two_producers_lose_an_element :
    ∃ s s' : BState Int,
      brun one_prod_one_cons (BState.init one_prod_one_cons 2 1) lostUpdate = some s
      ∧ s.quiescent ∧ s.puts = [7, -3]
      ∧ s.slots.getD 0 none = some (-3) ∧ s.slots.getD 1 none = none
      ∧ some 7 ∉ s.slots
      ∧ s.write_index = 2 ∧ s.fill_count = 2
      ∧ brun one_prod_one_cons s (takeSteps ++ takeSteps) = some s'
      ∧ s'.takes = [some (-3), none] := by
  refine ⟨_, _, rfl, by decide, by decide, by decide, by decide, by decide, by decide,
    by decide, rfl, by decide⟩

/-- **C27.** For every value `r` that `rand()` returns, `performRandomTransaction` returns a
non-zero amount between `-MAX_TRANSACTION` and `MAX_TRANSACTION`: with
`a = r mod (2 * MAX_TRANSACTION)` it returns `a + 1`, a value in `1..MAX_TRANSACTION`, when
`a < MAX_TRANSACTION`, and `MAX_TRANSACTION - (a + 1)`, a value in `-MAX_TRANSACTION..-1`,
otherwise. -/
theorem performRandomTransaction_range (r : Nat) :
    performRandomTransaction r ≠ 0
    ∧ -MAX_TRANSACTION ≤ performRandomTransaction r
    ∧ performRandomTransaction r ≤ MAX_TRANSACTION
    ∧ (r % 2000 < 1000 →
        performRandomTransaction r = (r % 2000 : Nat) + 1
        ∧ 1 ≤ performRandomTransaction r ∧ performRandomTransaction r ≤ MAX_TRANSACTION)
    ∧ (1000 ≤ r % 2000 →
        performRandomTransaction r = MAX_TRANSACTION - ((r % 2000 : Nat) + 1)
        ∧ -MAX_TRANSACTION ≤ performRandomTransaction r ∧ performRandomTransaction r ≤ -1) := by
  have h : Int.tmod (r : Int) (2 * MAX_TRANSACTION) = ((r % 2000 : Nat) : Int) := by
    rw [Int.tmod_eq_emod (by omega) (by decide)]
    simp [MAX_TRANSACTION]
  have hlt : r % 2000 < 2000 := Nat.mod_lt _ (by decide)
  unfold performRandomTransaction
  simp only [h]
  simp only [MAX_TRANSACTION]
  refine ⟨?_, ?_, ?_, ?_, ?_⟩
  · split <;> omega
  · split <;> omega
  · split <;> omega
  · intro h1; split <;> omega
  · intro h1; split <;> omega

set_option maxRecDepth 100000 in
/-- `rand()` returns 2999: `a` is 999 and the amount is 1000; `rand()` returns 3000: `a` is
1000 and the amount is -1. -/
theorem performRandomTransaction_range_witness :
    performRandomTransaction 2999 = 1000 ∧ performRandomTransaction 3000 = -1 := by
  have h1 := (performRandomTransaction_range 2999).2.2.2.1 (by decide)
  have h2 := (performRandomTransaction_range 3000).2.2.2.2 (by decide)
  exact ⟨by rw [h1.1]; decide, by rw [h2.1]; decide⟩

theorem takeWhile_line (msg : List Nat) :
    (msg.takeWhile (· ≠ 0) ++ [10, 0]).takeWhile (· ≠ 0) = msg.takeWhile (· ≠ 0) ++ [10] := by
  induction msg with
  | nil => simp [List.takeWhile]
  | cons a l ih =>
    by_cases ha : a = 0
    · subst ha; simp [List.takeWhile]
    · simp only [List.takeWhile_cons, ne_eq, ha, not_false_eq_true, decide_True, if_true,
        List.cons_append]
      simp only [ne_eq] at ih
      rw [ih]

/-- `strlen` stops at the first terminator of what `sprintf` has written. -/
theorem strlen_my_log_tmp (msg : List Nat) : strlen (my_log_tmp msg) = strlen msg + 1 := by
  unfold strlen my_log_tmp
  rw [takeWhile_line]
  simp

/-- **C28.** For every message `msg` (a string whose length plus 2 is a value of `size_t`),
`my_log` allocates `strlen(msg) + 2` bytes and `sprintf` writes exactly that many: the
characters of `msg`, one line feed and the string terminator. The record stored in the log
buffer, the string at `tmp`, is `msg` followed by exactly one line feed: its length is
`strlen(msg) + 1`, and with its terminator it fills the allocated bytes exactly. -/
theorem my_log_record_fits (msg : List Nat) (hs : strlen msg + 2 < 2 ^ 64) :
    (my_log_tmp msg).length = my_log_malloc msg
    ∧ my_log_malloc msg = strlen msg + 2
    ∧ strlen (my_log_tmp msg) = strlen msg + 1
    ∧ (my_log_tmp msg).take (strlen (my_log_tmp msg)) = msg.take (strlen msg) ++ [10]
    ∧ (my_log_tmp msg).getD (strlen (my_log_tmp msg)) 1 = 0
    ∧ strlen (my_log_tmp msg) + 1 = my_log_malloc msg := by
  have hm : my_log_malloc msg = strlen msg + 2 := by
    unfold my_log_malloc; exact Nat.mod_eq_of_lt hs
  have hl : (my_log_tmp msg).length = strlen msg + 2 := by
    simp [my_log_tmp, strlen]
  have ht : msg.take (strlen msg) = msg.takeWhile (· ≠ 0) := by
    unfold strlen
    have h1 : (msg.takeWhile (· ≠ 0)) <+: msg := List.takeWhile_prefix _
    exact (List.prefix_iff_eq_take.mp h1).symm
  refine ⟨by rw [hl, hm], hm, strlen_my_log_tmp msg, ?_, ?_, by rw [strlen_my_log_tmp, hm]⟩
  · rw [strlen_my_log_tmp, ht]
    unfold my_log_tmp strlen
    have e : msg.takeWhile (· ≠ 0) ++ [10, 0] = (msg.takeWhile (· ≠ 0) ++ [10]) ++ [0] := by
      simp
    rw [e]
    have hlen : (msg.takeWhile (· ≠ 0) ++ [10]).length = (msg.takeWhile (· ≠ 0)).length + 1 := by
      simp
    rw [← hlen, List.take_left]
  · rw [strlen_my_log_tmp]
    unfold my_log_tmp strlen
    have e : msg.takeWhile (· ≠ 0) ++ [10, 0] = (msg.takeWhile (· ≠ 0) ++ [10]) ++ [0] := by
      simp
    rw [e]
    have hlen : (msg.takeWhile (· ≠ 0) ++ [10]).length = (msg.takeWhile (· ≠ 0)).length + 1 := by
      simp
    rw [← hlen, List.getD_eq_getElem?_getD, List.getElem?_append_right (le_refl _)]
    simp

set_option maxRecDepth 100000 in
/-- The message "done": 6 bytes are allocated and the record is "done" with a line feed. -/
theorem my_log_record_fits_witness :
    (my_log_tmp (bytes "done" ++ [0])).length = my_log_malloc (bytes "done" ++ [0])
    ∧ (my_log_tmp (bytes "done" ++ [0])).take (strlen (my_log_tmp (bytes "done" ++ [0])))
        = bytes "done\n" := by
  have key := my_log_record_fits (bytes "done" ++ [0]) (by decide)
  refine ⟨key.1, ?_⟩
  rw [key.2.2.2.1]
  decide

/-- The terminator does not fit when the message fills the array. -/
theorem terminate_message_outside (buf bs : List Nat) (h : buf.length ≤ bs.length) :
    terminate_message buf bs = none := by
  have hd : buf.drop bs.length = [] := List.drop_of_length_le h
  simp [terminate_message, array_store, hd]

/-- The terminator fits when the message is shorter than the array. -/
theorem terminate_message_inside (buf bs : List Nat) (h : bs.length < buf.length) :
    terminate_message buf bs = some (bs ++ 0 :: buf.drop (bs.length + 1)) := by
  have hl : bs.length < (bs ++ buf.drop bs.length).length := by
    simp; omega
  simp only [terminate_message, array_store, hl, if_true]
  congr 1
  rw [List.set_append_right _ _ (le_refl _)]
  simp only [Nat.sub_self]
  cases hd : buf.drop bs.length with
  | nil =>
    have := List.drop_eq_nil_iff.mp hd
    omega
  | cons a t =>
    have e : buf.drop (bs.length + 1) = t := by
      rw [← List.drop_drop, hd]
      rfl
    simp [e]

/-- **C30 (failing input).** `connection_handler` of echo_server_mt_logger.c asks `recv` for
`DEFAULT_BUFFER_SIZE` bytes. When `recv` delivers that many, `recv_bytes` is
`DEFAULT_BUFFER_SIZE` and `buf[recv_bytes] = '\0'` writes one element past the end of
`buf`, whatever `DEFAULT_BUFFER_SIZE` is; for every shorter message the terminator is
written inside `buf`. -/
theorem terminator_written_past_buf (DEFAULT_BUFFER_SIZE k j : Nat) :
    terminate_message (List.replicate DEFAULT_BUFFER_SIZE 0)
        (List.replicate DEFAULT_BUFFER_SIZE 65) = none
    ∧ array_store (List.replicate DEFAULT_BUFFER_SIZE 65) DEFAULT_BUFFER_SIZE 0 = none
    ∧ (terminate_message (List.replicate (k + j + 1) 0) (List.replicate k 65)).isSome
        = true := by
  refine ⟨terminate_message_outside _ _ (by simp), by simp [array_store], ?_⟩
  rw [terminate_message_inside _ _ (by simp; omega)]
  rfl

set_option maxRecDepth 100000 in
/-- **C29 (failing input).** In both send loops a `send` that returns 1 while `errno` is
`EINTR` leaves `bytes_sent` as it was, although one byte has been transmitted: for every
state with `errno == EINTR` and `bytes_sent == 0` and every length asked for, the loop goes
to its test with `bytes_sent` still 0. In the logging echo server: a `recv` is interrupted
and retried, then delivers "ab"; the first `send` of the echo returns 1, the second sends
"ab" from offset 0, and the client receives "aab" after the welcome message. -/
theorem partial_send_not_counted (s : HState) (len : Nat) :
    sendBody { s with errno := EINTR, bytes_sent := 0 } (len + 1) echoTest (.ret 1)
      = some (echoTest { s with errno := EINTR, bytes_sent := 0,
                                trace := s.trace ++ [.sent (s.buf.take 1)] })
    ∧ sendBody { s with errno := EINTR, bytes_sent := 0 } (len + 1) welcomeTest (.ret 1)
      = some (welcomeTest { s with errno := EINTR, bytes_sent := 0,
                                   trace := s.trace ++ [.sent (s.buf.take 1)] })
    ∧ (hrun (localHandler .logger) (connection_handler (localHandler .logger) 0)
        [.ret 144, .fail EINTR, .data (bytes "ab"), .ret 1, .ret 2]).map
      (fun t => (t.pc, t.bytes_sent, (output t.trace).drop 144))
      = some (.receive, 2, bytes "aab") := by
  refine ⟨?_, ?_, by decide⟩
  · simp [sendBody, Resp.val, HState.emit]
  · simp [sendBody, Resp.val, HState.emit]

/-! ## The echo handlers of lab08 -/

/-- One round on a closed connection: `recv` returns 0, the handler sends the zero bytes
received, and is at `recv` again. -/
theorem lab08_closed_round (h : Handler) (hq : strlen h.quit_command ≠ 0) (s : HState)
    (hpc : s.pc = .receive) :
    lab08_run h s [.data [], .ret 0] = some
      { s with recv_bytes := 0, trace := s.trace ++ [.received [], .sent []] } := by
  have hnq : is_quit s.buf 0 h.quit_command = false := by
    simp [is_quit, Ne.symm hq]
  simp [lab08_run, lab08_step, hpc, lab08_recvBody, hnq, lab08_sendBody, HState.emit]

theorem lab08_closed_rounds (h : Handler) (hq : strlen h.quit_command ≠ 0) :
    ∀ (n : Nat) (s : HState), s.pc = .receive →
      ∃ s', lab08_run h s (closedPeerRounds n) = some s' ∧ s'.pc = .receive
        ∧ s'.errno = s.errno ∧ s'.trace = s.trace ++ closedPeerTrace n := by
  intro n
  induction n with
  | zero => intro s hpc; exact ⟨s, rfl, hpc, rfl, by simp [closedPeerTrace]⟩
  | succ n ih =>
    intro s hpc
    have h1 := lab08_closed_round h hq s hpc
    obtain ⟨s', g1, g2, g3, g4⟩ :=
      ih { s with recv_bytes := 0, trace := s.trace ++ [.received [], .sent []] } hpc
    refine ⟨s', ?_, g2, g3, ?_⟩
    · simp only [lab08_run] at h1
      simp only [closedPeerRounds, lab08_run]
      cases e1 : lab08_step h s (.data []) with
      | none => simp [e1] at h1
      | some t1 =>
        simp only [e1, Option.some_bind] at h1 ⊢
        cases e2 : lab08_step h t1 (.ret 0) with
        | none => simp [e2] at h1
        | some t2 =>
          simp only [e2, Option.some_bind, Option.some.injEq] at h1 ⊢
          rw [h1]; exact g1
    · rw [g4]; simp [closedPeerTrace]

set_option maxRecDepth 100000 in
/-- **C21 (counterexample).** Handler of lab08 (base.c, multithread.c) and of the Logger's
server, after the welcome message: `recv` returns 0 because the peer has closed the
connection. The handler calls `send` for the 0 bytes received and then `recv` again; after a
second `recv` that returns 0 it does the same, and is at its third `recv`. -/
theorem recv_zero_keeps_echo_loop :
    (lab08_run (localHandler .thread) (lab08_connection_handler (localHandler .thread) 0)
        [.ret 144, .data [], .ret 0, .data [], .ret 0]).map
      (fun s => (s.pc, s.trace.drop 1))
      = some (.receive, [.received [], .sent [], .received [], .sent []]) := by
  decide

/-- **C21 (amended).** In the echo servers of lab08 and of the pipe-based Logger a `recv`
that returns 0 does not terminate the echo loop: after it the handler calls `send` with
length 0 and then `recv` again, and so on for as long as `recv` returns 0. The loop ends
when the terminator is received: the handler then calls `close` and issues no further
`recv` or `send`. -/
theorem recv_zero_is_echoed (h : Handler) (hq : h.quit_command = SERVER_COMMAND)
    (hb : SERVER_COMMAND.length ≤ h.buf_len) (s : HState) (hpc : s.pc = .receive) (n : Nat) :
    (∃ s', lab08_run h s (closedPeerRounds n) = some s' ∧ s'.pc = .receive
        ∧ s'.trace = s.trace ++ closedPeerTrace n)
    ∧ (∃ s1 s2, lab08_step h s (.data SERVER_COMMAND) = some s1 ∧ s1.pc = .closing
        ∧ lab08_step h s1 (.ret 0) = some s2 ∧ s2.pc = .returned
        ∧ s2.trace = s.trace ++ [.received SERVER_COMMAND, .closed]
        ∧ ∀ r, lab08_step h s2 r = none) := by
  have hq0 : strlen h.quit_command ≠ 0 := by rw [hq, strlen_SERVER_COMMAND]; decide
  refine ⟨?_, ?_⟩
  · obtain ⟨s', g1, g2, _, g4⟩ := lab08_closed_rounds h hq0 n s hpc
    exact ⟨s', g1, g2, g4⟩
  · have hisq : is_quit (SERVER_COMMAND ++ s.buf.drop SERVER_COMMAND.length)
        SERVER_COMMAND.length h.quit_command = true := by
      rw [hq, is_quit_iff _ _ _ strlen_SERVER_COMMAND, List.take_left]
      exact ⟨rfl, rfl⟩
    have hb' : ¬ h.buf_len < SERVER_COMMAND.length := by omega
    refine ⟨{ s with recv_bytes := SERVER_COMMAND.length,
                     buf := SERVER_COMMAND ++ s.buf.drop SERVER_COMMAND.length,
                     trace := s.trace ++ [.received SERVER_COMMAND], pc := .closing },
      { s with recv_bytes := SERVER_COMMAND.length,
               buf := SERVER_COMMAND ++ s.buf.drop SERVER_COMMAND.length,
               trace := s.trace ++ [.received SERVER_COMMAND] ++ [.closed], pc := .returned },
      ?_, rfl, ?_, rfl, by simp, ?_⟩
    · simp only [lab08_step, hpc, lab08_recvBody, hb', if_false, HState.emit, hisq, if_true]
    · simp [lab08_step, lab08_closeBody, HState.emit]
    · intro r; simp [lab08_step]

set_option maxRecDepth 100000 in
/-- Three rounds on a closed connection after the welcome message of lab08's server. -/
theorem recv_zero_is_echoed_witness :
    ∃ s', lab08_run (localHandler .thread) (atRecv (localHandler .thread) 0)
        (closedPeerRounds 3) = some s' ∧ s'.pc = .receive
      ∧ s'.trace = (atRecv (localHandler .thread) 0).trace ++ closedPeerTrace 3 :=
  (recv_zero_is_echoed (localHandler .thread) rfl (by decide)
    (atRecv (localHandler .thread) 0) rfl 3).1

/-! ## Fatal errors of the main process -/

set_option maxRecDepth 100000 in
/-- **C22 (counterexample).** Process-based server with semaphore "/connections" and
`MAX_CONCURRENCY` 4, created by `main`. `socket` and `setsockopt` succeed, `bind` fails:
the process exits with `EXIT_FAILURE` and the semaphore still exists with value 4. In a
second run `socket`, `setsockopt`, `bind`, `listen`, `accept` and `sem_wait` succeed and
`fork` fails: the process exits with `EXIT_FAILURE` and the semaphore still exists, with
value 3. -/
theorem fatal_error_keeps_semaphore :
    (multiprocess_main_run "/connections"
        { sys := multiprocess_main "/connections" 4
            { names := fun _ => none, opened := false, errno := 0, exited := none },
          pc := .socket }
        [.ret 3, .ret 0, .fail 98]).map
      (fun m => (m.sys.names "/connections", m.sys.opened, m.sys.exited))
      = some (some 4, true, some EXIT_FAILURE)
    ∧ (multiprocess_main_run "/connections"
        { sys := multiprocess_main "/connections" 4
            { names := fun _ => none, opened := false, errno := 0, exited := none },
          pc := .socket }
        [.ret 3, .ret 0, .ret 0, .ret 0, .ret 5, .ret 0, .fail 11]).map
      (fun m => (m.sys.names "/connections", m.sys.opened, m.sys.exited))
      = some (some 3, true, some EXIT_FAILURE) := by
  decide

/-- **C22 (amended).** When a call of `main` fails in the process-based server after the
named semaphore has been created (`socket`, `setsockopt`, `bind`, `listen`, `accept` with
an error other than `EINTR`, `sem_wait`, `fork`, `close`), `ERROR_HELPER` ends the process
with `exit(EXIT_FAILURE)` at once: the process makes no further call, its semaphore
descriptor has not been closed and the name of the semaphore stays in the namespace with
its current value. -/
theorem fatal_error_exits_without_cleanup (sem_name : String) (m : MainProc) (e : Nat)
    (hx : m.sys.exited = none) (he : m.pc = .accept → e ≠ EINTR) :
    ∃ m', multiprocess_main_step sem_name m (.fail e) = some m'
      ∧ m'.sys.exited = some EXIT_FAILURE
      ∧ m'.sys.names = m.sys.names ∧ m'.sys.opened = m.sys.opened
      ∧ ∀ r, multiprocess_main_step sem_name m' r = none := by
  refine ⟨{ m with sys := { m.sys with errno := e }.exit EXIT_FAILURE }, ?_, rfl, rfl, rfl, ?_⟩
  · by_cases hp : m.pc = .accept
    · simp [multiprocess_main_step, hx, hp, he hp, Resp.val, ERROR_HELPER]
    · simp [multiprocess_main_step, hx, hp, Resp.val, ERROR_HELPER]
  · intro r
    simp [multiprocess_main_step, SemSys.exit]

set_option maxRecDepth 100000 in
/-- The semaphore "/connections" has value 4 and `bind` fails with `EADDRINUSE`. -/
theorem fatal_error_exits_without_cleanup_witness :
    ∃ m', multiprocess_main_step "/connections"
        { sys := { names := fun n => if n = "/connections" then some 4 else none,
                   opened := true, errno := 0, exited := none },
          pc := .bind } (.fail 98) = some m'
      ∧ m'.sys.exited = some EXIT_FAILURE ∧ m'.sys.names "/connections" = some 4 := by
  obtain ⟨m', h1, h2, h3, _, _⟩ := fatal_error_exits_without_cleanup "/connections"
    { sys := { names := fun n => if n = "/connections" then some 4 else none,
               opened := true, errno := 0, exited := none },
      pc := .bind } 98 rfl (by decide)
  exact ⟨m', h1, h2, by rw [h3]; rfl⟩

/-! ## The scheduler's `client` -/

/-- One round of the loop, when neither `++i` overflows. -/
theorem client_round (n fuel k : Nat) (tr : List Ev) (h1 : 2 * k < n)
    (h2 : 2 * k + 2 ≤ INT_MAX) :
    client_loop n (fuel + 1) (2 * k) tr = client_loop n fuel (2 * k + 2) (tr ++ spec_round n k) := by
  have a1 : 2 * k < INT_MAX := by omega
  have a2 : 2 * k + 1 < INT_MAX := by omega
  by_cases hlast : 2 * k + 1 < n
  · have hne : ¬ (2 * k + 1 = n) := by omega
    simp [client_loop, h1, incr, a1, a2, hne, spec_round, hlast]
  · have he : 2 * k + 1 = n := by omega
    have a3 : n < INT_MAX := by omega
    have e2 : n + 1 = 2 * k + 2 := by omega
    simp [client_loop, h1, incr, a1, he, a3, e2, spec_round, hlast]

theorem spec_rounds_succ (n k : Nat) :
    spec_rounds n (k + 1) = spec_rounds n k ++ spec_round n k := by
  simp [spec_rounds, List.range_succ]

/-- The first `k` rounds of the loop, when none of them overflows. -/
theorem client_rounds (n : Nat) : ∀ (k fuel : Nat), 2 * k < n + 2 → 2 * k ≤ INT_MAX →
    client_loop n (fuel + k) 0 [] = client_loop n fuel (2 * k) (spec_rounds n k) := by
  intro k
  induction k with
  | zero => intro fuel _ _; rfl
  | succ k ih =>
    intro fuel h1 h2
    have e : fuel + (k + 1) = (fuel + 1) + k := by omega
    have e2 : 2 * (k + 1) = 2 * k + 2 := by omega
    rw [e, ih (fuel + 1) (by omega) (by omega), client_round n fuel k _ (by omega) (by omega),
      spec_rounds_succ, e2]

theorem count_acquire_rounds (n : Nat) : ∀ k, (spec_rounds n k).count .acquire = k
    ∧ (spec_rounds n k).count .release = k := by
  intro k
  induction k with
  | zero => exact ⟨rfl, rfl⟩
  | succ k ih =>
    rw [spec_rounds_succ, List.count_append, List.count_append, ih.1, ih.2]
    unfold spec_round
    split <;> simp

theorem works_rounds (n : Nat) : ∀ k, 2 * k < n + 2 → works (spec_rounds n k) = min (2 * k) n := by
  intro k
  induction k with
  | zero => intro _; simp [works, spec_rounds]
  | succ k ih =>
    intro h
    have := ih (by omega)
    unfold works at this ⊢
    rw [spec_rounds_succ, List.countP_append, this]
    unfold spec_round
    split <;> simp <;> omega

/-- **C26 (amended).** For every `num_tasks` with `0 ≤ num_tasks < INT_MAX`, `client`
returns after the schedule of the specification: `ceil(num_tasks / 2)` rounds, each an
acquire, two work items (a single one in the last round when `num_tasks` is odd) and a
release before the next acquire; it acquires the semaphore `ceil(num_tasks / 2)` times,
releases it as often, and performs exactly `num_tasks` work items. -/
theorem client_schedule (num_tasks : Nat) (h : num_tasks < INT_MAX) :
    client num_tasks = .done (spec_schedule num_tasks)
    ∧ (spec_schedule num_tasks).count .acquire = (num_tasks + 1) / 2
    ∧ (spec_schedule num_tasks).count .release = (num_tasks + 1) / 2
    ∧ works (spec_schedule num_tasks) = num_tasks := by
  have hK : 2 * ((num_tasks + 1) / 2) < num_tasks + 2 := by omega
  refine ⟨?_, (count_acquire_rounds num_tasks _).1, (count_acquire_rounds num_tasks _).2, ?_⟩
  · unfold client spec_schedule
    obtain ⟨f, hf⟩ : ∃ f, num_tasks + 1 = (f + 1) + (num_tasks + 1) / 2 :=
      ⟨num_tasks - (num_tasks + 1) / 2, by omega⟩
    have hr := client_rounds num_tasks ((num_tasks + 1) / 2) (f + 1) hK (by omega)
    rw [← hf] at hr
    rw [hr]
    have hdone : ¬ (2 * ((num_tasks + 1) / 2) < num_tasks) := by omega
    simp [client_loop, hdone]
  · unfold spec_schedule
    rw [works_rounds num_tasks _ hK]
    omega

set_option maxRecDepth 100000 in
/-- `NUM_TASKS` is 3: two acquisitions; work items 0 and 1 in the first, work item 2 in the
second. -/
theorem client_schedule_witness :
    client 3 = .done [.acquire, .work 0, .work 1, .release, .acquire, .work 2, .release] := by
  rw [(client_schedule 3 (by decide)).1]
  decide

/-- **C26 (counterexample).** `num_tasks = INT_MAX`: in the last round `i` is `INT_MAX - 1`,
the first `++i` makes it `INT_MAX`, which equals `num_tasks`, and the second `++i` overflows
the `int`: `client` does not return after its last work item, the behaviour of the second
`++i` is undefined. -/
theorem client_overflows_at_int_max :
    ∃ tr, client INT_MAX = .overflow tr := by
  have hf : INT_MAX + 1 = (1073741824 + 1) + 1073741823 := by decide
  have hi : 2 * 1073741823 + 1 = INT_MAX := by decide
  unfold client
  rw [hf, client_rounds INT_MAX 1073741823 (1073741824 + 1) (by unfold INT_MAX; omega)
    (by unfold INT_MAX; omega)]
  have a1 : 2 * 1073741823 < INT_MAX := by unfold INT_MAX; omega
  refine ⟨spec_rounds INT_MAX 1073741823 ++ [.acquire, .work (2 * 1073741823)], ?_⟩
  simp only [client_loop, a1, if_true, incr, hi, lt_irrefl, if_false, ne_eq, not_true_eq_false]

/-! ## The log records of a session -/

theorem logs_append (a b : List Action) : logs (a ++ b) = logs a ++ logs b := by
  induction a with
  | nil => rfl
  | cons x a ih => cases x <;> simp [logs, ih]

theorem logs_sent (xs : List (List Nat)) : logs (xs.map .sent) = [] := by
  induction xs with
  | nil => rfl
  | cons x xs ih => simp [logs, ih]

/-- The record composed after `msg` has been received and terminated in `buf`. -/
theorem received_log_msg_eq (h : Handler) (s : HState) (msg : List Nat) :
    received_log_msg h
      { s with recv_bytes := msg.length,
               buf := (msg ++ s.buf.drop msg.length).set msg.length 0 }
      = messageRecord h msg := by
  unfold received_log_msg messageRecord
  simp only
  rw [take_set_of_le _ _ _ _ (le_refl _), List.take_left]

/-- One round of the echo loop in the logging server: a `recv` delivers the message `msg`
(not the terminator), the record for it is passed to `my_log`, and the message is sent
back in pieces of the sizes `cs`. -/
theorem logger_round (h : Handler) (hv : h.variant = .logger)
    (hq : h.quit_command = SERVER_COMMAND)
    (s : HState) (hpc : s.pc = .receive) (he : s.errno ≠ EINTR)
    (msg : List Nat) (cs : List Nat) (hm : msg ≠ []) (hne : msg ≠ SERVER_COMMAND)
    (hl : msg.length ≤ h.buf_len) (hc : Chunking cs msg.length) :
    ∃ s', hrun h s (.data msg :: sends cs) = some s' ∧ s'.pc = .receive ∧ s'.errno = s.errno
      ∧ logs s'.trace = logs s.trace ++ [messageRecord h msg]
      ∧ closes s'.trace = closes s.trace := by
  have hs1 := hstep_data h s hpc msg hm hl
  obtain ⟨t, et, hs1'⟩ : ∃ t, t = logReceived h
      ({ s with recv_bytes := msg.length, buf := msg ++ s.buf.drop msg.length }.emit
        (.received msg)) ∧ hstep h s (.data msg) = some (afterRecv h t) := ⟨_, rfl, hs1⟩
  have ht_recv : t.recv_bytes = msg.length := by rw [et]; simp
  have ht_errno : t.errno = s.errno := by rw [et]; simp
  have ht_take : t.buf.take msg.length = msg := by
    have := logReceived_buf_take h
      ({ s with recv_bytes := msg.length, buf := msg ++ s.buf.drop msg.length }.emit
        (.received msg))
    simp only [emit_recv_bytes, emit_buf] at this
    rw [et, this, List.take_left]
  have ht_trace : t.trace = s.trace ++ [.received msg, .logged (messageRecord h msg)] := by
    rw [et, logReceived_trace]
    simp only [hv, if_true, emit_trace, emit_recv_bytes, emit_buf]
    have := received_log_msg_eq h (s.emit (.received msg)) msg
    simp only [emit_buf] at this
    simp [HState.emit] at this ⊢
    exact this
  have hnq : is_quit t.buf t.recv_bytes h.quit_command = false := by
    rw [Bool.eq_false_iff]
    intro hq'
    rw [hq, is_quit_iff _ _ _ strlen_SERVER_COMMAND, ht_recv, ht_take] at hq'
    exact hne hq'.2
  have hlen : 0 < msg.length := List.length_pos.mpr hm
  have hafter : afterRecv h t = { t with bytes_sent := 0, pc := .echo } := by
    unfold afterRecv
    rw [hnq]
    simp [echoTest, ht_recv, hlen]
  obtain ⟨s', hr, h1, h2, _, _, h5⟩ := echo_loop h cs (afterRecv h t)
    (by rw [hafter]; simp [ht_recv, hlen])
    (by rw [hafter]; simpa [ht_errno] using he)
    (by rw [hafter]; simpa [ht_recv] using hc)
  refine ⟨s', ?_, h1, ?_, ?_, ?_⟩
  · simp only [hrun, hs1', Option.some_bind]; exact hr
  · rw [h2]; simp [ht_errno]
  · rw [h5, logs_append, logs_sent, afterRecv_trace, ht_trace, logs_append]
    simp [logs]
  · rw [h5, afterRecv_trace, ht_trace]
    unfold closes
    rw [List.count_append, List.count_append]
    have := closes_sent (chunks ((afterRecv h t).buf.drop (afterRecv h t).bytes_sent) cs)
    unfold closes at this
    rw [this]
    simp

/-- The rounds of the echo loop of the logging server for the messages of a session. -/
theorem logger_rounds (h : Handler) (hv : h.variant = .logger)
    (hq : h.quit_command = SERVER_COMMAND) :
    ∀ (ms : List (List Nat × List Nat)) (s : HState), s.pc = .receive → s.errno ≠ EINTR →
    (∀ p ∈ ms, p.1 ≠ [] ∧ p.1 ≠ SERVER_COMMAND ∧ p.1.length ≤ h.buf_len
      ∧ Chunking p.2 p.1.length) →
    ∃ s', hrun h s (ms.map fun p => Resp.data p.1 :: sends p.2).flatten = some s'
      ∧ s'.pc = .receive ∧ s'.errno = s.errno
      ∧ logs s'.trace = logs s.trace ++ (ms.map fun p => messageRecord h p.1)
      ∧ closes s'.trace = closes s.trace := by
  intro ms
  induction ms with
  | nil => intro s hpc _ _; exact ⟨s, rfl, hpc, rfl, by simp, rfl⟩
  | cons p ms ih =>
    intro s hpc he hms
    obtain ⟨hp1, hp2, hp3, hp4⟩ := hms p (List.mem_cons_self _ _)
    obtain ⟨s1, hr1, hpc1, he1, hl1, hc1⟩ :=
      logger_round h hv hq s hpc he p.1 p.2 hp1 hp2 hp3 hp4
    obtain ⟨s2, hr2, hpc2, he2, hl2, hc2⟩ := ih s1 hpc1 (by rw [he1]; exact he)
      (fun q hq' => hms q (List.mem_cons_of_mem _ hq'))
    refine ⟨s2, ?_, hpc2, by rw [he2, he1], ?_, by rw [hc2, hc1]⟩
    · simp only [List.map_cons, List.flatten_cons]
      rw [hrun_append, hr1]
      exact hr2
    · rw [hl2, hl1]; simp

/-- The end of a session in the logging server: a `recv` delivers the terminator, whose
record is passed to `my_log`; `close` returns 0 and the completion record is passed to
`my_log`. -/
theorem logger_quit (h : Handler) (hv : h.variant = .logger)
    (hq : h.quit_command = SERVER_COMMAND)
    (s : HState) (hpc : s.pc = .receive) (hb : SERVER_COMMAND.length ≤ h.buf_len) :
    ∃ s1 s2, hstep h s (.data SERVER_COMMAND) = some s1 ∧ s1.pc = .closing
      ∧ logs s1.trace = logs s.trace ++ [messageRecord h SERVER_COMMAND]
      ∧ closes s1.trace = closes s.trace
      ∧ hstep h s1 (.ret 0) = some s2 ∧ s2.pc = .returned
      ∧ s2.trace = s1.trace ++ [.closed, .logged h.log_done] := by
  have hs1 := hstep_data h s hpc SERVER_COMMAND (by decide) hb
  obtain ⟨t, et, hs1'⟩ : ∃ t, t = logReceived h
      ({ s with recv_bytes := SERVER_COMMAND.length,
                buf := SERVER_COMMAND ++ s.buf.drop SERVER_COMMAND.length }.emit
        (.received SERVER_COMMAND))
      ∧ hstep h s (.data SERVER_COMMAND) = some (afterRecv h t) := ⟨_, rfl, hs1⟩
  have ht_recv : t.recv_bytes = SERVER_COMMAND.length := by rw [et]; simp
  have ht_take : t.buf.take SERVER_COMMAND.length = SERVER_COMMAND := by
    have := logReceived_buf_take h
      ({ s with recv_bytes := SERVER_COMMAND.length,
                buf := SERVER_COMMAND ++ s.buf.drop SERVER_COMMAND.length }.emit
        (.received SERVER_COMMAND))
    simp only [emit_recv_bytes, emit_buf] at this
    rw [et, this, List.take_left]
  have ht_trace : t.trace = s.trace
      ++ [.received SERVER_COMMAND, .logged (messageRecord h SERVER_COMMAND)] := by
    rw [et, logReceived_trace]
    simp only [hv, if_true, emit_trace, emit_recv_bytes, emit_buf]
    have := received_log_msg_eq h (s.emit (.received SERVER_COMMAND)) SERVER_COMMAND
    simp only [emit_buf] at this
    simp [HState.emit] at this ⊢
    exact this
  have hisq : is_quit t.buf t.recv_bytes h.quit_command = true := by
    rw [hq, is_quit_iff _ _ _ strlen_SERVER_COMMAND, ht_recv, ht_take]
    exact ⟨rfl, rfl⟩
  have hafter : afterRecv h t = { t with pc := .closing } := by
    unfold afterRecv; rw [hisq]; rfl
  refine ⟨{ t with pc := .closing },
    { (({ t with pc := .closing } : HState).emit .closed).emit (.logged h.log_done) with
      pc := .returned }, ?_, rfl, ?_, ?_, ?_, rfl, ?_⟩
  · rw [hs1', hafter]
  · show logs t.trace = _
    rw [ht_trace, logs_append]; simp [logs]
  · show closes t.trace = _
    rw [ht_trace]; unfold closes; rw [List.count_append]; simp
  · simp [hstep, closeBody, hv]
  · simp [HState.emit]

set_option maxRecDepth 100000 in
/-- **C7 (failing input).** Thread-based LimitConn server, a session in which the client
sends the message "ab" and then the terminator: the welcome message goes out in one piece,
the `recv` is interrupted by a signal (`errno = EINTR`) and retried, then delivers "ab";
the first `send` of the echo transmits one byte and, because `errno` still is `EINTR`, the
test `ret == 1 && errno == EINTR` makes the loop `continue` without advancing `bytes_sent`;
the second `send` transmits "ab" from offset 0. Then the terminator arrives, the socket is
closed once and the handler returns after its `sem_post`. The handler has gone through its
states in order and performs no further call, but its whole output is the welcome message
followed by "aab", not by "ab". -/
theorem session_output_repeats_byte :
    (hrun (localHandler .thread) (connection_handler (localHandler .thread) 0)
        [.ret 144, .fail EINTR, .data (bytes "ab"), .ret 1, .ret 2, .data SERVER_COMMAND,
         .ret 0, .ret 0]).map
      (fun s => (s.pc, closes s.trace, posts s.trace, output s.trace))
      = some (.returned, 1, 1, (localHandler .thread).welcome ++ bytes "aab")
    ∧ (localHandler .thread).welcome ++ bytes "aab"
        ≠ (localHandler .thread).welcome ++ bytes "ab" := by
  decide

/-! ## Releases follow acquires -/

/-- A worker at its `sem_post` is one of the running workers. -/
theorem posting_is_running (s : Server) (i : Nat) (w : HState) (hw : s.workers[i]? = some w)
    (hp : w.pc = .posting) : 1 ≤ s.running := by
  unfold Server.running
  rw [countP_eq_weight]
  have := weight_get_le (fun x : HState => if x.pc.running then 1 else 0) s.workers i w hw
  simpa [hp, Pc.running] using this

theorem semOps_round (n k : Nat) : semOps (spec_round n k) = [.acquire, .release] := by
  unfold spec_round semOps
  split <;> rfl

theorem semOps_append (a b : List Ev) : semOps (a ++ b) = semOps a ++ semOps b := by
  simp [semOps]

/-- In the first `k` rounds of `client` every release follows its acquire. -/
theorem matched_rounds (n : Nat) : ∀ (k m : Nat),
    ((semOps (spec_rounds n k)).take m).count .release
      ≤ ((semOps (spec_rounds n k)).take m).count .acquire := by
  intro k
  induction k with
  | zero => intro m; simp [spec_rounds, semOps]
  | succ k ih =>
    intro m
    rw [spec_rounds_succ, semOps_append, semOps_round, List.take_append_eq_append_take,
      List.count_append, List.count_append]
    have h1 := ih m
    have h2 : (List.take (m - (semOps (spec_rounds n k)).length)
          [SemOp.acquire, SemOp.release]).count .release
        ≤ (List.take (m - (semOps (spec_rounds n k)).length)
          [SemOp.acquire, SemOp.release]).count .acquire := by
      rcases Nat.lt_or_ge (m - (semOps (spec_rounds n k)).length) 2 with hlt | hge
      · interval_cases (m - (semOps (spec_rounds n k)).length) <;> simp
      · rw [List.take_of_length_le (by simpa using hge)]
        simp
    omega

end CTeaching
